import Mathlib

/-!
# invoicer-cli: a shallow embedding of `index.mjs` and `src/generatePDF.mjs`

The development follows the data flow of the program:

* JavaScript strings, the built-in string methods the program calls
  (`toLowerCase`, `replace`, `endsWith`) and the file-name derivation of
  `createNewInvoice`;
* JavaScript numbers (IEEE-754 binary64 with round-to-nearest-even) and the
  built-ins `parseInt`, `parseFloat`, `+`, `Number.prototype.toFixed` and
  `Number::toString`;
* JavaScript values, `JSON.stringify(v, null, 2)` and `JSON.parse`;
* the prompt loop, the record store, the renderer adapter and the menu actions.

JavaScript strings are sequences of UTF-16 code units; a code unit is a `Nat`.
-/

set_option maxRecDepth 100000

namespace Invoicer

/-! ## Strings -/

/-- A JavaScript string: its UTF-16 code units. -/
abbrev JSString := List Nat

/-- UTF-16 code units of one Unicode scalar value. -/
def utf16 (c : Char) : List Nat :=
  if c.toNat < 65536 then [c.toNat]
  else [55296 + (c.toNat - 65536) / 1024, 56320 + (c.toNat - 65536) % 1024]

/-- The JavaScript string written as a string literal. -/
def js (s : String) : JSString := s.toList.flatMap utf16

/-- The code units matched by the regular-expression class `\s`, which are also
the code units removed by `String.prototype.trim`: WhiteSpace and
LineTerminator of ECMA-262. -/
def isWhiteSpace (c : Nat) : Bool :=
  c == 9 || c == 10 || c == 11 || c == 12 || c == 13 || c == 32 || c == 160 ||
  c == 5760 || (8192 ≤ c && c ≤ 8202) || c == 8232 || c == 8233 || c == 8239 ||
  c == 8287 || c == 12288 || c == 65279

/-- Lower-casing of one ASCII code unit. -/
def asciiLower (c : Nat) : Nat := if 65 ≤ c ∧ c ≤ 90 then c + 32 else c

/-- `String.prototype.toLowerCase`. On a string of ASCII code units it maps
`A`..`Z` to `a`..`z`; on any other string the result is given by the Unicode
case-mapping tables of the platform, which are the parameter `unicodeLower`. -/
def toLowerCase (unicodeLower : JSString → JSString) (s : JSString) : JSString :=
  if s.all (fun c => c < 128) then s.map asciiLower else unicodeLower s

/-- The worker of `replaceWhiteSpaceRuns`: `inRun` tells whether the previous code unit
was white space, in which case the hyphen of the current run is already
emitted. -/
def replaceWhiteSpaceRunsAux : Bool → JSString → JSString
  | _, [] => []
  | inRun, c :: cs =>
    if isWhiteSpace c then
      (if inRun then replaceWhiteSpaceRunsAux true cs else 45 :: replaceWhiteSpaceRunsAux true cs)
    else c :: replaceWhiteSpaceRunsAux false cs

/-- The call `s.replace(/\s+/g, "-")`: every maximal run of white space becomes one hyphen. -/
def replaceWhiteSpaceRuns (s : JSString) : JSString := replaceWhiteSpaceRunsAux false s

/-- The call `s.replace(pat, rep)` with a string pattern and a replacement
without `$`: only the first occurrence of `pat` is replaced. -/
def replaceFirst (pat rep : JSString) : JSString → JSString
  | [] => if pat = [] then rep else []
  | c :: cs =>
    if pat.isPrefixOf (c :: cs) then rep ++ (c :: cs).drop pat.length
    else c :: replaceFirst pat rep cs

/-- The call `s.endsWith(suffix)`. -/
def endsWith (s suffix : JSString) : Bool := suffix.isSuffixOf s

/-- The `fileName` field built by `createNewInvoice` (index.mjs line 79):
`${companyName.toLowerCase().replace(/\s+/g, "-")}-invoice.pdf`. -/
def fileNameOf (unicodeLower : JSString → JSString) (companyName : JSString) : JSString :=
  replaceWhiteSpaceRuns (toLowerCase unicodeLower companyName) ++ js "-invoice.pdf"

/-- The name of the record file written by `createNewInvoice` (index.mjs line 98):
`invoiceData.fileName.replace(".pdf", ".json")`. -/
def recordFileNameOf (unicodeLower : JSString → JSString) (companyName : JSString) : JSString :=
  replaceFirst (js ".pdf") (js ".json") (fileNameOf unicodeLower companyName)

/-- The listing filter of render-one, render-all and print (index.mjs lines 165, 207
and 223): `files.filter((file) => file.endsWith(".json"))`. -/
def jsonFilesOf (files : List JSString) : List JSString :=
  files.filter (fun file => endsWith file (js ".json"))

/-- `String.prototype.trim`: white space removed at both ends. -/
def trim (s : JSString) : JSString :=
  ((s.dropWhile isWhiteSpace).reverse.dropWhile isWhiteSpace).reverse

/-- The derivation of the file name in the words of the specification: the name
lower-cased, leading and trailing white space trimmed, every internal white-space
run collapsed to one hyphen, then `-invoice` and the extension. -/
def specFileNameOf (unicodeLower : JSString → JSString) (companyName ext : JSString) :
    JSString :=
  replaceWhiteSpaceRuns (trim (toLowerCase unicodeLower companyName)) ++ js "-invoice" ++ ext

/-- Whether the string begins with white space. -/
def startsWithWhiteSpace (s : JSString) : Bool :=
  match s with
  | [] => false
  | c :: _ => isWhiteSpace c

/-- Whether the string ends with white space. -/
def endsWithWhiteSpace (s : JSString) : Bool := startsWithWhiteSpace s.reverse

/-! ## Numbers: IEEE-754 binary64 -/

/-- A JavaScript Number. A finite value is `±m * 2^e`, held in the unique form in
which `m` is odd, or `m = 0` and `e = 0`; `fin true 0 0` is the negative zero. -/
inductive JSNumber where
  | nan
  | inf (neg : Bool)
  | fin (neg : Bool) (m : Nat) (e : Int)
  deriving DecidableEq, Repr

/-- The worker of `floorLog2`, recursive on `fuel`. -/
def floorLog2Aux : Nat → Nat → Nat
  | 0, _ => 0
  | fuel + 1, n => if n < 2 then 0 else floorLog2Aux fuel (n / 2) + 1

/-- The position of the leading bit of `n`: `2^(floorLog2 n) ≤ n < 2^(floorLog2 n + 1)`
for `n > 0`. -/
def floorLog2 (n : Nat) : Nat := floorLog2Aux n n

/-- The fraction `N / (D * 2^e)` as a pair of naturals. -/
def scaleFrac (N D : Nat) (e : Int) : Nat × Nat :=
  if 0 ≤ e then (N, D * 2 ^ e.toNat) else (N * 2 ^ (-e).toNat, D)

/-- The exponent of the unit in the last place of the binary64 values around
`N / D` (for `N, D > 0`): the `e` with `2^52 ≤ N / (D * 2^e) < 2^53`, and `-1074`
in the subnormal range. -/
def ulpExponent (N D : Nat) : Int :=
  let e0 : Int := (floorLog2 N : Int) - (floorLog2 D : Int) - 52
  let p := scaleFrac N D e0
  let e1 := if p.1 < 2 ^ 52 * p.2 then e0 - 1 else e0
  max e1 (-1074)

/-- The integer nearest to `N / D`, a tie going to the even one. -/
def roundHalfEven (N D : Nat) : Nat :=
  let q := N / D
  let r := N % D
  if 2 * r < D then q
  else if 2 * r = D then (if q % 2 = 0 then q else q + 1)
  else q + 1

/-- Removes up to `fuel` factors 2 from `m`, adding them to the exponent. -/
def stripTwos : Nat → Nat → Int → Nat × Int
  | 0, m, e => (m, e)
  | fuel + 1, m, e => if m % 2 = 0 ∧ m ≠ 0 then stripTwos fuel (m / 2) (e + 1) else (m, e)

/-- The finite Number `±m * 2^e` in its unique form. -/
def mkFin (neg : Bool) (m : Nat) (e : Int) : JSNumber :=
  if m = 0 then .fin neg 0 0
  else let p := stripTwos m m e; .fin neg p.1 p.2

/-- The Number value for the real `±N / D` (`D > 0`): round to nearest, ties to
even, overflow to infinity (ECMA-262 `𝔽`, IEEE-754 roundTiesToEven). -/
def roundToDouble (neg : Bool) (N D : Nat) : JSNumber :=
  if N = 0 then .fin neg 0 0
  else
    let e := ulpExponent N D
    let p := scaleFrac N D e
    let m := roundHalfEven p.1 p.2
    if 2 ^ 1024 ≤ m * 2 ^ (e + 1074).toNat / 2 ^ 1074 then .inf neg
    else mkFin neg m e

/-- The real value of a finite Number, and 0 for NaN and the infinities. -/
def JSNumber.toRat : JSNumber → ℚ
  | .fin neg m e => (if neg then -1 else 1) * (m : ℚ) * (2 : ℚ) ^ e
  | _ => 0

/-- The Number value of the integer `±n`. -/
def JSNumber.ofNat (n : Nat) : JSNumber := roundToDouble false n 1

/-- The Number value of `±d * 10^x`. -/
def roundDecimal (neg : Bool) (d : Nat) (x : Int) : JSNumber :=
  if 0 ≤ x then roundToDouble neg (d * 10 ^ x.toNat) 1
  else roundToDouble neg d (10 ^ (-x).toNat)

/-- The Number value of `±n * 2^e`. -/
def roundDyadic (neg : Bool) (n : Nat) (e : Int) : JSNumber :=
  if 0 ≤ e then roundToDouble neg (n * 2 ^ e.toNat) 1
  else roundToDouble neg n (2 ^ (-e).toNat)

/-- The signed mantissa of a finite value. -/
def signedInt (neg : Bool) (m : Nat) : Int := if neg then -(m : Int) else (m : Int)

/-- The operator `+` on Numbers (ECMA-262 Number::add). -/
def JSNumber.add : JSNumber → JSNumber → JSNumber
  | .nan, _ => .nan
  | _, .nan => .nan
  | .inf a, .inf b => if a = b then .inf a else .nan
  | .inf a, .fin _ _ _ => .inf a
  | .fin _ _ _, .inf b => .inf b
  | .fin n1 m1 e1, .fin n2 m2 e2 =>
    let e := min e1 e2
    let s : Int := signedInt n1 m1 * 2 ^ (e1 - e).toNat + signedInt n2 m2 * 2 ^ (e2 - e).toNat
    if s = 0 then .fin (n1 && n2) 0 0
    else roundDyadic (decide (s < 0)) s.natAbs e

/-! ## Numerals -/

/-- The decimal digits `0`..`9`. -/
def isDigit (c : Nat) : Bool := 48 ≤ c && c ≤ 57

/-- The value of a hexadecimal digit, if `c` is one. -/
def hexDigitValue (c : Nat) : Option Nat :=
  if 48 ≤ c ∧ c ≤ 57 then some (c - 48)
  else if 97 ≤ c ∧ c ≤ 102 then some (c - 87)
  else if 65 ≤ c ∧ c ≤ 70 then some (c - 55)
  else none

/-- The value of a string of decimal digits. -/
def digitsValue (ds : JSString) : Nat := ds.foldl (fun acc c => 10 * acc + (c - 48)) 0

/-- The value of a string of hexadecimal digits. -/
def hexDigitsValue (ds : JSString) : Nat :=
  ds.foldl (fun acc c => 16 * acc + (hexDigitValue c).getD 0) 0

/-- The worker of `decimalDigits`, recursive on `fuel`. -/
def decimalDigitsAux : Nat → Nat → JSString → JSString
  | 0, _, acc => acc
  | fuel + 1, n, acc =>
    if n < 10 then (48 + n) :: acc else decimalDigitsAux fuel (n / 10) ((48 + n % 10) :: acc)

/-- The decimal representation of `n`, without leading zeros (`"0"` for 0). -/
def decimalDigits (n : Nat) : JSString := decimalDigitsAux (n + 1) n []

/-- An optional ExponentPart `e`/`E`, optional sign, one or more digits at the head
of `s`: its value and the rest; `none` if `s` does not start with one. -/
def scanExponent (s : JSString) : Option (Int × JSString) :=
  match s with
  | [] => none
  | c :: r =>
    if c = 101 ∨ c = 69 then
      match r with
      | [] => none
      | d :: r2 =>
        if d = 43 then
          (if r2.takeWhile isDigit = [] then none
           else some ((digitsValue (r2.takeWhile isDigit) : Int), r2.dropWhile isDigit))
        else if d = 45 then
          (if r2.takeWhile isDigit = [] then none
           else some (-(digitsValue (r2.takeWhile isDigit) : Int), r2.dropWhile isDigit))
        else
          (if r.takeWhile isDigit = [] then none
           else some ((digitsValue (r.takeWhile isDigit) : Int), r.dropWhile isDigit))
    else none

/-- The longest prefix of `s` that is a StrUnsignedDecimalLiteral other than
`Infinity`, as mantissa digits `d` and decimal exponent `x` (value `d * 10^x`),
with the rest of `s`; `none` if there is no such prefix. -/
def scanUnsignedDecimal (s : JSString) : Option (Nat × Int × JSString) :=
  let i := s.takeWhile isDigit
  let r1 := s.dropWhile isDigit
  if i ≠ [] then
    match r1 with
    | 46 :: r2 =>
      let f := r2.takeWhile isDigit
      let r3 := r2.dropWhile isDigit
      (match scanExponent r3 with
       | some (x, r4) => some (digitsValue (i ++ f), x - f.length, r4)
       | none => some (digitsValue (i ++ f), -(f.length : Int), r3))
    | _ =>
      (match scanExponent r1 with
       | some (x, r4) => some (digitsValue i, x, r4)
       | none => some (digitsValue i, 0, r1))
  else
    match r1 with
    | 46 :: r2 =>
      let f := r2.takeWhile isDigit
      let r3 := r2.dropWhile isDigit
      if f = [] then none
      else
        (match scanExponent r3 with
         | some (x, r4) => some (digitsValue f, x - f.length, r4)
         | none => some (digitsValue f, -(f.length : Int), r3))
    | _ => none

/-- The longest prefix of `s` that is a StrUnsignedDecimalLiteral, as a Number of
sign `neg`; `nan` if there is none. -/
def unsignedDecimalValue (neg : Bool) (s : JSString) : JSNumber :=
  if (js "Infinity").isPrefixOf s then .inf neg
  else match scanUnsignedDecimal s with
    | some (d, x, _) => roundDecimal neg d x
    | none => .nan

/-- The global function `parseFloat` (ECMA-262 19.2.4): leading white space is
skipped, the longest prefix that is a StrDecimalLiteral is converted, and the
result is NaN when there is no such prefix. -/
def parseFloat (s : JSString) : JSNumber :=
  match s.dropWhile isWhiteSpace with
  | [] => .nan
  | c :: r =>
    if c = 45 then unsignedDecimalValue true r
    else if c = 43 then unsignedDecimalValue false r
    else unsignedDecimalValue false (c :: r)

/-- The digits of `parseInt` after the sign is removed: radix 16 after a prefix
`0x` or `0X`, radix 10 otherwise; `none` when there is no digit. -/
def parseIntMagnitude (s : JSString) : Option Nat :=
  match s with
  | 48 :: x :: r =>
    if x = 120 ∨ x = 88 then
      (if r.takeWhile (fun c => (hexDigitValue c).isSome) = [] then none
       else some (hexDigitsValue (r.takeWhile (fun c => (hexDigitValue c).isSome))))
    else some (digitsValue (s.takeWhile isDigit))
  | _ => if s.takeWhile isDigit = [] then none else some (digitsValue (s.takeWhile isDigit))

/-- The global function `parseInt` called with one argument (ECMA-262 19.2.5). -/
def parseInt (s : JSString) : JSNumber :=
  match s.dropWhile isWhiteSpace with
  | [] => .nan
  | c :: r =>
    let neg := decide (c = 45)
    let body := if c = 45 ∨ c = 43 then r else c :: r
    match parseIntMagnitude body with
    | none => .nan
    | some n => roundToDouble neg n 1

/-! ## Number to string -/

/-- The number of zeros between the decimal point and the first non-zero digit of
`A / B`, for `0 < A < B`: the least `z` with `B ≤ A * 10^(z+1)`. -/
def leadingZeros : Nat → Nat → Nat → Nat → Nat
  | 0, _, _, z => z
  | fuel + 1, A, B, z => if B ≤ A * 10 ^ (z + 1) then z else leadingZeros fuel A B (z + 1)

/-- The `n` with `10^(n-1) ≤ A / B < 10^n`, for `A, B > 0`. -/
def decimalExponent (A B : Nat) : Int :=
  if B ≤ A then ((decimalDigits (A / B)).length : Int)
  else -(leadingZeros B A B 0 : Int)

/-- The search for the shortest digit string of ECMA-262 Number::toString step 5:
for `k = k0, k0 + 1, ...` the two integers `s` around `x / 10^(n-k)` are tried, and
the first `k` for which one of them converts back to `x` wins; of two that do, the
one nearer to `x` is taken, and the even one on a tie. `x = m * 2^e = A / B`. -/
def shortestDigits (m : Nat) (e : Int) (A B : Nat) (n : Int) : Nat → Nat → Option (Nat × Nat)
  | 0, _ => none
  | fuel + 1, k =>
    let p : Nat × Nat :=
      if n ≤ (k : Int) then (A * 10 ^ ((k : Int) - n).toNat, B)
      else (A, B * 10 ^ (n - (k : Int)).toNat)
    let lo := p.1 / p.2
    let r := p.1 % p.2
    let okLo := decide (roundDecimal false lo (n - (k : Int)) = .fin false m e)
    let okHi := decide (r ≠ 0) && decide (roundDecimal false (lo + 1) (n - (k : Int)) = .fin false m e)
    if okLo && okHi then
      (if 2 * r < p.2 then some (lo, k)
       else if 2 * r = p.2 then (if lo % 2 = 0 then some (lo, k) else some (lo + 1, k))
       else some (lo + 1, k))
    else if okLo then some (lo, k)
    else if okHi then some (lo + 1, k)
    else shortestDigits m e A B n fuel (k + 1)

/-- The string of zeros of length `n`. -/
def zeros (n : Nat) : JSString := List.replicate n 48

/-- ECMA-262 Number::toString steps 5 to 10 for the digits `ds` (of `s`, `k` of
them) and the exponent `n`. -/
def formatDigits (ds : JSString) (n : Int) : JSString :=
  let k : Int := ds.length
  if k ≤ n ∧ n ≤ 21 then ds ++ zeros (n - k).toNat
  else if 0 < n ∧ n ≤ 21 then ds.take n.toNat ++ [46] ++ ds.drop n.toNat
  else if -6 < n ∧ n ≤ 0 then [48, 46] ++ zeros (-n).toNat ++ ds
  else
    let x := n - 1
    let sign : Nat := if x < 0 then 45 else 43
    if ds.length = 1 then ds ++ [101, sign] ++ decimalDigits x.natAbs
    else ds.take 1 ++ [46] ++ ds.drop 1 ++ [101, sign] ++ decimalDigits x.natAbs

/-- Number::toString for the positive finite value `m * 2^e`. -/
def positiveToString (m : Nat) (e : Int) : JSString :=
  let A := if 0 ≤ e then m * 2 ^ e.toNat else m
  let B := if 0 ≤ e then 1 else 2 ^ (-e).toNat
  let n := decimalExponent A B
  let exact := if 0 ≤ e then m * 2 ^ e.toNat else m * 5 ^ (-e).toNat
  match shortestDigits m e A B n (decimalDigits exact).length 1 with
  | some (s, k) =>
    if s = 10 ^ k then formatDigits (decimalDigits (10 ^ (k - 1))) (n + 1)
    else formatDigits (decimalDigits s) n
  | none => formatDigits (decimalDigits exact) n

/-- ECMA-262 Number::toString with radix 10. -/
def JSNumber.toString : JSNumber → JSString
  | .nan => js "NaN"
  | .inf neg => if neg then js "-Infinity" else js "Infinity"
  | .fin neg m e =>
    if m = 0 then js "0"
    else if neg then 45 :: positiveToString m e
    else positiveToString m e

/-- The method `Number.prototype.toFixed(f)` for `0 ≤ f ≤ 100` (ECMA-262 21.1.3.3). -/
def JSNumber.toFixed (f : Nat) : JSNumber → JSString
  | .nan => js "NaN"
  | .inf neg => if neg then js "-Infinity" else js "Infinity"
  | .fin neg m e =>
    let A := if 0 ≤ e then m * 2 ^ e.toNat else m
    let B := if 0 ≤ e then 1 else 2 ^ (-e).toNat
    let sign : JSString := if neg ∧ m ≠ 0 then [45] else []
    if 10 ^ 21 * B ≤ A then sign ++ positiveToString m e
    else
      let n := (2 * A * 10 ^ f + B) / (2 * B)
      let ds := decimalDigits n
      let padded := if ds.length ≤ f then zeros (f + 1 - ds.length) ++ ds else ds
      if f = 0 then sign ++ padded
      else sign ++ padded.take (padded.length - f) ++ [46] ++ padded.drop (padded.length - f)

/-! ## Values -/

/-- A JavaScript value. An object is the list of its own enumerable properties in
enumeration order. -/
inductive JSValue where
  | undefined
  | null
  | bool (b : Bool)
  | num (n : JSNumber)
  | str (s : JSString)
  | arr (xs : List JSValue)
  | obj (ps : List (JSString × JSValue))

mutual
/-- Decidable equality of values. -/
def JSValue.decEq : (a b : JSValue) → Decidable (a = b)
  | .undefined, .undefined => isTrue rfl
  | .undefined, .null => isFalse (fun h => JSValue.noConfusion h)
  | .undefined, .bool _ => isFalse (fun h => JSValue.noConfusion h)
  | .undefined, .num _ => isFalse (fun h => JSValue.noConfusion h)
  | .undefined, .str _ => isFalse (fun h => JSValue.noConfusion h)
  | .undefined, .arr _ => isFalse (fun h => JSValue.noConfusion h)
  | .undefined, .obj _ => isFalse (fun h => JSValue.noConfusion h)
  | .null, .undefined => isFalse (fun h => JSValue.noConfusion h)
  | .null, .null => isTrue rfl
  | .null, .bool _ => isFalse (fun h => JSValue.noConfusion h)
  | .null, .num _ => isFalse (fun h => JSValue.noConfusion h)
  | .null, .str _ => isFalse (fun h => JSValue.noConfusion h)
  | .null, .arr _ => isFalse (fun h => JSValue.noConfusion h)
  | .null, .obj _ => isFalse (fun h => JSValue.noConfusion h)
  | .bool _, .undefined => isFalse (fun h => JSValue.noConfusion h)
  | .bool _, .null => isFalse (fun h => JSValue.noConfusion h)
  | .bool b1, .bool b2 =>
    match (inferInstance : Decidable (b1 = b2)) with
    | isTrue h => isTrue (congrArg JSValue.bool h)
    | isFalse h => isFalse (fun h2 => h (JSValue.bool.inj h2))
  | .bool _, .num _ => isFalse (fun h => JSValue.noConfusion h)
  | .bool _, .str _ => isFalse (fun h => JSValue.noConfusion h)
  | .bool _, .arr _ => isFalse (fun h => JSValue.noConfusion h)
  | .bool _, .obj _ => isFalse (fun h => JSValue.noConfusion h)
  | .num _, .undefined => isFalse (fun h => JSValue.noConfusion h)
  | .num _, .null => isFalse (fun h => JSValue.noConfusion h)
  | .num _, .bool _ => isFalse (fun h => JSValue.noConfusion h)
  | .num n1, .num n2 =>
    match (inferInstance : Decidable (n1 = n2)) with
    | isTrue h => isTrue (congrArg JSValue.num h)
    | isFalse h => isFalse (fun h2 => h (JSValue.num.inj h2))
  | .num _, .str _ => isFalse (fun h => JSValue.noConfusion h)
  | .num _, .arr _ => isFalse (fun h => JSValue.noConfusion h)
  | .num _, .obj _ => isFalse (fun h => JSValue.noConfusion h)
  | .str _, .undefined => isFalse (fun h => JSValue.noConfusion h)
  | .str _, .null => isFalse (fun h => JSValue.noConfusion h)
  | .str _, .bool _ => isFalse (fun h => JSValue.noConfusion h)
  | .str _, .num _ => isFalse (fun h => JSValue.noConfusion h)
  | .str s1, .str s2 =>
    match (inferInstance : Decidable (s1 = s2)) with
    | isTrue h => isTrue (congrArg JSValue.str h)
    | isFalse h => isFalse (fun h2 => h (JSValue.str.inj h2))
  | .str _, .arr _ => isFalse (fun h => JSValue.noConfusion h)
  | .str _, .obj _ => isFalse (fun h => JSValue.noConfusion h)
  | .arr _, .undefined => isFalse (fun h => JSValue.noConfusion h)
  | .arr _, .null => isFalse (fun h => JSValue.noConfusion h)
  | .arr _, .bool _ => isFalse (fun h => JSValue.noConfusion h)
  | .arr _, .num _ => isFalse (fun h => JSValue.noConfusion h)
  | .arr _, .str _ => isFalse (fun h => JSValue.noConfusion h)
  | .arr xs1, .arr xs2 =>
    match JSValue.decEqList xs1 xs2 with
    | isTrue h => isTrue (congrArg JSValue.arr h)
    | isFalse h => isFalse (fun h2 => h (JSValue.arr.inj h2))
  | .arr _, .obj _ => isFalse (fun h => JSValue.noConfusion h)
  | .obj _, .undefined => isFalse (fun h => JSValue.noConfusion h)
  | .obj _, .null => isFalse (fun h => JSValue.noConfusion h)
  | .obj _, .bool _ => isFalse (fun h => JSValue.noConfusion h)
  | .obj _, .num _ => isFalse (fun h => JSValue.noConfusion h)
  | .obj _, .str _ => isFalse (fun h => JSValue.noConfusion h)
  | .obj _, .arr _ => isFalse (fun h => JSValue.noConfusion h)
  | .obj ps1, .obj ps2 =>
    match JSValue.decEqProps ps1 ps2 with
    | isTrue h => isTrue (congrArg JSValue.obj h)
    | isFalse h => isFalse (fun h2 => h (JSValue.obj.inj h2))
/-- Decidable equality of lists of values. -/
def JSValue.decEqList : (a b : List JSValue) → Decidable (a = b)
  | [], [] => isTrue rfl
  | [], _ :: _ => isFalse (fun h => List.noConfusion h)
  | _ :: _, [] => isFalse (fun h => List.noConfusion h)
  | x :: xs, y :: ys =>
    match JSValue.decEq x y, JSValue.decEqList xs ys with
    | isTrue h1, isTrue h2 => isTrue (by rw [h1, h2])
    | isFalse h1, _ => isFalse (fun h => h1 (List.cons.inj h).1)
    | _, isFalse h2 => isFalse (fun h => h2 (List.cons.inj h).2)
/-- Decidable equality of property lists. -/
def JSValue.decEqProps : (a b : List (JSString × JSValue)) → Decidable (a = b)
  | [], [] => isTrue rfl
  | [], _ :: _ => isFalse (fun h => List.noConfusion h)
  | _ :: _, [] => isFalse (fun h => List.noConfusion h)
  | (k1, v1) :: ps, (k2, v2) :: qs =>
    match (inferInstance : Decidable (k1 = k2)), JSValue.decEq v1 v2, JSValue.decEqProps ps qs with
    | isTrue h1, isTrue h2, isTrue h3 => isTrue (by rw [h1, h2, h3])
    | isFalse h1, _, _ => isFalse (fun h => h1 (Prod.mk.inj (List.cons.inj h).1).1)
    | _, isFalse h2, _ => isFalse (fun h => h2 (Prod.mk.inj (List.cons.inj h).1).2)
    | _, _, isFalse h3 => isFalse (fun h => h3 (List.cons.inj h).2)
end

instance : DecidableEq JSValue := JSValue.decEq

/-- The errors the program can meet: a `SyntaxError` (of `JSON.parse`), a
`TypeError`, a file-system error with its `code`, and an error raised by the
external renderer. -/
inductive JSError where
  | syntaxError
  | typeError
  | system (code : JSString)
  | renderer
  deriving DecidableEq

instance {ε α : Type} [DecidableEq ε] [DecidableEq α] : DecidableEq (Except ε α)
  | .ok a, .ok b =>
    if h : a = b then isTrue (congrArg Except.ok h) else isFalse (fun h2 => h (Except.ok.inj h2))
  | .error a, .error b =>
    if h : a = b then isTrue (congrArg Except.error h)
    else isFalse (fun h2 => h (Except.error.inj h2))
  | .ok _, .error _ => isFalse (fun h => Except.noConfusion h)
  | .error _, .ok _ => isFalse (fun h => Except.noConfusion h)

mutual
/-- The abstract operation ToString on a value, as applied by a template literal. -/
def JSValue.toJSString : JSValue → JSString
  | .undefined => js "undefined"
  | .null => js "null"
  | .bool b => if b then js "true" else js "false"
  | .num n => n.toString
  | .str s => s
  | .arr xs => JSValue.joinElements xs
  | .obj _ => js "[object Object]"
/-- The string an array element contributes to `Array.prototype.join`: the empty
string for `undefined` and `null`, ToString of the element otherwise. -/
def JSValue.elementString : JSValue → JSString
  | .undefined => []
  | .null => []
  | .bool b => if b then js "true" else js "false"
  | .num n => n.toString
  | .str s => s
  | .arr xs => JSValue.joinElements xs
  | .obj _ => js "[object Object]"
/-- The method `Array.prototype.join` with the separator `,`. -/
def JSValue.joinElements : List JSValue → JSString
  | [] => []
  | x :: rest =>
    match rest with
    | [] => JSValue.elementString x
    | _ :: _ => JSValue.elementString x ++ [44] ++ JSValue.joinElements rest
end

/-- The value of the own property `key` in a property list. -/
def lookupProperty (key : JSString) : List (JSString × JSValue) → JSValue
  | [] => .undefined
  | (k, v) :: ps => if k = key then v else lookupProperty key ps

/-- The property access `v.key` for a key that no primitive and no array has (the
program reads `fileName` and `data`): a `TypeError` on `undefined` and `null`,
`undefined` where the property is absent. -/
def getProperty (v : JSValue) (key : JSString) : Except JSError JSValue :=
  match v with
  | .undefined => .error .typeError
  | .null => .error .typeError
  | .obj ps => .ok (lookupProperty key ps)
  | _ => .ok .undefined

/-! ## JSON.stringify -/

/-- One lower-case hexadecimal digit. -/
def hexDigit (d : Nat) : Nat := if d < 10 then 48 + d else 87 + d

/-- The escape `\uXXXX` of a code unit. -/
def unicodeEscape (c : Nat) : JSString :=
  [92, 117, hexDigit (c / 4096 % 16), hexDigit (c / 256 % 16), hexDigit (c / 16 % 16),
    hexDigit (c % 16)]

/-- A leading (high) surrogate. -/
def isHighSurrogate (c : Nat) : Bool := 55296 ≤ c && c ≤ 56319

/-- A trailing (low) surrogate. -/
def isLowSurrogate (c : Nat) : Bool := 56320 ≤ c && c ≤ 57343

/-- The body of QuoteJSONString (ECMA-262 25.5.2.3). `afterHigh` tells that the
previous code unit was the leading half of a surrogate pair. -/
def quoteJSONBody : Bool → JSString → JSString
  | _, [] => []
  | afterHigh, c :: r =>
    if c = 8 then [92, 98] ++ quoteJSONBody false r
    else if c = 9 then [92, 116] ++ quoteJSONBody false r
    else if c = 10 then [92, 110] ++ quoteJSONBody false r
    else if c = 12 then [92, 102] ++ quoteJSONBody false r
    else if c = 13 then [92, 114] ++ quoteJSONBody false r
    else if c = 34 then [92, 34] ++ quoteJSONBody false r
    else if c = 92 then [92, 92] ++ quoteJSONBody false r
    else if c < 32 then unicodeEscape c ++ quoteJSONBody false r
    else if isHighSurrogate c then
      (match r with
       | [] => unicodeEscape c
       | d :: _ =>
         if isLowSurrogate d then c :: quoteJSONBody true r
         else unicodeEscape c ++ quoteJSONBody false r)
    else if isLowSurrogate c then
      (if afterHigh then c :: quoteJSONBody false r else unicodeEscape c ++ quoteJSONBody false r)
    else c :: quoteJSONBody false r

/-- The abstract operation QuoteJSONString. -/
def quoteJSONString (s : JSString) : JSString := [34] ++ quoteJSONBody false s ++ [34]

/-- The strings of `parts` joined by `sep`. -/
def joinWith (sep : JSString) : List JSString → JSString
  | [] => []
  | x :: rest =>
    match rest with
    | [] => x
    | _ :: _ => x ++ sep ++ joinWith sep rest

/-- The text of a JSON array or object with the brackets `left` and `right`
(SerializeJSONArray and SerializeJSONObject, the steps after `partial` is built). -/
def wrapParts (gap stepback : JSString) (left right : Nat) (parts : List JSString) : JSString :=
  match parts with
  | [] => [left, right]
  | _ :: _ =>
    if gap = [] then [left] ++ joinWith [44] parts ++ [right]
    else [left, 10] ++ (stepback ++ gap) ++ joinWith ([44, 10] ++ (stepback ++ gap)) parts ++
      [10] ++ stepback ++ [right]

mutual
/-- The abstract operation SerializeJSONProperty (ECMA-262 25.5.2.2) on a value
without `toJSON`, with the indentation unit `gap` and the current `indent`:
`none` stands for `undefined`. -/
def serializeJSONProperty (gap indent : JSString) : JSValue → Option JSString
  | .undefined => none
  | .null => some (js "null")
  | .bool b => some (if b then js "true" else js "false")
  | .num n =>
    (match n with
     | .fin _ _ _ => some n.toString
     | _ => some (js "null"))
  | .str s => some (quoteJSONString s)
  | .arr xs => some (wrapParts gap indent 91 93 (serializeJSONElements gap (indent ++ gap) xs))
  | .obj ps => some (wrapParts gap indent 123 125 (serializeJSONMembers gap (indent ++ gap) ps))
/-- The list `partial` of SerializeJSONArray: an element that serialises to
`undefined` is written `null`. -/
def serializeJSONElements (gap indent : JSString) : List JSValue → List JSString
  | [] => []
  | x :: xs =>
    (match serializeJSONProperty gap indent x with
     | some t => t
     | none => js "null") :: serializeJSONElements gap indent xs
/-- The list `partial` of SerializeJSONObject: a property that serialises to
`undefined` is left out. -/
def serializeJSONMembers (gap indent : JSString) : List (JSString × JSValue) → List JSString
  | [] => []
  | (k, v) :: ps =>
    match serializeJSONProperty gap indent v with
    | some t =>
      (quoteJSONString k ++ [58] ++ (if gap = [] then [] else [32]) ++ t) ::
        serializeJSONMembers gap indent ps
    | none => serializeJSONMembers gap indent ps
end

/-- The call `JSON.stringify(v, null, 2)`; `none` stands for `undefined`. -/
def JSON_stringify (v : JSValue) : Option JSString := serializeJSONProperty [32, 32] [] v

/-! ## JSON.parse -/

/-- JSON white space: tab, line feed, carriage return, space. -/
def isJSONWhiteSpace (c : Nat) : Bool := c == 9 || c == 10 || c == 13 || c == 32

/-- The rest of the text after leading JSON white space. -/
def skipWhiteSpace (s : JSString) : JSString := s.dropWhile isJSONWhiteSpace

/-- The state of the scanner of a JSON string: between characters, after a
backslash, or inside `\uXXXX` with `n` digits to come and the value `acc` so far. -/
inductive StringState where
  | normal
  | escape
  | hex (n : Nat) (acc : Nat)

/-- The code unit of a two-character escape `\"`, `\\`, `\/`, `\b`, `\f`, `\n`, `\r`, `\t`. -/
def simpleEscape (x : Nat) : Option Nat :=
  if x = 34 then some 34 else if x = 92 then some 92 else if x = 47 then some 47
  else if x = 98 then some 8 else if x = 102 then some 12 else if x = 110 then some 10
  else if x = 114 then some 13 else if x = 116 then some 9 else none

/-- One more code unit in front of a scanned string. -/
def prepend (u : Nat) (r : Option (JSString × JSString)) : Option (JSString × JSString) :=
  match r with
  | some (t, rest) => some (u :: t, rest)
  | none => none

/-- The scanner of a JSON string, one code unit at a time: a control character below
U+0020 and an unknown escape are errors. -/
def parseJSONStringAux : StringState → JSString → Option (JSString × JSString)
  | _, [] => none
  | .normal, c :: r =>
    if c = 34 then some ([], r)
    else if c = 92 then parseJSONStringAux .escape r
    else if c < 32 then none
    else prepend c (parseJSONStringAux .normal r)
  | .escape, x :: r =>
    if x = 117 then parseJSONStringAux (.hex 4 0) r
    else
      match simpleEscape x with
      | some u => prepend u (parseJSONStringAux .normal r)
      | none => none
  | .hex n acc, h :: r =>
    match hexDigitValue h with
    | none => none
    | some d =>
      if n ≤ 1 then prepend (16 * acc + d) (parseJSONStringAux .normal r)
      else parseJSONStringAux (.hex (n - 1) (16 * acc + d)) r

/-- The characters of a JSON string after its opening quote, up to the closing
quote, with the escapes resolved, and the rest of the text. -/
def parseJSONString (s : JSString) : Option (JSString × JSString) :=
  parseJSONStringAux .normal s

/-- A JSON number at the head of `s` (the sign already removed): integer part
without a leading zero, optional fraction, optional exponent. -/
def scanJSONNumber (neg : Bool) (s : JSString) : Option (JSNumber × JSString) :=
  let i := s.takeWhile isDigit
  let r1 := if s.head? = some 48 then s.drop 1 else s.dropWhile isDigit
  let ip := if s.head? = some 48 then [48] else i
  if ip = [] then none
  else
    match r1 with
    | 46 :: r2 =>
      let f := r2.takeWhile isDigit
      let r3 := r2.dropWhile isDigit
      if f = [] then none
      else
        (match r3 with
         | 101 :: _ =>
           (match scanExponent r3 with
            | some (x, r4) => some (roundDecimal neg (digitsValue (ip ++ f)) (x - f.length), r4)
            | none => none)
         | 69 :: _ =>
           (match scanExponent r3 with
            | some (x, r4) => some (roundDecimal neg (digitsValue (ip ++ f)) (x - f.length), r4)
            | none => none)
         | _ => some (roundDecimal neg (digitsValue (ip ++ f)) (-(f.length : Int)), r3))
    | 101 :: _ =>
      (match scanExponent r1 with
       | some (x, r4) => some (roundDecimal neg (digitsValue ip) x, r4)
       | none => none)
    | 69 :: _ =>
      (match scanExponent r1 with
       | some (x, r4) => some (roundDecimal neg (digitsValue ip) x, r4)
       | none => none)
    | _ => some (roundDecimal neg (digitsValue ip) 0, r1)

/-- The key of an array index: the canonical decimal numeral of an integer below
`2^32 - 1`. -/
def arrayIndex (k : JSString) : Option Nat :=
  if k ≠ [] ∧ k.all isDigit ∧ decimalDigits (digitsValue k) = k ∧ digitsValue k < 4294967295
  then some (digitsValue k) else none

/-- A new property in enumeration order: array indices first, in ascending order,
then the other keys in creation order. -/
def insertProperty (k : JSString) (v : JSValue) :
    List (JSString × JSValue) → List (JSString × JSValue)
  | [] => [(k, v)]
  | (k2, v2) :: ps =>
    match arrayIndex k with
    | none => (k2, v2) :: insertProperty k v ps
    | some i =>
      match arrayIndex k2 with
      | some j => if j < i then (k2, v2) :: insertProperty k v ps else (k, v) :: (k2, v2) :: ps
      | none => (k, v) :: (k2, v2) :: ps

/-- The abstract operation CreateDataProperty on an ordinary object: an existing
property keeps its place and takes the new value. -/
def setProperty (ps : List (JSString × JSValue)) (k : JSString) (v : JSValue) :
    List (JSString × JSValue) :=
  if ps.any (fun p => decide (p.1 = k)) then ps.map (fun p => if p.1 = k then (k, v) else p)
  else insertProperty k v ps

mutual
/-- A JSON value at the head of `s`, after optional white space, and the rest of
the text; `fuel` bounds the nesting and the number of elements. -/
def parseJSONValue : Nat → JSString → Option (JSValue × JSString)
  | 0, _ => none
  | fuel + 1, s =>
    match skipWhiteSpace s with
    | [] => none
    | c :: r =>
      if c = 34 then
        (match parseJSONString r with
         | some (t, rest) => some (.str t, rest)
         | none => none)
      else if c = 91 then
        (match skipWhiteSpace r with
         | 93 :: rest => some (.arr [], rest)
         | _ =>
           match parseJSONElements fuel r with
           | some (xs, rest) => some (.arr xs, rest)
           | none => none)
      else if c = 123 then
        (match skipWhiteSpace r with
         | 125 :: rest => some (.obj [], rest)
         | _ =>
           match parseJSONMembers fuel [] r with
           | some (ps, rest) => some (.obj ps, rest)
           | none => none)
      else if c = 45 then
        (match scanJSONNumber true r with
         | some (n, rest) => some (.num n, rest)
         | none => none)
      else if isDigit c then
        (match scanJSONNumber false (c :: r) with
         | some (n, rest) => some (.num n, rest)
         | none => none)
      else if (js "null").isPrefixOf (c :: r) then some (.null, (c :: r).drop 4)
      else if (js "true").isPrefixOf (c :: r) then some (.bool true, (c :: r).drop 4)
      else if (js "false").isPrefixOf (c :: r) then some (.bool false, (c :: r).drop 5)
      else none
/-- The elements of a JSON array after its `[`, up to and including its `]`. -/
def parseJSONElements : Nat → JSString → Option (List JSValue × JSString)
  | 0, _ => none
  | fuel + 1, s =>
    match parseJSONValue fuel s with
    | none => none
    | some (v, r) =>
      match skipWhiteSpace r with
      | 93 :: rest => some ([v], rest)
      | 44 :: rest =>
        (match parseJSONElements fuel rest with
         | some (vs, rest2) => some (v :: vs, rest2)
         | none => none)
      | _ => none
/-- The members of a JSON object after its `{`, up to and including its `}`,
added in order to the properties `acc`. -/
def parseJSONMembers : Nat → List (JSString × JSValue) → JSString →
    Option (List (JSString × JSValue) × JSString)
  | 0, _, _ => none
  | fuel + 1, acc, s =>
    match skipWhiteSpace s with
    | 34 :: r =>
      (match parseJSONString r with
       | none => none
       | some (k, r2) =>
         match skipWhiteSpace r2 with
         | 58 :: r3 =>
           (match parseJSONValue fuel r3 with
            | none => none
            | some (v, r4) =>
              match skipWhiteSpace r4 with
              | 125 :: rest => some (setProperty acc k v, rest)
              | 44 :: rest => parseJSONMembers fuel (setProperty acc k v) rest
              | _ => none)
         | _ => none)
    | _ => none
end

/-- The call `JSON.parse(text)`: the value of the text, or a `SyntaxError` when it
is not one JSON value surrounded by optional white space. -/
def JSON_parse (text : JSString) : Except JSError JSValue :=
  match parseJSONValue (text.length + 1) text with
  | some (v, rest) =>
    (match skipWhiteSpace rest with
     | [] => .ok v
     | _ :: _ => .error .syntaxError)
  | none => .error .syntaxError

/-! ## The file system -/

/-- A normalised absolute path: its segments below the root. -/
abbrev Path := List JSString

/-- The segments of a path string, split at `/`. -/
def splitSegments (s : JSString) : List JSString :=
  s.splitOn 47

/-- POSIX `path.normalize` on segments: empty segments and `.` are dropped, `..`
removes the segment before it (and is dropped at the root). `acc` is the result so
far, reversed. -/
def normalizeSegments : List JSString → List JSString → Path
  | acc, [] => acc.reverse
  | acc, seg :: rest =>
    if seg = [] ∨ seg = [46] then normalizeSegments acc rest
    else if seg = [46, 46] then normalizeSegments (acc.drop 1) rest
    else normalizeSegments (seg :: acc) rest

/-- The call `path.join(base, name)` for a normalised absolute `base` (POSIX). -/
def pathJoin (base : Path) (name : JSString) : Path :=
  normalizeSegments base.reverse (splitSegments name)

/-- The string of an absolute path. -/
def pathString (p : Path) : JSString :=
  match p with
  | [] => [47]
  | _ :: _ => (p.map (fun seg => 47 :: seg)).flatten

/-- A node of the file system: a regular file with its text, or a directory. -/
inductive Node where
  | file (content : JSString)
  | dir
  deriving DecidableEq

/-- The file system: the nodes below the root in directory-listing order, and the
faults of the environment, each the error code with which `mkdir` fails on a path
(`EACCES`, `EROFS`, ...). -/
structure FS where
  nodes : List (Path × Node)
  mkdirFaults : List (Path × JSString)
  deriving DecidableEq

/-- The node at a path; the root is a directory. -/
def FS.lookup (fs : FS) (p : Path) : Option Node :=
  if p = [] then some .dir else (fs.nodes.find? (fun q => decide (q.1 = p))).map (fun q => q.2)

/-- The worker of `FS.mkdirRecursive`: `pre` exists and is a directory. -/
def mkdirAux (fs : FS) (pre : Path) : List JSString → Except JSError FS
  | [] => .ok fs
  | seg :: rest =>
    match fs.lookup (pre ++ [seg]), rest with
    | some (.file _), [] => .error (.system (js "EEXIST"))
    | some (.file _), _ :: _ => .error (.system (js "ENOTDIR"))
    | some .dir, _ => mkdirAux fs (pre ++ [seg]) rest
    | none, _ =>
      mkdirAux { fs with nodes := fs.nodes ++ [(pre ++ [seg], .dir)] } (pre ++ [seg]) rest

/-- The call `mkdir(p, { recursive: true })`: success when `p` is a directory
already, `EEXIST` when `p` is a file, `ENOTDIR` when an ancestor is a file, the
fault of the environment when there is one. -/
def FS.mkdirRecursive (fs : FS) (p : Path) : Except JSError FS :=
  match fs.mkdirFaults.find? (fun q => decide (q.1 = p)) with
  | some q => .error (.system q.2)
  | none => mkdirAux fs [] p

/-- The call `writeFile(p, content)`: the parent of `p` must be a directory. -/
def FS.writeFile (fs : FS) (p : Path) (content : JSString) : Except JSError FS :=
  if p = [] then .error (.system (js "EISDIR"))
  else
    match fs.lookup p.dropLast with
    | none => .error (.system (js "ENOENT"))
    | some (.file _) => .error (.system (js "ENOTDIR"))
    | some .dir =>
      match fs.lookup p with
      | some .dir => .error (.system (js "EISDIR"))
      | some (.file _) =>
        .ok { fs with nodes := fs.nodes.map (fun q => if q.1 = p then (p, .file content) else q) }
      | none => .ok { fs with nodes := fs.nodes ++ [(p, .file content)] }

/-- The call `readFile(p, "utf-8")`. -/
def FS.readFile (fs : FS) (p : Path) : Except JSError JSString :=
  match fs.lookup p with
  | none => .error (.system (js "ENOENT"))
  | some .dir => .error (.system (js "EISDIR"))
  | some (.file content) => .ok content

/-- The call `readdir(p)`: the names of the entries of the directory `p`. -/
def FS.readdir (fs : FS) (p : Path) : Except JSError (List JSString) :=
  match fs.lookup p with
  | none => .error (.system (js "ENOENT"))
  | some (.file _) => .error (.system (js "ENOTDIR"))
  | some .dir =>
    .ok (fs.nodes.filterMap (fun q =>
      if q.1 ≠ [] ∧ q.1.dropLast = p then q.1.getLast? else none))

/-! ## The world of the program -/

/-- The external renderer `@twosdai/microinvoice`, a capability outside the
repository: whether `new MicroInvoice(data)` throws, and whether
`generate(path)` fails on an instance built from `data`. -/
structure Renderer where
  constructThrows : JSValue → Bool
  generateFails : JSValue → JSString → Bool

/-- One use of the renderer: the value it was constructed with, the path handed to
`generate`, and whether `generate` succeeded. -/
structure RenderCall where
  data : JSValue
  path : JSString
  succeeded : Bool
  deriving DecidableEq

/-- A line of output: `console.log(text)`, or `console.error(label, error)`. -/
inductive Output where
  | log (text : JSString)
  | error (label : JSString) (e : JSError)
  deriving DecidableEq

/-- The four actions of the menu. -/
inductive Action where
  | create
  | generateSingle
  | generateAll
  | exit
  deriving DecidableEq

/-- The state the program acts on: the file system, the answers the user will give
(to `input` prompts, to `confirm` prompts, to the file `list` prompt as the index of
the chosen entry, and to the menu), the uses of the renderer and the output so far. -/
structure World where
  fs : FS
  texts : List JSString
  confirms : List Bool
  selections : List Nat
  actions : List Action
  renders : List RenderCall
  output : List Output
  deriving DecidableEq

/-- The result of running a part of the program: it returned `a`, it threw `e`, or
it waits for an answer that never comes. -/
inductive Outcome (α : Type) where
  | done (a : α) (w : World)
  | thrown (e : JSError) (w : World)
  | blocked (w : World)
  deriving DecidableEq

/-- Sequencing of two parts of the program. -/
def Outcome.andThen {α β : Type} (o : Outcome α) (f : α → World → Outcome β) : Outcome β :=
  match o with
  | .done a w => f a w
  | .thrown e w => .thrown e w
  | .blocked w => .blocked w

/-- The world with one more line of output. -/
def World.print (w : World) (o : Output) : World := { w with output := w.output ++ [o] }

/-- The function `promptForValue` (index.mjs lines 186-193): the next answer to an
`input` prompt. -/
def promptForValue (w : World) : Outcome JSString :=
  match w.texts with
  | [] => .blocked w
  | t :: rest => .done t { w with texts := rest }

/-! ## The program -/

/-- The working directory `process.cwd()` is the parameter `root` of what follows.
`INVOICES_DIR` (index.mjs line 13). -/
def INVOICES_DIR (root : Path) : Path := pathJoin root (js "invoices")

/-- `OUTPUT_DIR` (index.mjs line 14). -/
def OUTPUT_DIR (root : Path) : Path := pathJoin root (js "generated_invoices")

/-- An object `{ label, value }`. -/
def labelled (label : JSString) (value : JSValue) : JSValue :=
  .obj [(js "label", .str label), (js "value", value)]

/-- `SELLER_INFO` (index.mjs lines 16-29). -/
def SELLER_INFO : JSValue :=
  .arr [labelled (js "From") (.arr [.str (js "YOUR NAME"), .str (js "YOUR ADDRESS")]),
    labelled (js "RELEVANT REGISTRATION NUMBER") (.str (js "YOUR REGISTRATION NUMBER")),
    labelled (js "Bank Account") (.str (js "YOUR BANK ACCOUNT"))]

/-- The function `generatePDF` (src/generatePDF.mjs). It has one parameter: a second
argument of a call is ignored. The renderer is constructed outside the `try`; the
template literal, `generate` and `console.log` are inside it. -/
def generatePDF (R : Renderer) (invoiceData : JSValue) (w : World) : Outcome Unit :=
  if R.constructThrows invoiceData then .thrown .renderer w
  else
    match getProperty invoiceData (js "fileName") with
    | .error e => .done () (w.print (.error (js "Error generating PDF:") e))
    | .ok fileName =>
      let path := js "./generated_invoices/" ++ fileName.toJSString
      if R.generateFails invoiceData path then
        .done () ({ w with renders := w.renders ++ [RenderCall.mk invoiceData path false] }.print
          (.error (js "Error generating PDF:") .renderer))
      else
        .done () ({ w with renders := w.renders ++ [RenderCall.mk invoiceData path true] }.print
          (.log (js "Invoice saved as " ++ fileName.toJSString)))

/-- The array returned by `promptForCustomerData` for the three answers
(index.mjs lines 109-118). -/
def customerDataOf (name address customerId : JSString) : JSValue :=
  .arr [labelled (js "To") (.arr [.str name, .str address]),
    labelled (js "Customer ID") (.str customerId)]

/-- The function `promptForCustomerData` (index.mjs lines 108-119). -/
def promptForCustomerData (w : World) : Outcome JSValue :=
  (promptForValue w).andThen fun name w1 =>
  (promptForValue w1).andThen fun address w2 =>
  (promptForValue w2).andThen fun customerId w3 =>
  .done (customerDataOf name address customerId) w3

/-- One line item as entered: the description, the quantity after `parseInt`, and
the text of the total price. -/
structure Item where
  description : JSString
  quantity : JSNumber
  total : JSString
  deriving DecidableEq

/-- The array `item` of index.mjs lines 142-149. -/
def Item.toJS (item : Item) : JSValue :=
  .arr [.obj [(js "value", .str item.description)],
    .obj [(js "value", .num item.quantity)],
    .obj [(js "value", .str item.total), (js "price", .bool true)]]

/-- The loop of `promptForInvoiceDetails` (index.mjs lines 132-151), one round for
each answer to the `confirm` prompt: `parts` are the items pushed so far. -/
def promptForItems : List Bool → List Item → World → Outcome (List Item)
  | [], _, w => .blocked { w with confirms := [] }
  | false :: cs, parts, w => .done parts { w with confirms := cs }
  | true :: cs, parts, w =>
    (promptForValue { w with confirms := cs }).andThen fun description w1 =>
    (promptForValue w1).andThen fun quantity w2 =>
    (promptForValue w2).andThen fun total w3 =>
    promptForItems cs (parts ++ [⟨description, parseInt quantity, total⟩])
      { w3 with confirms := cs }

/-- The reduction of index.mjs lines 153-156:
`parts.reduce((sum, item) => sum + parseFloat(item[2].value), 0)`. -/
def sumOfTotals (parts : List Item) : JSNumber :=
  parts.foldl (fun sum item => sum.add (parseFloat item.total)) (.fin false 0 0)

/-- The object `details` returned by `promptForInvoiceDetails` for the items `parts`
(index.mjs lines 122-130 and 158). -/
def detailsOf (parts : List Item) : JSValue :=
  .obj [(js "header", .arr [.obj [(js "value", .str (js "Description"))],
      .obj [(js "value", .str (js "Quantity"))], .obj [(js "value", .str (js "Total"))]]),
    (js "parts", .arr (parts.map Item.toJS)),
    (js "total", .arr [.obj [(js "label", .str (js "Total")),
      (js "value", .str ((sumOfTotals parts).toFixed 2)), (js "price", .bool true)]])]

/-- The function `promptForInvoiceDetails` (index.mjs lines 121-161). -/
def promptForInvoiceDetails (w : World) : Outcome JSValue :=
  (promptForItems w.confirms [] w).andThen fun parts w1 => .done (detailsOf parts) w1

/-- The object `invoiceData` of `createNewInvoice` (index.mjs lines 78-93). -/
def invoiceDataOf (fileName invoiceNumber invoiceDate : JSString) (customer details : JSValue) :
    JSValue :=
  .obj [(js "fileName", .str fileName),
    (js "data", .obj [(js "invoice", .obj [
      (js "name", .str (js "INVOICE")),
      (js "header", .arr [labelled (js "number") (.str invoiceNumber),
        labelled (js "issue date") (.str invoiceDate)]),
      (js "currency", .str (js "$")),
      (js "customer", customer),
      (js "seller", SELLER_INFO),
      (js "details", details)])])]

/-- The parameters of a run that the sources under `src/` do not fix: the Unicode
lower-casing of the platform, the renderer, the working directory, and the results
of the two calls into `src/utils.mjs`.

Modelled from the spec: `formatDate(today)` and `generateInvoiceNumber(today)` of
`src/utils.mjs`, which is not among the sources; the specification describes a
"deterministic, human-readable encoding" of the creation date, taken here as two
strings. -/
structure Env where
  unicodeLower : JSString → JSString
  renderer : Renderer
  root : Path
  invoiceNumber : JSString
  invoiceDate : JSString

/-- The function `createNewInvoice` (index.mjs lines 67-106). -/
def createNewInvoice (E : Env) (w : World) : Outcome Unit :=
  (promptForValue w).andThen fun companyName w1 =>
  (promptForCustomerData w1).andThen fun customer w2 =>
  (promptForInvoiceDetails w2).andThen fun details w3 =>
  let invoiceData := invoiceDataOf (fileNameOf E.unicodeLower companyName)
    E.invoiceNumber E.invoiceDate customer details
  let pdfPath := pathJoin (OUTPUT_DIR E.root) (fileNameOf E.unicodeLower companyName)
  let jsonPath := pathJoin (INVOICES_DIR E.root)
    (replaceFirst (js ".pdf") (js ".json") (fileNameOf E.unicodeLower companyName))
  match getProperty invoiceData (js "data") with
  | .error e => .thrown e w3
  | .ok data =>
    (generatePDF E.renderer data w3).andThen fun _ w4 =>
    match JSON_stringify invoiceData with
    | none => .thrown .typeError w4
    | some text =>
      match w4.fs.writeFile jsonPath text with
      | .error e => .thrown e w4
      | .ok fs =>
        .done () (({ w4 with fs := fs }.print
          (.log (js "Invoice generated: " ++ pathString pdfPath))).print
          (.log (js "JSON data saved: " ++ pathString jsonPath)))

/-- The function `generateInvoicePDF` (index.mjs lines 214-219). -/
def generateInvoicePDF (E : Env) (file : JSString) (w : World) : Outcome Unit :=
  match w.fs.readFile (pathJoin (INVOICES_DIR E.root) file) with
  | .error e => .thrown e w
  | .ok content =>
    match JSON_parse content with
    | .error e => .thrown e w
    | .ok invoiceData => generatePDF E.renderer invoiceData w

/-- The `for` loop of `generateAllInvoices` (index.mjs lines 209-211). -/
def generateEach (E : Env) : List JSString → World → Outcome Unit
  | [], w => .done () w
  | file :: rest, w => (generateInvoicePDF E file w).andThen fun _ w1 => generateEach E rest w1

/-- The function `generateAllInvoices` (index.mjs lines 205-212). -/
def generateAllInvoices (E : Env) (w : World) : Outcome Unit :=
  match w.fs.readdir (INVOICES_DIR E.root) with
  | .error e => .thrown e w
  | .ok files => generateEach E (jsonFilesOf files) w

/-- The function `selectAndGenerateInvoice` (index.mjs lines 221-235): the user
chooses one entry of the list by its index. -/
def selectAndGenerateInvoice (E : Env) (w : World) : Outcome Unit :=
  match w.fs.readdir (INVOICES_DIR E.root) with
  | .error e => .thrown e w
  | .ok files =>
    match w.selections with
    | [] => .blocked w
    | i :: rest =>
      match (jsonFilesOf files).get? i with
      | none => .blocked w
      | some selectedFile => generateInvoicePDF E selectedFile { w with selections := rest }

/-- The function `ensureOutputDirectoryExists` (index.mjs lines 195-203). -/
def ensureOutputDirectoryExists (E : Env) (w : World) : Outcome Unit :=
  match w.fs.mkdirRecursive (OUTPUT_DIR E.root) with
  | .ok fs => .done () { w with fs := fs }
  | .error e =>
    match e with
    | .system code => if code ≠ js "EEXIST" then .thrown e w else .done () w
    | _ => .thrown e w

/-- The loop of `main` (index.mjs lines 34-64), one round for each answer to the
menu. -/
def menuLoop (E : Env) : List Action → World → Outcome Unit
  | [], w => .blocked { w with actions := [] }
  | .create :: rest, w =>
    (createNewInvoice E { w with actions := rest }).andThen fun _ w1 =>
      menuLoop E rest { w1 with actions := rest }
  | .generateSingle :: rest, w =>
    (selectAndGenerateInvoice E { w with actions := rest }).andThen fun _ w1 =>
      menuLoop E rest { w1 with actions := rest }
  | .generateAll :: rest, w =>
    (generateAllInvoices E { w with actions := rest }).andThen fun _ w1 =>
      menuLoop E rest { w1 with actions := rest }
  | .exit :: rest, w => .done () ({ w with actions := rest }.print (.log (js "Goodbye!")))

/-- The function `main` (index.mjs lines 31-65). -/
def main (E : Env) (w : World) : Outcome Unit :=
  (ensureOutputDirectoryExists E w).andThen fun _ w1 => menuLoop E w1.actions w1

/-- The program: `main().catch(console.error)` (index.mjs line 237). -/
def program (E : Env) (w : World) : Outcome Unit :=
  match main E w with
  | .thrown e w1 => .done () (w1.print (.error [] e))
  | o => o

/-! ## Concrete scenarios and observers -/

/-- The world in which a part of the program ended. -/
def Outcome.world {α : Type} : Outcome α → World
  | .done _ w => w
  | .thrown _ w => w
  | .blocked w => w

/-- An environment for the concrete runs below: a renderer that never fails, the
working directory `/home`. Every string of the runs is ASCII, so that the Unicode
lower-casing is never consulted. -/
def demoEnv : Env :=
  { unicodeLower := id,
    renderer := { constructThrows := fun _ => false, generateFails := fun _ _ => false },
    root := [js "home"],
    invoiceNumber := js "INV-20240101",
    invoiceDate := js "2024-01-01" }

/-- A file system in which `/home/invoices` and `/home/generated_invoices` exist and are
empty. -/
def demoFS : FS :=
  { nodes := [([js "home"], .dir), ([js "home", js "invoices"], .dir),
      ([js "home", js "generated_invoices"], .dir)],
    mkdirFaults := [] }

/-- A user who creates an invoice for `companyName` with the line items `items`
(description, quantity, total price), then makes the menu choices `actions`. -/
def demoWorld (fs : FS) (companyName : JSString) (items : List (JSString × JSString × JSString))
    (actions : List Action) : World :=
  { fs := fs,
    texts := [companyName, js "Bob", js "1 Main St", js "C-7"] ++
      items.flatMap (fun i => [i.1, i.2.1, i.2.2]),
    confirms := items.map (fun _ => true) ++ [false],
    selections := [], actions := actions, renders := [], output := [] }

/-- Whether `body` is one or more digits, `.`, and two digits. -/
def isUnsignedTwoFraction (body : JSString) : Bool :=
  !(body.takeWhile isDigit).isEmpty &&
  match body.dropWhile isDigit with
  | [46, a, b] => isDigit a && isDigit b
  | _ => false

/-- Whether `s` is a decimal numeral with exactly two fraction digits:
an optional `-`, one or more digits, `.`, two digits. -/
def isTwoFractionDecimal (s : JSString) : Bool :=
  match s with
  | 45 :: r => isUnsignedTwoFraction r
  | _ => isUnsignedTwoFraction s

/-- Whether the finite value `m * 2^e` is below `10^21`. -/
def belowE21 (m : Nat) (e : Int) : Bool :=
  decide ((if 0 ≤ e then m * 2 ^ e.toNat else m) <
    10 ^ 21 * (if 0 ≤ e then 1 else 2 ^ (-e).toNat))

mutual
/-- The `value` of every object marked `price: true` inside a value, in document
order. -/
def priceCells : JSValue → List JSValue
  | .arr xs => priceCellsOfElements xs
  | .obj ps =>
    (if lookupProperty (js "price") ps = .bool true then [lookupProperty (js "value") ps]
     else []) ++ priceCellsOfMembers ps
  | _ => []
/-- The price cells inside the elements of an array. -/
def priceCellsOfElements : List JSValue → List JSValue
  | [] => []
  | x :: xs => priceCells x ++ priceCellsOfElements xs
/-- The price cells inside the property values of an object. -/
def priceCellsOfMembers : List (JSString × JSValue) → List JSValue
  | [] => []
  | (_, v) :: ps => priceCells v ++ priceCellsOfMembers ps
end

/-- The record `createNewInvoice` builds for a company name and items. -/
def demoRecord (companyName : JSString) (items : List Item) : JSValue :=
  invoiceDataOf (fileNameOf id companyName) (js "INV-20240101") (js "2024-01-01")
    (customerDataOf (js "Bob") (js "1 Main St") (js "C-7")) (detailsOf items)

/-- The own property `key` of an object, `undefined` elsewhere. -/
def JSValue.prop (v : JSValue) (key : JSString) : JSValue :=
  match v with
  | .obj ps => lookupProperty key ps
  | _ => .undefined

/-- The line item `Widget`, quantity 2, total price `19.99`. -/
def widget : Item := { description := js "Widget", quantity := .fin false 1 1, total := js "19.99" }

/-- The text of a record file as `createNewInvoice` writes it. -/
def recordText (record : JSValue) : JSString := (JSON_stringify record).getD []

/-- The record directory `/home/invoices` holding the given files, in listing order. -/
def storeFS (files : List (JSString × JSString)) : FS :=
  { nodes := demoFS.nodes ++
      files.map (fun f => ([js "home", js "invoices", f.1], Node.file f.2)),
    mkdirFaults := [] }

/-- A user who only makes the menu choices `actions`. -/
def menuWorld (fs : FS) (actions : List Action) : World :=
  { fs := fs, texts := [], confirms := [], selections := [], actions := actions,
    renders := [], output := [] }

/-- The item built from the three answers of one round of the loop. -/
def itemOfAnswers (a : JSString × JSString × JSString) : Item :=
  { description := a.1, quantity := parseInt a.2.1, total := a.2.2 }

/-- The answers of the rounds, in the order the prompts ask for them. -/
def answersOf (entered : List (JSString × JSString × JSString)) : List JSString :=
  entered.flatMap (fun a => [a.1, a.2.1, a.2.2])

/-- What render-one and render-all do with a record file before `try`: the file is
read, its text parsed, and the renderer constructed with the parsed value. -/
def loadRecord (E : Env) (fs : FS) (file : JSString) : Except JSError JSValue :=
  match fs.readFile (pathJoin (INVOICES_DIR E.root) file) with
  | .error e => .error e
  | .ok content =>
    match JSON_parse content with
    | .error e => .error e
    | .ok v => if E.renderer.constructThrows v then .error .renderer else .ok v

/-- The amount, in hundredths, that a price text denotes when it is a plain decimal
amount: one or more digits, optionally followed by `.` and one or two digits. -/
def amountCents (t : JSString) : Option Nat :=
  if t.takeWhile isDigit = [] then none
  else
    match t.dropWhile isDigit with
    | [] => some (100 * digitsValue (t.takeWhile isDigit))
    | [46, a] =>
      if isDigit a then some (100 * digitsValue (t.takeWhile isDigit) + 10 * (a - 48)) else none
    | [46, a, b] =>
      if isDigit a && isDigit b then
        some (100 * digitsValue (t.takeWhile isDigit) + 10 * (a - 48) + (b - 48))
      else none
    | _ => none

/-- The amount of a row's total cell in hundredths (0 when the text is not a plain
decimal amount). -/
def centsOf (item : Item) : Nat := (amountCents item.total).getD 0

/-- The arithmetic sum of the rows' total cells, in hundredths. -/
def sumOfCents (parts : List Item) : Nat := (parts.map centsOf).sum

/-- The decimal numeral with exactly two fraction digits of the amount of `c`
hundredths: the digits of `c / 100`, `.`, and the two digits of `c % 100`. -/
def formatCents (c : Nat) : JSString :=
  decimalDigits (c / 100) ++ [46, 48 + c % 100 / 10, 48 + c % 10]

/-- A finite Number that is not negative, with its real value. -/
def HasValue (x : JSNumber) (v : ℚ) : Prop :=
  ∃ m e, x = .fin false m e ∧ (m : ℚ) * (2 : ℚ) ^ e = v

/-- The bound on the error that one more row adds to the running sum, for amounts that
add up to at most `T`: three roundings, each relative to a value of at most `2 T + 2`. -/
def stepError (T : ℚ) : ℚ :=
  (3 * T + 2) * (2 : ℚ) ^ (-(53 : ℕ) : ℤ) + 2 * (2 : ℚ) ^ (-(1075 : ℕ) : ℤ)

/-- The form of a finite Number with an integer value: an odd significand below `2^53`
and a non-negative exponent, below `2^1024`. -/
def IsIntegerDouble (m : Nat) (e : Int) : Prop :=
  m % 2 = 1 ∧ 0 ≤ e ∧ m < 2 ^ 53 ∧ ((m * 2 ^ e.toNat : ℕ) : ℚ) < (2 : ℚ) ^ ((1024 : ℕ) : ℤ)

/-- Whether `rest` can follow a value in the text written by `JSON.stringify`: the end
of the text, a line feed, or a comma. -/
def delimited : JSString → Bool
  | [] => true
  | c :: _ => c == 10 || c == 44

/-- A Number that the text written by `JSON.stringify` gives back when it is parsed:
it is finite, its numeral starts with a digit or `-`, and the numeral followed by a
delimiter is read as the Number. -/
def NumberRestores (n : JSNumber) : Prop :=
  (∃ neg m e, n = .fin neg m e) ∧
  (∃ c r, n.toString = c :: r ∧ (c = 45 ∨ isDigit c = true)) ∧
  ∀ (fuel : Nat) (rest : JSString), delimited rest = true →
    parseJSONValue (fuel + 1) (n.toString ++ rest) = some (.num n, rest)

mutual
/-- The values that `JSON.stringify` followed by `JSON.parse` gives back unchanged: no
`undefined`, Numbers that are restored, and objects whose keys are distinct and are not
array indices. -/
def Restorable : JSValue → Prop
  | .undefined => False
  | .null => True
  | .bool _ => True
  | .num n => NumberRestores n
  | .str _ => True
  | .arr xs => RestorableElements xs
  | .obj ps => RestorableMembers ps
/-- Every element is restorable. -/
def RestorableElements : List JSValue → Prop
  | [] => True
  | x :: xs => Restorable x ∧ RestorableElements xs
/-- Every property value is restorable; no key is an array index or occurs twice. -/
def RestorableMembers : List (JSString × JSValue) → Prop
  | [] => True
  | (k, v) :: ps =>
    arrayIndex k = none ∧ (∀ p ∈ ps, p.1 ≠ k) ∧ Restorable v ∧ RestorableMembers ps
end

/-- With `fuel`, the parser reads every restorable value back from the text that
`JSON.stringify(v, null, 2)` writes for it at the indentation `indent`. -/
def ReadsValues (fuel : Nat) : Prop :=
  ∀ (v : JSValue) (indent t rest : JSString), Restorable v → (∀ c ∈ indent, c = 32) →
    serializeJSONProperty [32, 32] indent v = some t → t.length ≤ fuel →
    delimited rest = true → parseJSONValue fuel (t ++ rest) = some (v, rest)

/-- With `fuel`, the parser reads the elements of every array of restorable values back
from their text, up to the closing bracket. -/
def ReadsElements (fuel : Nat) : Prop :=
  ∀ (xs : List JSValue) (indent stepback rest : JSString), xs ≠ [] → RestorableElements xs →
    (∀ c ∈ indent, c = 32) → (∀ c ∈ stepback, c = 32) →
    (joinWith ([44, 10] ++ indent) (serializeJSONElements [32, 32] indent xs)).length + 1
      ≤ fuel →
    parseJSONElements fuel (joinWith ([44, 10] ++ indent)
        (serializeJSONElements [32, 32] indent xs) ++ 10 :: (stepback ++ 93 :: rest)) =
      some (xs, rest)

/-- With `fuel`, the parser reads the members of every object of restorable values back
from their text, up to the closing brace, after the properties `acc`. -/
def ReadsMembers (fuel : Nat) : Prop :=
  ∀ (ps : List (JSString × JSValue)) (indent stepback rest : JSString)
    (acc : List (JSString × JSValue)), ps ≠ [] → RestorableMembers ps →
    (∀ c ∈ indent, c = 32) → (∀ c ∈ stepback, c = 32) →
    (∀ p ∈ acc, ∀ q ∈ ps, p.1 ≠ q.1) →
    (joinWith ([44, 10] ++ indent) (serializeJSONMembers [32, 32] indent ps)).length + 1
      ≤ fuel →
    parseJSONMembers fuel acc (joinWith ([44, 10] ++ indent)
        (serializeJSONMembers [32, 32] indent ps) ++ 10 :: (stepback ++ 125 :: rest)) =
      some (acc ++ ps, rest)

/-- The path `generatePDF` hands to `generate` for a loaded record: `./generated_invoices/`
followed by the text of the record's `fileName`. -/
def expectedPath (v : JSValue) : JSString :=
  js "./generated_invoices/" ++ (v.prop (js "fileName")).toJSString

/-- The uses of the renderer expected for one loaded record `v`: one call of `generate`
on the instance constructed with `v`; none for `null`, whose `fileName` cannot be read. -/
def expectedRenders (R : Renderer) (v : JSValue) : List RenderCall :=
  match v with
  | .undefined => []
  | .null => []
  | _ => [RenderCall.mk v (expectedPath v) (!R.generateFails v (expectedPath v))]

/-- The line of output expected for one loaded record `v`: the saved file name when
`generate` succeeds, and the caught error otherwise. -/
def expectedReport (R : Renderer) (v : JSValue) : Output :=
  match v with
  | .undefined => .error (js "Error generating PDF:") .typeError
  | .null => .error (js "Error generating PDF:") .typeError
  | _ =>
    if R.generateFails v (expectedPath v) then .error (js "Error generating PDF:") .renderer
    else .log (js "Invoice saved as " ++ (v.prop (js "fileName")).toJSString)

/-- The record directory `/home/invoices` listing a valid record, then a malformed one,
then another valid one, and a user who makes no menu choice. -/
def mixedBatch : World :=
  menuWorld (storeFS [(js "a-invoice.json", recordText (demoRecord (js "a") [])),
    (js "bad.json", js "\x7b"),
    (js "b-invoice.json", recordText (demoRecord (js "b") [widget]))]) []

/-! # Theorems -/

/-! ## The file name (C2, C5) -/

theorem replaceAux_true_allWs (w : JSString) (hw : ∀ c ∈ w, isWhiteSpace c = true) :
    replaceWhiteSpaceRunsAux true w = [] := by
  induction w with
  | nil => rfl
  | cons c w ih =>
    have hc : isWhiteSpace c = true := hw c (List.mem_cons_self _ _)
    simp only [replaceWhiteSpaceRunsAux, hc, if_true]
    exact ih (fun d hd => hw d (List.mem_cons_of_mem _ hd))

theorem replaceAux_true_eq_dropWhile (s : JSString) :
    replaceWhiteSpaceRunsAux true s = replaceWhiteSpaceRunsAux false (s.dropWhile isWhiteSpace) := by
  induction s with
  | nil => rfl
  | cons c s ih =>
    by_cases hc : isWhiteSpace c = true
    · simp only [replaceWhiteSpaceRunsAux, hc, if_true, List.dropWhile_cons]
      exact ih
    · simp only [replaceWhiteSpaceRunsAux, hc, List.dropWhile_cons]
      simp

theorem replaceAux_false_leading (s : JSString) :
    replaceWhiteSpaceRunsAux false s =
      (if startsWithWhiteSpace s then [45] else []) ++
        replaceWhiteSpaceRunsAux false (s.dropWhile isWhiteSpace) := by
  cases s with
  | nil => rfl
  | cons c s =>
    by_cases hc : isWhiteSpace c = true
    · simp only [replaceWhiteSpaceRunsAux, hc, if_true, List.dropWhile_cons, startsWithWhiteSpace]
      simp [replaceAux_true_eq_dropWhile]
    · simp only [hc, List.dropWhile_cons, startsWithWhiteSpace]
      simp

theorem replaceAux_append_ws (t w : JSString) (hw : ∀ c ∈ w, isWhiteSpace c = true)
    (hne : w ≠ []) (ht : ∀ x, t.getLast? = some x → isWhiteSpace x = false) (b : Bool) :
    replaceWhiteSpaceRunsAux b (t ++ w) =
      replaceWhiteSpaceRunsAux b t ++ (if t = [] ∧ b = true then [] else [45]) := by
  induction t generalizing b with
  | nil =>
    cases w with
    | nil => exact absurd rfl hne
    | cons c w =>
      have hc : isWhiteSpace c = true := hw c (List.mem_cons_self _ _)
      have hr := replaceAux_true_allWs w (fun d hd => hw d (List.mem_cons_of_mem _ hd))
      cases b <;> simp [replaceWhiteSpaceRunsAux, hc, hr]
  | cons c t ih =>
    have ht' : ∀ x, t.getLast? = some x → isWhiteSpace x = false := by
      intro x hx
      cases t with
      | nil => simp at hx
      | cons d t => exact ht x (by simpa [List.getLast?_cons_cons] using hx)
    by_cases hc : isWhiteSpace c = true
    · have htne : t ≠ [] := by
        intro h
        subst h
        have := ht c (by simp)
        rw [hc] at this
        exact absurd this (by simp)
      have := ih ht' true
      cases b <;> simp [replaceWhiteSpaceRunsAux, hc, this, htne]
    · have := ih ht' false
      simp [replaceWhiteSpaceRunsAux, hc, this]

theorem getLast?_reverse_dropWhile_reverse (s : JSString) :
    ∀ x, ((s.reverse.dropWhile isWhiteSpace).reverse).getLast? = some x → isWhiteSpace x = false := by
  intro x hx
  rw [List.getLast?_reverse] at hx
  have := List.head?_dropWhile_not isWhiteSpace s.reverse
  rw [hx] at this
  simpa using this

theorem trim_decomposition (s : JSString) :
    s.dropWhile isWhiteSpace =
      trim s ++ ((s.dropWhile isWhiteSpace).reverse.takeWhile isWhiteSpace).reverse := by
  unfold trim
  rw [← List.reverse_append, List.takeWhile_append_dropWhile, List.reverse_reverse]

theorem endsWithWhiteSpace_eq (L : JSString) (h : L.dropWhile isWhiteSpace ≠ []) :
    endsWithWhiteSpace L = startsWithWhiteSpace (L.dropWhile isWhiteSpace).reverse := by
  unfold endsWithWhiteSpace
  have hL : L.reverse = (L.dropWhile isWhiteSpace).reverse ++ (L.takeWhile isWhiteSpace).reverse := by
    rw [← List.reverse_append, List.takeWhile_append_dropWhile]
  rw [hL]
  cases hR : (L.dropWhile isWhiteSpace).reverse with
  | nil => exact absurd (List.reverse_eq_nil_iff.mp hR) h
  | cons x R => rfl

theorem dropWhile_reverse_ne_nil (L : JSString) (h : L.dropWhile isWhiteSpace ≠ []) :
    (L.dropWhile isWhiteSpace).reverse.dropWhile isWhiteSpace ≠ [] := by
  intro hnil
  have hall : ∀ c ∈ (L.dropWhile isWhiteSpace).reverse, isWhiteSpace c = true := by
    have := List.takeWhile_append_dropWhile isWhiteSpace (L.dropWhile isWhiteSpace).reverse
    rw [hnil, List.append_nil] at this
    intro c hc
    rw [← this] at hc
    exact List.mem_takeWhile_imp hc
  cases hd : L.dropWhile isWhiteSpace with
  | nil => exact h hd
  | cons x d =>
    have hx := List.head?_dropWhile_not isWhiteSpace L
    rw [hd] at hx
    have hx2 : isWhiteSpace x = true := hall x (by rw [hd]; simp)
    simp at hx
    rw [hx] at hx2
    exact absurd hx2 (by simp)

/-- C2, amended: the `fileName` is a function of the entered name alone. It is the
lower-cased name with every white-space run replaced by one hyphen, the leading and the
trailing run included, followed by `-invoice.pdf`: nothing is trimmed. Against the trimmed
derivation of the specification it has one more hyphen in front when the name begins with
white space and one more behind when it ends with white space. -/
theorem fileNameOf_characterisation (unicodeLower : JSString → JSString) (name : JSString) :
    fileNameOf unicodeLower name =
      (if startsWithWhiteSpace (toLowerCase unicodeLower name) then [45] else []) ++
      replaceWhiteSpaceRuns (trim (toLowerCase unicodeLower name)) ++
      (if endsWithWhiteSpace (toLowerCase unicodeLower name) ∧
          trim (toLowerCase unicodeLower name) ≠ [] then [45] else []) ++
      js "-invoice.pdf" := by
  unfold fileNameOf
  congr 1
  generalize toLowerCase unicodeLower name = L
  unfold replaceWhiteSpaceRuns
  rw [replaceAux_false_leading L, List.append_assoc]
  congr 1
  by_cases hd : L.dropWhile isWhiteSpace = []
  · have ht : trim L = [] := by unfold trim; rw [hd]; rfl
    rw [hd, ht]
    simp [replaceWhiteSpaceRunsAux]
  · have htne : trim L ≠ [] := by
      unfold trim
      intro h
      exact dropWhile_reverse_ne_nil L hd (by simpa using h)
    have hdec := trim_decomposition L
    rw [endsWithWhiteSpace_eq L hd]
    cases hR : (L.dropWhile isWhiteSpace).reverse with
    | nil => exact absurd (List.reverse_eq_nil_iff.mp hR) hd
    | cons x R =>
      by_cases hx : isWhiteSpace x = true
      · have hwne : ((L.dropWhile isWhiteSpace).reverse.takeWhile isWhiteSpace).reverse ≠ [] := by
          rw [hR]
          simp [List.takeWhile_cons, hx]
        have hwall : ∀ c ∈ ((L.dropWhile isWhiteSpace).reverse.takeWhile isWhiteSpace).reverse,
            isWhiteSpace c = true := by
          intro c hc
          rw [List.mem_reverse] at hc
          exact List.mem_takeWhile_imp hc
        have key := replaceAux_append_ws (trim L) _ hwall hwne
          (getLast?_reverse_dropWhile_reverse (L.dropWhile isWhiteSpace) |> fun h => by
            unfold trim; exact h) false
        rw [← hdec] at key
        rw [key]
        simp [startsWithWhiteSpace, hx, htne]
      · have hw : ((L.dropWhile isWhiteSpace).reverse.takeWhile isWhiteSpace).reverse = [] := by
          rw [hR]
          simp [List.takeWhile_cons, hx]
        rw [hw, List.append_nil] at hdec
        rw [hdec]
        simp [startsWithWhiteSpace, hx]

/-! ## Concrete runs -/

/-- C2, counterexample: the name `"Acme Corp "` yields `acme-corp--invoice.pdf` and the
record file `acme-corp--invoice.json`, with a hyphen for the trailing space, and not the
trimmed `acme-corp-invoice.pdf` of the specification. -/
theorem acme_corp_fileName_not_trimmed :
    fileNameOf id (js "Acme Corp ") = js "acme-corp--invoice.pdf" ∧
    recordFileNameOf id (js "Acme Corp ") = js "acme-corp--invoice.json" ∧
    fileNameOf id (js "Acme Corp ") ≠ js "acme-corp-invoice.pdf" ∧
    fileNameOf id (js "Acme Corp ") ≠ specFileNameOf id (js "Acme Corp ") (js ".pdf") := by
  decide!

/-- C5, the code at the failing input: for the company name `a.pdf` the record is
written to `a.json-invoice.pdf`, because `replace(".pdf", ".json")` rewrites the first
`.pdf` of `a.pdf-invoice.pdf`; the name does not end in `.json`, the listing filter drops
it, and render-all renders nothing. -/
theorem record_file_of_pdf_name_not_listed :
    recordFileNameOf id (js "a.pdf") = js "a.json-invoice.pdf" ∧
    (createNewInvoice demoEnv (demoWorld demoFS (js "a.pdf") [] [])).world.fs.readdir
        (INVOICES_DIR demoEnv.root) = .ok [js "a.json-invoice.pdf"] ∧
    jsonFilesOf [js "a.json-invoice.pdf"] = [] ∧
    (generateAllInvoices demoEnv
        (createNewInvoice demoEnv (demoWorld demoFS (js "a.pdf") [] [])).world).world.renders =
      (createNewInvoice demoEnv (demoWorld demoFS (js "a.pdf") [] [])).world.renders := by
  decide!

/-- C7, the code at the failing input: creating the invoice of `Acme` hands the renderer
the path `./generated_invoices/undefined`, not the output directory followed by
`acme-invoice.pdf`: `generatePDF` receives `invoiceData.data`, which has no `fileName`,
and ignores the `pdfPath` passed as second argument. -/
theorem creation_renders_to_undefined :
    createNewInvoice demoEnv (demoWorld demoFS (js "Acme") [(js "Widget", js "2", js "19.99")] []) =
      .done ()
        { fs := { nodes := demoFS.nodes ++ [([js "home", js "invoices", js "acme-invoice.json"],
                    .file (recordText (demoRecord (js "Acme") [widget])))],
                  mkdirFaults := [] },
          texts := [], confirms := [], selections := [], actions := [],
          renders := [{ data := (demoRecord (js "Acme") [widget]).prop (js "data"),
                        path := js "./generated_invoices/undefined", succeeded := true }],
          output := [.log (js "Invoice saved as undefined"),
            .log (js "Invoice generated: /home/generated_invoices/acme-invoice.pdf"),
            .log (js "JSON data saved: /home/invoices/acme-invoice.json")] } := by
  decide!

/-- C10, the code at the failing input: the invoice of `Acme` is created and then
rendered by render-all. At creation the renderer is constructed with `invoiceData.data`,
at render-all with the whole loaded record `{ fileName, data }`; the two values differ. -/
theorem creation_and_reload_construct_differently :
    (program demoEnv (demoWorld demoFS (js "Acme") [(js "Widget", js "2", js "19.99")]
        [.create, .generateAll, .exit])).world.renders =
      [{ data := (demoRecord (js "Acme") [widget]).prop (js "data"),
         path := js "./generated_invoices/undefined", succeeded := true },
       { data := demoRecord (js "Acme") [widget],
         path := js "./generated_invoices/acme-invoice.pdf", succeeded := true }] ∧
    (demoRecord (js "Acme") [widget]).prop (js "data") ≠ demoRecord (js "Acme") [widget] := by
  decide!

/-- C3, counterexample: the record directory lists a malformed record and then two valid
ones. Render-all ends with the uncaught `SyntaxError` of `JSON.parse`, has rendered
neither valid record and has reported nothing. -/
theorem render_all_stops_at_malformed_record :
    generateAllInvoices demoEnv
        (menuWorld (storeFS [(js "bad.json", js "\x7b"),
          (js "a-invoice.json", recordText (demoRecord (js "a") [])),
          (js "b-invoice.json", recordText (demoRecord (js "b") [widget]))]) []) =
      .thrown .syntaxError
        (menuWorld (storeFS [(js "bad.json", js "\x7b"),
          (js "a-invoice.json", recordText (demoRecord (js "a") [])),
          (js "b-invoice.json", recordText (demoRecord (js "b") [widget]))]) []) := by
  decide!

/-- C9, counterexample: only `/home` exists. Startup creates `/home/generated_invoices`
and not `/home/invoices`; creating an invoice then fails with `ENOENT` at the record
write, and the program ends. -/
theorem startup_leaves_record_directory_absent :
    ((ensureOutputDirectoryExists demoEnv
        (demoWorld { nodes := [([js "home"], .dir)], mkdirFaults := [] } (js "Acme") []
          [.create, .exit])).world.fs.lookup (OUTPUT_DIR demoEnv.root) = some .dir) ∧
    ((ensureOutputDirectoryExists demoEnv
        (demoWorld { nodes := [([js "home"], .dir)], mkdirFaults := [] } (js "Acme") []
          [.create, .exit])).world.fs.lookup (INVOICES_DIR demoEnv.root) = none) ∧
    main demoEnv (demoWorld { nodes := [([js "home"], .dir)], mkdirFaults := [] } (js "Acme") []
        [.create, .exit]) =
      .thrown (.system (js "ENOENT"))
        { fs := { nodes := [([js "home"], .dir), ([js "home", js "generated_invoices"], .dir)],
                  mkdirFaults := [] },
          texts := [], confirms := [], selections := [], actions := [.exit],
          renders := [{ data := (demoRecord (js "Acme") []).prop (js "data"),
                        path := js "./generated_invoices/undefined", succeeded := true }],
          output := [.log (js "Invoice saved as undefined")] } := by
  decide!

/-- C6, counterexample: for the price text `abc` the row's cell marked `price: true` holds
`abc` and the total row holds `NaN`; neither is a decimal with two fraction digits. -/
theorem price_cells_hold_entered_text :
    priceCells (demoRecord (js "Acme")
        [{ description := js "Widget", quantity := parseInt (js "2"), total := js "abc" }]) =
      [.str (js "abc"), .str (js "NaN")] ∧
    isTwoFractionDecimal (js "abc") = false ∧ isTwoFractionDecimal (js "NaN") = false := by
  decide!

/-- C4, counterexample: for the quantity text `x3`, `parseInt` gives NaN, which
`JSON.stringify` writes as `null`; the record loaded back differs from the record saved. -/
theorem nan_quantity_is_not_restored :
    parseInt (js "x3") = .nan ∧
    serializeJSONProperty [32, 32] [] (.num .nan) = some (js "null") ∧
    JSON_parse (js "null") = .ok .null ∧
    (JSON_stringify (demoRecord (js "Acme")
        [{ description := js "Widget", quantity := parseInt (js "x3"), total := js "19.99" }])).map
      JSON_parse ≠
    some (.ok (demoRecord (js "Acme")
        [{ description := js "Widget", quantity := parseInt (js "x3"), total := js "19.99" }])) := by
  decide!

/-! ## The prompt loop (C8) -/

theorem promptForItems_done (entered : List (JSString × JSString × JSString)) :
    ∀ (parts : List Item) (w : World) (cs : List Bool) (rest : List JSString),
      w.texts = answersOf entered ++ rest →
      promptForItems (List.replicate entered.length true ++ false :: cs) parts w =
        .done (parts ++ entered.map itemOfAnswers) { w with confirms := cs, texts := rest } := by
  induction entered with
  | nil =>
    intro parts w cs rest h
    simp only [answersOf, List.flatMap_nil, List.nil_append] at h
    simp [promptForItems, ← h]
  | cons a entered ih =>
    intro parts w cs rest h
    obtain ⟨d, q, t⟩ := a
    simp only [answersOf, List.flatMap_cons, List.cons_append, List.nil_append,
      List.append_assoc] at h
    show promptForItems (true :: (List.replicate entered.length true ++ false :: cs)) parts w = _
    simp only [promptForItems, promptForValue, h, Outcome.andThen]
    have key := ih (parts ++ [{ description := d, quantity := parseInt q, total := t }])
      { w with texts := answersOf entered ++ rest,
               confirms := List.replicate entered.length true ++ false :: cs } cs rest rfl
    simpa [itemOfAnswers, answersOf] using key

theorem promptForItems_done_inv (cs : List Bool) :
    ∀ (parts : List Item) (w : World) (r : List Item) (w' : World),
      promptForItems cs parts w = .done r w' →
      ∃ entered : List (JSString × JSString × JSString),
        cs = List.replicate entered.length true ++ false :: w'.confirms ∧
        w.texts = answersOf entered ++ w'.texts ∧
        r = parts ++ entered.map itemOfAnswers ∧
        w' = { w with confirms := w'.confirms, texts := w'.texts } := by
  induction cs with
  | nil => intro parts w r w' h; simp [promptForItems] at h
  | cons c cs ih =>
    intro parts w r w' h
    cases c with
    | false =>
      simp only [promptForItems, Outcome.done.injEq] at h
      obtain ⟨h1, h2⟩ := h
      refine ⟨[], ?_, ?_, ?_, ?_⟩
      · simp [← h2]
      · simp [answersOf, ← h2]
      · simp [h1]
      · simp [← h2]
    | true =>
      simp only [promptForItems, promptForValue] at h
      match hw : w.texts with
      | [] => simp [hw, Outcome.andThen] at h
      | [_] => simp [hw, Outcome.andThen] at h
      | [_, _] => simp [hw, Outcome.andThen] at h
      | d :: q :: t :: rest =>
        simp only [hw, Outcome.andThen] at h
        obtain ⟨entered, h1, h2, h3, h4⟩ := ih _ _ _ _ h
        refine ⟨(d, q, t) :: entered, ?_, ?_, ?_, ?_⟩
        · simp [h1, List.replicate_succ]
        · simp only [answersOf, List.flatMap_cons] at h2 ⊢
          simp only [List.cons_append, List.nil_append]
          rw [← h2]
        · simp [h3, itemOfAnswers]
        · rw [h4]

/-- C8: `promptForInvoiceDetails` returns exactly when the user answers the `confirm`
prompt with some number of "yes" and then a "no" and gives three answers for each
"yes"; the object returned then has the header of the three columns `Description`,
`Quantity`, `Total`, one row of three cells (description, quantity after `parseInt`,
total price with `price: true`) for each "yes", in the order entered, and as `total`
the one-element array `{ label: "Total", value, price: true }`. -/
theorem promptForInvoiceDetails_shape (w : World) (d : JSValue) (w' : World) :
    promptForInvoiceDetails w = .done d w' ↔
      ∃ entered : List (JSString × JSString × JSString),
        w.confirms = List.replicate entered.length true ++ false :: w'.confirms ∧
        w.texts = answersOf entered ++ w'.texts ∧
        w' = { w with confirms := w'.confirms, texts := w'.texts } ∧
        d = .obj [
          (js "header", .arr [.obj [(js "value", .str (js "Description"))],
            .obj [(js "value", .str (js "Quantity"))], .obj [(js "value", .str (js "Total"))]]),
          (js "parts", .arr (entered.map fun a =>
            .arr [.obj [(js "value", .str a.1)],
                  .obj [(js "value", .num (parseInt a.2.1))],
                  .obj [(js "value", .str a.2.2), (js "price", .bool true)]])),
          (js "total", .arr [.obj [(js "label", .str (js "Total")),
            (js "value", .str ((sumOfTotals (entered.map itemOfAnswers)).toFixed 2)),
            (js "price", .bool true)]])] := by
  have hrows : ∀ entered : List (JSString × JSString × JSString),
      (entered.map itemOfAnswers).map Item.toJS = entered.map fun a =>
        JSValue.arr [.obj [(js "value", .str a.1)],
                  .obj [(js "value", .num (parseInt a.2.1))],
                  .obj [(js "value", .str a.2.2), (js "price", .bool true)]] := by
    intro entered
    simp [List.map_map, Function.comp_def, Item.toJS, itemOfAnswers]
  constructor
  · intro h
    unfold promptForInvoiceDetails at h
    cases hp : promptForItems w.confirms [] w with
    | done parts w1 =>
      rw [hp] at h
      simp only [Outcome.andThen, Outcome.done.injEq] at h
      obtain ⟨hd, hw⟩ := h
      subst hw
      obtain ⟨entered, h1, h2, h3, h4⟩ := promptForItems_done_inv _ _ _ _ _ hp
      refine ⟨entered, h1, h2, h4, ?_⟩
      rw [← hd, h3, List.nil_append, detailsOf, hrows]
    | thrown e w1 => rw [hp] at h; simp [Outcome.andThen] at h
    | blocked w1 => rw [hp] at h; simp [Outcome.andThen] at h
  · rintro ⟨entered, h1, h2, h3, h4⟩
    unfold promptForInvoiceDetails
    rw [h1, promptForItems_done entered [] w w'.confirms w'.texts h2]
    simp only [Outcome.andThen, List.nil_append]
    rw [h4, h3, detailsOf, hrows]

/-- C8, witness: two rounds answered "yes", then "no"; the quantity `x` is not a
number. -/
theorem promptForInvoiceDetails_shape_witness :
    promptForInvoiceDetails
        { fs := demoFS,
          texts := [js "Widget", js "2", js "19.99", js "Gadget", js "x", js "0.01", js "more"],
          confirms := [true, true, false, true],
          selections := [], actions := [], renders := [], output := [] } =
      .done
        (.obj [
          (js "header", .arr [.obj [(js "value", .str (js "Description"))],
            .obj [(js "value", .str (js "Quantity"))], .obj [(js "value", .str (js "Total"))]]),
          (js "parts", .arr [
            .arr [.obj [(js "value", .str (js "Widget"))],
                  .obj [(js "value", .num (.fin false 1 1))],
                  .obj [(js "value", .str (js "19.99")), (js "price", .bool true)]],
            .arr [.obj [(js "value", .str (js "Gadget"))],
                  .obj [(js "value", .num .nan)],
                  .obj [(js "value", .str (js "0.01")), (js "price", .bool true)]]]),
          (js "total", .arr [.obj [(js "label", .str (js "Total")),
            (js "value", .str (js "20.00")), (js "price", .bool true)]])])
        { fs := demoFS, texts := [js "more"], confirms := [true],
          selections := [], actions := [], renders := [], output := [] } :=
  (promptForInvoiceDetails_shape _ _ _).mpr
    ⟨[(js "Widget", js "2", js "19.99"), (js "Gadget", js "x", js "0.01")],
      by decide!, by decide!, by decide!, by decide!⟩

/-! ## Render-all (C3) -/

theorem generatePDF_effect (R : Renderer) (v : JSValue) (w : World)
    (h : R.constructThrows v = false) :
    generatePDF R v w = .done ()
      { w with renders := w.renders ++ expectedRenders R v,
               output := w.output ++ [expectedReport R v] } := by
  unfold generatePDF
  simp only [h, Bool.false_eq_true, if_false]
  cases v <;>
    simp only [getProperty, expectedRenders, expectedReport, expectedPath, JSValue.prop,
      World.print, List.append_nil] <;>
    split <;> simp_all

theorem generateInvoicePDF_effect (E : Env) (file : JSString) (w : World) (v : JSValue)
    (h : loadRecord E w.fs file = .ok v) :
    generateInvoicePDF E file w = .done ()
      { w with renders := w.renders ++ expectedRenders E.renderer v,
               output := w.output ++ [expectedReport E.renderer v] } := by
  unfold loadRecord at h
  unfold generateInvoicePDF
  cases hr : w.fs.readFile (pathJoin (INVOICES_DIR E.root) file) with
  | error e => simp [hr] at h
  | ok content =>
    simp only [hr] at h ⊢
    cases hp : JSON_parse content with
    | error e => simp [hp] at h
    | ok u =>
      simp only [hp] at h ⊢
      by_cases hc : E.renderer.constructThrows u = true
      · simp [hc] at h
      · simp only [hc, Bool.false_eq_true, if_false, Except.ok.injEq] at h
        subst h
        exact generatePDF_effect E.renderer u w (by simpa using hc)

theorem generateInvoicePDF_failed (E : Env) (file : JSString) (w : World) (e : JSError)
    (h : loadRecord E w.fs file = .error e) :
    generateInvoicePDF E file w = .thrown e w := by
  unfold loadRecord at h
  unfold generateInvoicePDF
  cases hr : w.fs.readFile (pathJoin (INVOICES_DIR E.root) file) with
  | error e2 => simp only [hr] at h ⊢; cases h; rfl
  | ok content =>
    simp only [hr] at h ⊢
    cases hp : JSON_parse content with
    | error e2 => simp only [hp] at h ⊢; cases h; rfl
    | ok u =>
      simp only [hp] at h ⊢
      by_cases hc : E.renderer.constructThrows u = true
      · simp only [hc, if_true] at h
        cases h
        simp [generatePDF, hc]
      · simp [hc] at h

theorem generateEach_append (E : Env) (xs ys : List JSString) :
    ∀ w : World, generateEach E (xs ++ ys) w =
      (generateEach E xs w).andThen fun _ w1 => generateEach E ys w1 := by
  induction xs with
  | nil => intro w; rfl
  | cons f xs ih =>
    intro w
    simp only [List.cons_append, generateEach]
    cases generateInvoicePDF E f w with
    | done a w1 => simp only [Outcome.andThen]; exact ih w1
    | thrown e w1 => rfl
    | blocked w1 => rfl

theorem generateEach_effect (E : Env) (fs : FS) (files : List JSString)
    (loaded : List JSValue)
    (h : List.Forall₂ (fun f v => loadRecord E fs f = .ok v) files loaded) :
    ∀ w : World, w.fs = fs →
      generateEach E files w = .done ()
        { w with renders := w.renders ++ loaded.flatMap (expectedRenders E.renderer),
                 output := w.output ++ loaded.map (expectedReport E.renderer) } := by
  induction h with
  | nil =>
    intro w _
    simp [generateEach]
  | @cons f v l1 l2 hv _ ih =>
    intro w hw
    subst hw
    rw [generateEach, generateInvoicePDF_effect E _ w _ hv]
    simp only [Outcome.andThen]
    refine (ih { w with renders := w.renders ++ expectedRenders E.renderer v,
                        output := w.output ++ [expectedReport E.renderer v] } rfl).trans ?_
    simp [List.flatMap_cons, List.append_assoc]

/-- C3, amended: render-all takes the listed records in listing order and stops at the
first one that cannot be read or parsed, or for which the renderer cannot be
constructed. That error leaves `generateAllInvoices` uncaught and the records listed
after it are not attempted. Each record `v` loaded before it was handed to the renderer,
with the path `./generated_invoices/` followed by the text of `v.fileName`, and reported
by one line of output; an error inside the `try` of `generatePDF` (a failing `generate`,
or the `fileName` of `null`) is caught and logged there and does not stop the batch.
Nothing else of the world changes. -/
theorem generateAllInvoices_stops_at_first_failure (E : Env) (w : World)
    (files before after : List JSString) (failing : JSString) (loaded : List JSValue)
    (e : JSError)
    (hlist : w.fs.readdir (INVOICES_DIR E.root) = .ok files)
    (hsplit : jsonFilesOf files = before ++ failing :: after)
    (hbefore : List.Forall₂ (fun f v => loadRecord E w.fs f = .ok v) before loaded)
    (hfail : loadRecord E w.fs failing = .error e) :
    generateAllInvoices E w = .thrown e
      { w with renders := w.renders ++ loaded.flatMap (expectedRenders E.renderer),
               output := w.output ++ loaded.map (expectedReport E.renderer) } := by
  unfold generateAllInvoices
  simp only [hlist, hsplit]
  rw [generateEach_append, generateEach_effect E w.fs before loaded hbefore w rfl]
  simp only [Outcome.andThen, generateEach]
  have hthrown := generateInvoicePDF_failed E failing
    { w with renders := w.renders ++ loaded.flatMap (expectedRenders E.renderer),
             output := w.output ++ loaded.map (expectedReport E.renderer) } e hfail
  rw [hthrown]

/-- C3, witness: a valid record, then a malformed one, then a valid one. Render-all
ends with the uncaught `SyntaxError`; it has rendered the first record to
`./generated_invoices/a-invoice.pdf` and reported it, and has not attempted the third. -/
theorem generateAllInvoices_stops_at_first_failure_witness :
    generateAllInvoices demoEnv mixedBatch = .thrown .syntaxError
      { mixedBatch with
        renders := mixedBatch.renders ++
          [demoRecord (js "a") []].flatMap (expectedRenders demoEnv.renderer),
        output := mixedBatch.output ++
          [demoRecord (js "a") []].map (expectedReport demoEnv.renderer) } ∧
    mixedBatch.renders ++ [demoRecord (js "a") []].flatMap (expectedRenders demoEnv.renderer) =
      [RenderCall.mk (demoRecord (js "a") []) (js "./generated_invoices/a-invoice.pdf") true] ∧
    mixedBatch.output ++ [demoRecord (js "a") []].map (expectedReport demoEnv.renderer) =
      [.log (js "Invoice saved as a-invoice.pdf")] :=
  ⟨generateAllInvoices_stops_at_first_failure demoEnv mixedBatch
      [js "a-invoice.json", js "bad.json", js "b-invoice.json"]
      [js "a-invoice.json"] [js "b-invoice.json"] (js "bad.json") [demoRecord (js "a") []]
      .syntaxError (by decide!) (by decide!)
      (List.Forall₂.cons (by decide!) List.Forall₂.nil) (by decide!),
    by decide!, by decide!⟩


/-! ## Startup (C9) -/

theorem lookup_append_of_ne (fs : FS) (a q : Path) (n : Node) (h : q ≠ a) :
    ({ fs with nodes := fs.nodes ++ [(a, n)] } : FS).lookup q = fs.lookup q := by
  unfold FS.lookup
  by_cases hq : q = []
  · simp [hq]
  · simp only [hq, if_false, List.find?_append]
    have : List.find? (fun r => decide (r.1 = q)) [(a, n)] = none := by
      simp [List.find?_cons, Ne.symm h]
    rw [this]
    simp

theorem lookup_append_self (fs : FS) (a : Path) (n : Node) (ha : a ≠ [])
    (h : fs.lookup a = none) :
    ({ fs with nodes := fs.nodes ++ [(a, n)] } : FS).lookup a = some n := by
  unfold FS.lookup at h ⊢
  simp only [ha, if_false] at h ⊢
  have h2 : List.find? (fun r => decide (r.1 = a)) fs.nodes = none := by
    cases hf : List.find? (fun r => decide (r.1 = a)) fs.nodes with
    | none => rfl
    | some x => simp [hf] at h
  simp [List.find?_append, h2]

theorem mkdirAux_lookup_other (segs : List JSString) :
    ∀ (pre : Path) (fs fs' : FS), mkdirAux fs pre segs = .ok fs' →
      ∀ q : Path, (∀ k, 0 < k → k ≤ segs.length → q ≠ pre ++ segs.take k) →
        fs'.lookup q = fs.lookup q := by
  induction segs with
  | nil =>
    intro pre fs fs' h q _
    simp only [mkdirAux, Except.ok.injEq] at h
    rw [h]
  | cons seg rest ih =>
    intro pre fs fs' h q hq
    have hstep : ∀ k, 0 < k → k ≤ rest.length → q ≠ (pre ++ [seg]) ++ rest.take k := by
      intro k hk hk2
      have := hq (k + 1) (by omega) (by simp; omega)
      simpa using this
    have hcur : q ≠ pre ++ [seg] := by
      have := hq 1 (by omega) (by simp)
      simpa using this
    unfold mkdirAux at h
    split at h
    · cases h
    · cases h
    · exact ih _ _ _ h q hstep
    · rw [ih _ _ _ h q hstep]
      exact lookup_append_of_ne fs _ q _ hcur

theorem mkdirAux_lookup_target (segs : List JSString) :
    ∀ (pre : Path) (fs fs' : FS), mkdirAux fs pre segs = .ok fs' →
      fs.lookup pre = some .dir → fs'.lookup (pre ++ segs) = some .dir := by
  induction segs with
  | nil =>
    intro pre fs fs' h hpre
    simp only [mkdirAux, Except.ok.injEq] at h
    rw [← h, List.append_nil]
    exact hpre
  | cons seg rest ih =>
    intro pre fs fs' h hpre
    have happ : pre ++ seg :: rest = (pre ++ [seg]) ++ rest := by simp
    rw [happ]
    unfold mkdirAux at h
    split at h
    · cases h
    · cases h
    · next hl => exact ih _ _ _ h hl
    · next hl =>
      exact ih _ _ _ h (lookup_append_self fs _ _ (by simp) hl)

theorem INVOICES_DIR_eq (root : Path) : INVOICES_DIR root = root ++ [js "invoices"] := by
  have h : splitSegments (js "invoices") = [js "invoices"] := by decide
  simp [INVOICES_DIR, pathJoin, h, normalizeSegments]
  decide

theorem OUTPUT_DIR_eq (root : Path) : OUTPUT_DIR root = root ++ [js "generated_invoices"] := by
  have h : splitSegments (js "generated_invoices") = [js "generated_invoices"] := by decide
  simp [OUTPUT_DIR, pathJoin, h, normalizeSegments]
  decide

/-- C9, amended: startup calls `mkdir` for the output directory only. When it returns,
the output directory exists, unless `mkdir` failed with `EEXIST`, which is swallowed and
leaves the file system as it was; any other failure of `mkdir` is rethrown. The record
directory is never created: it is after startup what it was before. -/
theorem ensureOutputDirectoryExists_creates_output_only (E : Env) (w : World) :
    (∃ w', ensureOutputDirectoryExists E w = .done () w' ∧
        w'.fs.lookup (INVOICES_DIR E.root) = w.fs.lookup (INVOICES_DIR E.root) ∧
        (w'.fs.lookup (OUTPUT_DIR E.root) = some .dir ∨
          (w' = w ∧
            w.fs.mkdirRecursive (OUTPUT_DIR E.root) = .error (.system (js "EEXIST"))))) ∨
    (∃ e, e ≠ .system (js "EEXIST") ∧ w.fs.mkdirRecursive (OUTPUT_DIR E.root) = .error e ∧
        ensureOutputDirectoryExists E w = .thrown e w) := by
  unfold ensureOutputDirectoryExists
  cases hm : w.fs.mkdirRecursive (OUTPUT_DIR E.root) with
  | ok fs' =>
    left
    refine ⟨{ w with fs := fs' }, rfl, ?_, Or.inl ?_⟩
    · unfold FS.mkdirRecursive at hm
      split at hm
      · cases hm
      · apply mkdirAux_lookup_other _ _ _ _ hm
        intro k hk hk2
        rw [INVOICES_DIR_eq, OUTPUT_DIR_eq]
        intro heq
        have hlen := congrArg List.length heq
        simp only [List.nil_append, List.length_append, List.length_singleton,
          List.length_take] at hlen hk2
        have htake : (E.root ++ [js "generated_invoices"]).take k =
            E.root ++ [js "generated_invoices"] :=
          List.take_of_length_le (by simp only [List.length_append, List.length_singleton]; omega)
        rw [List.nil_append, htake] at heq
        have h2 := List.append_cancel_left heq
        revert h2
        decide
    · unfold FS.mkdirRecursive at hm
      split at hm
      · cases hm
      · have := mkdirAux_lookup_target _ _ _ _ hm (by simp [FS.lookup])
        simpa using this
  | error e =>
    cases e with
    | system code =>
      by_cases hc : code = js "EEXIST"
      · left
        exact ⟨w, by simp [hc], rfl, Or.inr ⟨rfl, by rw [hc]⟩⟩
      · right
        exact ⟨.system code, by simpa using hc, rfl, by simp [hc]⟩
    | syntaxError => right; exact ⟨_, by simp, rfl, rfl⟩
    | typeError => right; exact ⟨_, by simp, rfl, rfl⟩
    | renderer => right; exact ⟨_, by simp, rfl, rfl⟩

/-! ## Decimal digits -/

theorem foldl_digits (ys : JSString) : ∀ a : Nat,
    ys.foldl (fun acc c => 10 * acc + (c - 48)) a = a * 10 ^ ys.length + digitsValue ys := by
  induction ys with
  | nil => intro a; simp [digitsValue]
  | cons y ys ih =>
    intro a
    simp only [List.foldl_cons, List.length_cons, digitsValue]
    rw [ih (10 * a + (y - 48)), ih (10 * 0 + (y - 48))]
    ring

theorem digitsValue_cons (d : Nat) (ds : JSString) :
    digitsValue (d :: ds) = (d - 48) * 10 ^ ds.length + digitsValue ds := by
  unfold digitsValue
  simp only [List.foldl_cons]
  rw [foldl_digits]
  simp [digitsValue]

theorem digitsValue_append (xs ys : JSString) :
    digitsValue (xs ++ ys) = digitsValue xs * 10 ^ ys.length + digitsValue ys := by
  unfold digitsValue
  rw [List.foldl_append, foldl_digits]
  simp [digitsValue]

theorem digitsValue_decimalDigitsAux (fuel : Nat) : ∀ (n : Nat) (acc : JSString), n < fuel →
    digitsValue (decimalDigitsAux fuel n acc) = n * 10 ^ acc.length + digitsValue acc := by
  induction fuel with
  | zero => intro n acc h; omega
  | succ fuel ih =>
    intro n acc h
    unfold decimalDigitsAux
    by_cases hn : n < 10
    · simp only [hn, if_true]
      rw [digitsValue_cons]
      simp
    · simp only [hn, if_false]
      rw [ih (n / 10) _ (by omega), digitsValue_cons]
      simp only [List.length_cons, Nat.add_sub_cancel_left, pow_succ]
      conv_rhs => rw [← Nat.div_add_mod n 10]
      ring

theorem digitsValue_decimalDigits (n : Nat) : digitsValue (decimalDigits n) = n := by
  unfold decimalDigits
  rw [digitsValue_decimalDigitsAux (n + 1) n [] (by omega)]
  simp [digitsValue]

theorem decimalDigitsAux_isDigit (fuel : Nat) : ∀ (n : Nat) (acc : JSString),
    (∀ c ∈ acc, isDigit c = true) → ∀ c ∈ decimalDigitsAux fuel n acc, isDigit c = true := by
  induction fuel with
  | zero => intro n acc h; simpa [decimalDigitsAux] using h
  | succ fuel ih =>
    intro n acc h
    unfold decimalDigitsAux
    by_cases hn : n < 10
    · simp only [hn, if_true]
      intro c hc
      rcases List.mem_cons.mp hc with rfl | hc
      · simp [isDigit]; omega
      · exact h c hc
    · simp only [hn, if_false]
      apply ih
      intro c hc
      rcases List.mem_cons.mp hc with rfl | hc
      · simp [isDigit]; omega
      · exact h c hc

theorem decimalDigits_isDigit (n : Nat) : ∀ c ∈ decimalDigits n, isDigit c = true :=
  decimalDigitsAux_isDigit _ _ _ (by simp)

theorem decimalDigitsAux_ne_nil (fuel : Nat) : ∀ (n : Nat) (acc : JSString),
    (0 < fuel ∨ acc ≠ []) → decimalDigitsAux fuel n acc ≠ [] := by
  induction fuel with
  | zero => intro n acc h; rcases h with h | h; omega; simpa [decimalDigitsAux] using h
  | succ fuel ih =>
    intro n acc _
    unfold decimalDigitsAux
    by_cases hn : n < 10
    · simp [hn]
    · simp only [hn, if_false]
      exact ih _ _ (Or.inr (by simp))

theorem decimalDigits_ne_nil (n : Nat) : decimalDigits n ≠ [] :=
  decimalDigitsAux_ne_nil _ _ _ (Or.inl (by omega))

theorem takeWhile_append_stop {p : Nat → Bool} (l r : List Nat) (x : Nat)
    (hl : ∀ c ∈ l, p c = true) (hx : p x = false) :
    (l ++ x :: r).takeWhile p = l ∧ (l ++ x :: r).dropWhile p = x :: r := by
  induction l with
  | nil => simp [List.takeWhile_cons, List.dropWhile_cons, hx]
  | cons c l ih =>
    have hc := hl c (List.mem_cons_self _ _)
    have := ih (fun d hd => hl d (List.mem_cons_of_mem _ hd))
    simp [List.takeWhile_cons, List.dropWhile_cons, hc, this]

theorem isUnsignedTwoFraction_digits (ip : JSString) (a b : Nat) (hip : ip ≠ [])
    (hipd : ∀ c ∈ ip, isDigit c = true) (ha : isDigit a = true) (hb : isDigit b = true) :
    isUnsignedTwoFraction (ip ++ 46 :: [a, b]) = true := by
  have hspan := takeWhile_append_stop (p := isDigit) ip [a, b] 46 hipd (by decide)
  unfold isUnsignedTwoFraction
  rw [hspan.1, hspan.2]
  simp [hip, ha, hb]

theorem isTwoFractionDecimal_digits (ip : JSString) (a b : Nat) (hip : ip ≠ [])
    (hipd : ∀ c ∈ ip, isDigit c = true) (ha : isDigit a = true) (hb : isDigit b = true) :
    isTwoFractionDecimal (ip ++ 46 :: [a, b]) = true ∧
    isTwoFractionDecimal (45 :: (ip ++ 46 :: [a, b])) = true := by
  have h := isUnsignedTwoFraction_digits ip a b hip hipd ha hb
  refine ⟨?_, by simpa [isTwoFractionDecimal] using h⟩
  obtain ⟨c0, ip', hc0⟩ := List.exists_cons_of_ne_nil hip
  have hc0d : isDigit c0 = true := hipd c0 (by rw [hc0]; simp)
  have hc45 : c0 ≠ 45 := by
    intro h45; rw [h45] at hc0d; simp [isDigit] at hc0d
  unfold isTwoFractionDecimal
  split
  · next r heq => rw [hc0] at heq; simp at heq; exact absurd heq.1 hc45
  · exact h

theorem toFixed_two_format (neg : Bool) (m : Nat) (e : Int) (h : belowE21 m e = true) :
    isTwoFractionDecimal ((JSNumber.fin neg m e).toFixed 2) = true := by
  unfold belowE21 at h
  simp only [decide_eq_true_eq] at h
  unfold JSNumber.toFixed
  simp only [Nat.not_le.mpr h, if_false]
  generalize hn : (2 * (if 0 ≤ e then m * 2 ^ e.toNat else m) * 10 ^ 2 +
    (if 0 ≤ e then 1 else 2 ^ (-e).toNat)) / (2 * (if 0 ≤ e then 1 else 2 ^ (-e).toNat)) = n
  generalize hp : (if (decimalDigits n).length ≤ 2 then
    zeros (2 + 1 - (decimalDigits n).length) ++ decimalDigits n else decimalDigits n) = padded
  have hdig : ∀ c ∈ padded, isDigit c = true := by
    rw [← hp]
    split
    · intro c hc
      rcases List.mem_append.mp hc with hc | hc
      · simp [zeros] at hc
        simp [hc.2, isDigit]
      · exact decimalDigits_isDigit n c hc
    · exact decimalDigits_isDigit n
  have hlen : 3 ≤ padded.length := by
    rw [← hp]
    split
    · simp [zeros]; omega
    · omega
  simp only [show (2 : Nat) ≠ 0 by omega, if_false]
  obtain ⟨a, b, ip, hip, hpad⟩ : ∃ a b ip, ip ≠ [] ∧ padded = ip ++ [a, b] := by
    refine ⟨padded.get ⟨padded.length - 2, by omega⟩, padded.get ⟨padded.length - 1, by omega⟩,
      padded.take (padded.length - 2), ?_, ?_⟩
    · intro h0
      have := congrArg List.length h0
      simp at this
      omega
    · apply List.ext_get
      · simp; omega
      · intro i h1 h2
        by_cases hi : i < padded.length - 2
        · simp [List.getElem_append_left, hi]
        · have hi2 : padded.length - 2 ≤ i := by omega
          rw [List.get_eq_getElem, List.get_eq_getElem,
            List.getElem_append_right (by simp; omega)]
          simp only [List.length_take]
          have : i - min (padded.length - 2) padded.length = 0 ∨
              i - min (padded.length - 2) padded.length = 1 := by
            simp at h2; omega
          rcases this with h3 | h3
          · simp only [h3]
            simp
            congr 1
            omega
          · simp only [h3]
            simp
            congr 1
            omega
  have hlen2 : padded.length - 2 = ip.length := by rw [hpad]; simp
  have htake : padded.take (padded.length - 2) = ip := by rw [hlen2, hpad]; simp
  have hdrop : padded.drop (padded.length - 2) = [a, b] := by rw [hlen2, hpad]; simp
  rw [htake, hdrop]
  have hipd : ∀ c ∈ ip, isDigit c = true := fun c hc => hdig c (by rw [hpad]; simp [hc])
  have ha : isDigit a = true := hdig a (by rw [hpad]; simp)
  have hb : isDigit b = true := hdig b (by rw [hpad]; simp)
  have key := isTwoFractionDecimal_digits ip a b hip hipd ha hb
  by_cases hs : neg = true ∧ m ≠ 0
  · simp only [hs, and_self, if_true, ne_eq, not_false_eq_true]
    simpa using key.2
  · simp only [hs, if_false, List.nil_append]
    simpa using key.1

/-! ## Price cells (C6) -/

theorem priceCells_item (item : Item) : priceCells item.toJS = [.str item.total] := by
  have h1 : (js "value" = js "price") = False := by decide
  simp [Item.toJS, priceCells, priceCellsOfElements, priceCellsOfMembers, lookupProperty, h1]

theorem priceCells_items (parts : List Item) :
    priceCellsOfElements (parts.map Item.toJS) = parts.map (fun item => .str item.total) := by
  induction parts with
  | nil => rfl
  | cons item parts ih => simp [priceCellsOfElements, priceCells_item, ih]

theorem priceCells_details (parts : List Item) :
    priceCells (detailsOf parts) =
      parts.map (fun item => .str item.total) ++ [.str ((sumOfTotals parts).toFixed 2)] := by
  have h1 : (js "value" = js "price") = False := by decide
  have h2 : (js "header" = js "price") = False := by decide
  have h3 : (js "parts" = js "price") = False := by decide
  have h4 : (js "total" = js "price") = False := by decide
  have h5 : (js "label" = js "price") = False := by decide
  have h6 : (js "label" = js "value") = False := by decide
  simp [detailsOf, priceCells, priceCellsOfElements, priceCellsOfMembers, lookupProperty,
    h1, h2, h3, h4, h5, h6, priceCells_items]

/-- C6, amended: in a record built by `createNewInvoice` the cells marked `price: true`
are the total cell of each row, which holds the text the user entered, unchanged, and
the total row, which holds `toFixed(2)` of the sum; the latter is a decimal with exactly
two fraction digits whenever the sum is a finite number below `10^21` in magnitude. -/
theorem price_cells_of_created_record
    (fileName invoiceNumber invoiceDate name address customerId : JSString) (parts : List Item) :
    priceCells (invoiceDataOf fileName invoiceNumber invoiceDate
        (customerDataOf name address customerId) (detailsOf parts)) =
      parts.map (fun item => .str item.total) ++ [.str ((sumOfTotals parts).toFixed 2)] ∧
    (∀ neg m e, sumOfTotals parts = .fin neg m e → belowE21 m e = true →
      isTwoFractionDecimal ((sumOfTotals parts).toFixed 2) = true) := by
  constructor
  · rw [← priceCells_details parts]
    generalize detailsOf parts = d
    have e1 : (js "fileName" = js "price") = False := by decide
    have e2 : (js "data" = js "price") = False := by decide
    have e3 : (js "invoice" = js "price") = False := by decide
    have e4 : (js "name" = js "price") = False := by decide
    have e5 : (js "header" = js "price") = False := by decide
    have e6 : (js "currency" = js "price") = False := by decide
    have e7 : (js "customer" = js "price") = False := by decide
    have e8 : (js "seller" = js "price") = False := by decide
    have e9 : (js "details" = js "price") = False := by decide
    have e10 : (js "label" = js "price") = False := by decide
    have e11 : (js "value" = js "price") = False := by decide
    simp [invoiceDataOf, customerDataOf, SELLER_INFO, labelled, priceCells, priceCellsOfElements,
      priceCellsOfMembers, lookupProperty, e1, e2, e3, e4, e5, e6, e7, e8, e9, e10, e11]
  · intro neg m e hsum hlt
    rw [hsum]
    exact toFixed_two_format neg m e hlt

/-- C6, witness: one item of price `19.99`; the sum is the binary64 value
`5626684784446013 * 2^-48` and the total row holds a decimal with two fraction digits. -/
theorem price_cells_of_created_record_witness :
    isTwoFractionDecimal ((sumOfTotals [widget]).toFixed 2) = true :=
  (price_cells_of_created_record (js "acme-invoice.pdf") (js "INV-1") (js "2024-01-01")
    (js "Bob") (js "1 Main St") (js "C-7") [widget]).2 false 5626684784446013 (-48)
    (by decide!) (by decide!)

/-! ## Rounding to binary64 -/

theorem floorLog2Aux_spec (fuel : Nat) : ∀ n : Nat, 0 < n → n ≤ fuel →
    2 ^ floorLog2Aux fuel n ≤ n ∧ n < 2 ^ (floorLog2Aux fuel n + 1) := by
  induction fuel with
  | zero => intro n h1 h2; omega
  | succ fuel ih =>
    intro n h1 h2
    unfold floorLog2Aux
    by_cases hn : n < 2
    · simp only [hn, if_true]
      omega
    · simp only [hn, if_false]
      obtain ⟨ha, hb⟩ := ih (n / 2) (by omega) (by omega)
      constructor
      · rw [pow_succ]; omega
      · rw [pow_succ]; omega

theorem floorLog2_spec (n : Nat) (h : 0 < n) :
    2 ^ floorLog2 n ≤ n ∧ n < 2 ^ (floorLog2 n + 1) :=
  floorLog2Aux_spec n n h (le_refl n)

theorem scaleFrac_pos (N D : Nat) (e : Int) (hD : 0 < D) : 0 < (scaleFrac N D e).2 := by
  unfold scaleFrac
  split
  · exact Nat.mul_pos hD (Nat.two_pow_pos _)
  · exact hD

theorem scaleFrac_value (N D : Nat) (e : Int) (hD : 0 < D) :
    ((scaleFrac N D e).1 : ℚ) / ((scaleFrac N D e).2 : ℚ) = (N : ℚ) / (D : ℚ) / (2 : ℚ) ^ e := by
  have hDq : (D : ℚ) ≠ 0 := by exact_mod_cast hD.ne'
  unfold scaleFrac
  split
  · next h =>
    have he : e = (e.toNat : Int) := (Int.toNat_of_nonneg h).symm
    simp only [Nat.cast_mul, Nat.cast_pow, Nat.cast_ofNat]
    conv_rhs => rw [he, zpow_natCast]
    rw [div_div]
  · next h =>
    have he : e = -((-e).toNat : Int) := by
      rw [Int.toNat_of_nonneg (by omega)]; omega
    simp only [Nat.cast_mul, Nat.cast_pow, Nat.cast_ofNat]
    conv_rhs => rw [he, zpow_neg, zpow_natCast]
    field_simp

theorem ulpExponent_spec (N D : Nat) (hN : 0 < N) (hD : 0 < D) :
    (N : ℚ) / D < 2 ^ (53 : ℤ) * 2 ^ (ulpExponent N D) ∧ -1074 ≤ ulpExponent N D ∧
    (ulpExponent N D = -1074 ∨ (2 : ℚ) ^ (52 : ℤ) * 2 ^ (ulpExponent N D) ≤ (N : ℚ) / D) := by
  obtain ⟨ha1, ha2⟩ := floorLog2_spec N hN
  obtain ⟨hb1, hb2⟩ := floorLog2_spec D hD
  have hDq : (0 : ℚ) < D := by exact_mod_cast hD
  have hNq : (0 : ℚ) < N := by exact_mod_cast hN
  set a := floorLog2 N
  set b := floorLog2 D
  have ha1q : (2 : ℚ) ^ (a : ℤ) ≤ N := by rw [zpow_natCast]; exact_mod_cast ha1
  have ha2q : (N : ℚ) < 2 ^ ((a : ℤ) + 1) := by
    have : (N : ℚ) < 2 ^ (a + 1) := by exact_mod_cast ha2
    rw [show ((a : ℤ) + 1) = ((a + 1 : ℕ) : ℤ) by push_cast; ring, zpow_natCast]; exact this
  have hb1q : (2 : ℚ) ^ (b : ℤ) ≤ D := by rw [zpow_natCast]; exact_mod_cast hb1
  have hb2q : (D : ℚ) < 2 ^ ((b : ℤ) + 1) := by
    have : (D : ℚ) < 2 ^ (b + 1) := by exact_mod_cast hb2
    rw [show ((b : ℤ) + 1) = ((b + 1 : ℕ) : ℤ) by push_cast; ring, zpow_natCast]; exact this
  have h2 : (0 : ℚ) < 2 := by norm_num
  -- bounds on the quotient
  have hup : (N : ℚ) / D < 2 ^ ((a : ℤ) - b + 1) := by
    rw [div_lt_iff₀ hDq]
    calc (N : ℚ) < 2 ^ ((a : ℤ) + 1) := ha2q
      _ = 2 ^ ((a : ℤ) - b + 1) * 2 ^ (b : ℤ) := by rw [← zpow_add₀ (by norm_num)]; congr 1; ring
      _ ≤ 2 ^ ((a : ℤ) - b + 1) * D := by
        apply mul_le_mul_of_nonneg_left hb1q (le_of_lt (zpow_pos h2 _))
  have hlo : (2 : ℚ) ^ ((a : ℤ) - b - 1) < (N : ℚ) / D := by
    rw [lt_div_iff₀ hDq]
    calc (2 : ℚ) ^ ((a : ℤ) - b - 1) * D < 2 ^ ((a : ℤ) - b - 1) * 2 ^ ((b : ℤ) + 1) := by
          apply mul_lt_mul_of_pos_left hb2q (zpow_pos h2 _)
      _ = 2 ^ (a : ℤ) := by rw [← zpow_add₀ (by norm_num)]; congr 1; ring
      _ ≤ N := ha1q
  unfold ulpExponent
  simp only
  have hsf := scaleFrac_value N D ((a : ℤ) - b - 52) hD
  have hsp := scaleFrac_pos N D ((a : ℤ) - b - 52) hD
  have hspq : (0 : ℚ) < ((scaleFrac N D ((a : ℤ) - b - 52)).2 : ℚ) := by exact_mod_cast hsp
  have htest : ((scaleFrac N D ((a : ℤ) - b - 52)).1 < 2 ^ 52 * (scaleFrac N D ((a : ℤ) - b - 52)).2) ↔
      (N : ℚ) / D < 2 ^ (52 : ℤ) * 2 ^ ((a : ℤ) - b - 52) := by
    have e1 : ((scaleFrac N D ((a : ℤ) - b - 52)).1 < 2 ^ 52 * (scaleFrac N D ((a : ℤ) - b - 52)).2) ↔
        ((scaleFrac N D ((a : ℤ) - b - 52)).1 : ℚ) / ((scaleFrac N D ((a : ℤ) - b - 52)).2 : ℚ) < 2 ^ 52 := by
      rw [div_lt_iff₀ hspq]
      constructor
      · intro h; exact_mod_cast h
      · intro h; exact_mod_cast h
    rw [e1, hsf, div_lt_iff₀ (zpow_pos h2 _)]
    norm_num
  have hpow : ∀ x y : ℤ, (2 : ℚ) ^ x * 2 ^ y = 2 ^ (x + y) := fun x y =>
    (zpow_add₀ (by norm_num) x y).symm
  by_cases ht : (scaleFrac N D ((a : ℤ) - b - 52)).1 < 2 ^ 52 * (scaleFrac N D ((a : ℤ) - b - 52)).2
  · simp only [ht, if_true]
    have ht' := htest.mp ht
    rw [hpow] at ht'
    rcases le_or_lt (-1074 : ℤ) ((a : ℤ) - b - 52 - 1) with hc | hc
    · rw [max_eq_left hc]
      refine ⟨?_, hc, Or.inr ?_⟩
      · rw [hpow]; convert ht' using 2; ring
      · rw [hpow]; apply le_of_lt; convert hlo using 2; ring
    · rw [max_eq_right (le_of_lt hc)]
      refine ⟨?_, le_refl _, Or.inl rfl⟩
      rw [hpow]
      apply lt_trans ht'
      apply zpow_lt_zpow_right₀ (by norm_num); omega
  · simp only [ht, if_false]
    have ht' := (not_congr htest).mp ht
    rw [hpow, not_lt] at ht'
    rcases le_or_lt (-1074 : ℤ) ((a : ℤ) - b - 52) with hc | hc
    · rw [max_eq_left hc]
      refine ⟨?_, hc, Or.inr ?_⟩
      · rw [hpow]; convert hup using 2; ring
      · rw [hpow]; exact ht'
    · rw [max_eq_right (le_of_lt hc)]
      refine ⟨?_, le_refl _, Or.inl rfl⟩
      rw [hpow]
      apply lt_trans hup
      apply zpow_lt_zpow_right₀ (by norm_num); omega

theorem roundHalfEven_error (N D : Nat) (hD : 0 < D) :
    |((roundHalfEven N D : ℕ) : ℚ) - (N : ℚ) / D| ≤ 1 / 2 := by
  have hDq : (0 : ℚ) < D := by exact_mod_cast hD
  have hdm : (N : ℚ) = D * (N / D : ℕ) + (N % D : ℕ) := by exact_mod_cast (Nat.div_add_mod N D).symm
  have hr : N % D < D := Nat.mod_lt N hD
  have hrq : ((N % D : ℕ) : ℚ) < D := by exact_mod_cast hr
  have hr0 : (0 : ℚ) ≤ ((N % D : ℕ) : ℚ) := by positivity
  have hval : (N : ℚ) / D = (N / D : ℕ) + ((N % D : ℕ) : ℚ) / D := by
    rw [hdm]; field_simp; ring
  unfold roundHalfEven
  simp only
  rw [abs_le]
  by_cases h1 : 2 * (N % D) < D
  · simp only [h1, if_true]
    have h1q : 2 * ((N % D : ℕ) : ℚ) < D := by exact_mod_cast h1
    rw [hval]
    have : ((N % D : ℕ) : ℚ) / D < 1 / 2 := by rw [div_lt_iff₀ hDq]; linarith
    have : 0 ≤ ((N % D : ℕ) : ℚ) / D := by positivity
    constructor <;> linarith
  · simp only [h1, if_false]
    by_cases h2 : 2 * (N % D) = D
    · simp only [h2, if_true]
      have h2q : 2 * ((N % D : ℕ) : ℚ) = D := by exact_mod_cast h2
      have : ((N % D : ℕ) : ℚ) / D = 1 / 2 := by rw [div_eq_iff hDq.ne']; linarith
      rw [hval, this]
      split
      · constructor <;> linarith
      · push_cast; constructor <;> linarith
    · simp only [h2, if_false]
      have h3 : D < 2 * (N % D) := by omega
      have h3q : (D : ℚ) < 2 * ((N % D : ℕ) : ℚ) := by exact_mod_cast h3
      have : 1 / 2 < ((N % D : ℕ) : ℚ) / D := by rw [lt_div_iff₀ hDq]; linarith
      have : ((N % D : ℕ) : ℚ) / D < 1 := by rw [div_lt_iff₀ hDq]; linarith
      rw [hval]
      push_cast
      constructor <;> linarith

theorem roundHalfEven_le (N D K : Nat) (hD : 0 < D) (h : N < K * D) : roundHalfEven N D ≤ K := by
  have hq : N / D < K := (Nat.div_lt_iff_lt_mul hD).mpr h
  unfold roundHalfEven
  simp only
  split
  · omega
  · split
    · split <;> omega
    · omega

theorem roundHalfEven_ge (N D K : Nat) (hD : 0 < D) (h : K * D ≤ N) : K ≤ roundHalfEven N D := by
  have hq : K ≤ N / D := (Nat.le_div_iff_mul_le hD).mpr h
  unfold roundHalfEven
  simp only
  split
  · omega
  · split
    · split <;> omega
    · omega

theorem roundHalfEven_exact (q D : Nat) (hD : 0 < D) : roundHalfEven (q * D) D = q := by
  unfold roundHalfEven
  simp [Nat.mul_mod_left, Nat.mul_div_cancel _ hD, hD]

theorem stripTwos_spec (fuel : Nat) : ∀ (m : Nat) (e : Int),
    ((stripTwos fuel m e).1 : ℚ) * (2 : ℚ) ^ (stripTwos fuel m e).2 = (m : ℚ) * (2 : ℚ) ^ e ∧
    e ≤ (stripTwos fuel m e).2 ∧
    m = (stripTwos fuel m e).1 * 2 ^ ((stripTwos fuel m e).2 - e).toNat ∧
    (0 < m → m < 2 ^ fuel → (stripTwos fuel m e).1 % 2 = 1) := by
  induction fuel with
  | zero =>
    intro m e
    refine ⟨rfl, le_refl _, by simp [stripTwos], ?_⟩
    intro h1 h2
    simp at h2
    omega
  | succ fuel ih =>
    intro m e
    unfold stripTwos
    by_cases h : m % 2 = 0 ∧ m ≠ 0
    · simp only [h, and_self, if_true, ne_eq, not_false_eq_true]
      obtain ⟨h1, h2, h3, h4⟩ := ih (m / 2) (e + 1)
      have hm : m = 2 * (m / 2) := by omega
      refine ⟨?_, by omega, ?_, ?_⟩
      · rw [h1, zpow_add₀ (by norm_num)]
        have : (m : ℚ) = 2 * ((m / 2 : ℕ) : ℚ) := by exact_mod_cast hm
        rw [this]; ring
      · have hexp : ((stripTwos fuel (m / 2) (e + 1)).2 - e).toNat =
            ((stripTwos fuel (m / 2) (e + 1)).2 - (e + 1)).toNat + 1 := by omega
        rw [hexp, pow_succ, ← mul_assoc, ← h3]
        omega
      · intro hpos hlt
        apply h4
        · omega
        · rw [pow_succ] at hlt; omega
    · rw [if_neg h]
      refine ⟨rfl, le_refl _, by simp, ?_⟩
      intro hpos _
      omega

theorem lt_two_pow_self' (m : Nat) : m < 2 ^ m := Nat.lt_two_pow m

theorem mkFin_toRat (neg : Bool) (m : Nat) (e : Int) :
    (mkFin neg m e).toRat = (if neg then -1 else 1) * (m : ℚ) * (2 : ℚ) ^ e := by
  unfold mkFin
  by_cases h : m = 0
  · simp [h, JSNumber.toRat]
  · simp only [h, if_false, JSNumber.toRat]
    rw [mul_assoc, (stripTwos_spec m m e).1, mul_assoc]

theorem mkFin_is_fin (neg : Bool) (m : Nat) (e : Int) :
    ∃ m' e', mkFin neg m e = .fin neg m' e' := by
  unfold mkFin
  split
  · exact ⟨_, _, rfl⟩
  · exact ⟨_, _, rfl⟩

theorem nat_div_pow_le_iff (a b t M : Nat) (E : Int) (hE : E = (t : ℤ) - (b : ℤ)) :
    (2 ^ a ≤ M * 2 ^ t / 2 ^ b) ↔ (2 : ℚ) ^ (a : ℤ) ≤ (M : ℚ) * (2 : ℚ) ^ E := by
  rw [Nat.le_div_iff_mul_le (Nat.two_pow_pos _)]
  have hb : (0 : ℚ) < 2 ^ b := by positivity
  have hrw : (M : ℚ) * (2 : ℚ) ^ E = (M : ℚ) * 2 ^ t / 2 ^ b := by
    rw [hE, zpow_sub₀ (by norm_num), zpow_natCast, zpow_natCast, mul_div_assoc]
  rw [hrw, le_div_iff₀ hb, zpow_natCast]
  constructor
  · intro h; exact_mod_cast h
  · intro h; exact_mod_cast h

/-- The two outcomes of `roundToDouble` on a positive fraction, with `E` the exponent of
the unit in the last place and `M` the rounded significand. -/
theorem roundToDouble_cases (neg : Bool) (N D : Nat) (hN : 0 < N) (hD : 0 < D) :
    ((2 : ℚ) ^ ((1024 : ℕ) : ℤ) ≤ (roundHalfEven (scaleFrac N D (ulpExponent N D)).1
          (scaleFrac N D (ulpExponent N D)).2 : ℕ) * (2 : ℚ) ^ (ulpExponent N D) ∧
      roundToDouble neg N D = .inf neg) ∨
    (((roundHalfEven (scaleFrac N D (ulpExponent N D)).1
          (scaleFrac N D (ulpExponent N D)).2 : ℕ) : ℚ) * (2 : ℚ) ^ (ulpExponent N D) <
        (2 : ℚ) ^ ((1024 : ℕ) : ℤ) ∧
      roundToDouble neg N D = mkFin neg (roundHalfEven (scaleFrac N D (ulpExponent N D)).1
          (scaleFrac N D (ulpExponent N D)).2) (ulpExponent N D)) := by
  obtain ⟨_, hE, _⟩ := ulpExponent_spec N D hN hD
  have hkey := nat_div_pow_le_iff 1024 1074 (ulpExponent N D + 1074).toNat
    (roundHalfEven (scaleFrac N D (ulpExponent N D)).1 (scaleFrac N D (ulpExponent N D)).2)
    (ulpExponent N D) (by rw [Int.toNat_of_nonneg (by omega)]; push_cast; ring)
  unfold roundToDouble
  rw [if_neg (Nat.ne_of_gt hN)]
  by_cases hov : 2 ^ 1024 ≤ roundHalfEven (scaleFrac N D (ulpExponent N D)).1
      (scaleFrac N D (ulpExponent N D)).2 * 2 ^ (ulpExponent N D + 1074).toNat / 2 ^ 1074
  · left
    exact ⟨hkey.mp hov, if_pos hov⟩
  · right
    exact ⟨lt_of_not_le (fun h => hov (hkey.mpr h)), if_neg hov⟩

theorem zpow_two_pos (e : ℤ) : (0 : ℚ) < (2 : ℚ) ^ e := zpow_pos (by norm_num) e

theorem roundToDouble_significand_le (N D : Nat) (hN : 0 < N) (hD : 0 < D) :
    roundHalfEven (scaleFrac N D (ulpExponent N D)).1 (scaleFrac N D (ulpExponent N D)).2 ≤
      2 ^ 53 := by
  obtain ⟨hup, _, _⟩ := ulpExponent_spec N D hN hD
  have hsp := scaleFrac_pos N D (ulpExponent N D) hD
  apply roundHalfEven_le _ _ _ hsp
  have hv := scaleFrac_value N D (ulpExponent N D) hD
  have hspq : (0 : ℚ) < ((scaleFrac N D (ulpExponent N D)).2 : ℚ) := by exact_mod_cast hsp
  have h1 : ((scaleFrac N D (ulpExponent N D)).1 : ℚ) / ((scaleFrac N D (ulpExponent N D)).2 : ℚ)
      < 2 ^ 53 := by
    rw [hv, div_lt_iff₀ (zpow_two_pos _)]
    exact_mod_cast hup
  rw [div_lt_iff₀ hspq] at h1
  exact_mod_cast h1

theorem roundToDouble_significand_error (N D : Nat) (hD : 0 < D) :
    |((roundHalfEven (scaleFrac N D (ulpExponent N D)).1
        (scaleFrac N D (ulpExponent N D)).2 : ℕ) : ℚ) * (2 : ℚ) ^ (ulpExponent N D) -
      (N : ℚ) / D| ≤ (2 : ℚ) ^ (ulpExponent N D) / 2 := by
  have hsp := scaleFrac_pos N D (ulpExponent N D) hD
  have herr := roundHalfEven_error (scaleFrac N D (ulpExponent N D)).1
    (scaleFrac N D (ulpExponent N D)).2 hsp
  rw [scaleFrac_value N D _ hD] at herr
  have hp := zpow_two_pos (ulpExponent N D)
  set M : ℚ := ((roundHalfEven (scaleFrac N D (ulpExponent N D)).1
        (scaleFrac N D (ulpExponent N D)).2 : ℕ) : ℚ)
  set P : ℚ := (2 : ℚ) ^ (ulpExponent N D)
  have hx : M * P - (N : ℚ) / D = (M - (N : ℚ) / D / P) * P := by
    field_simp
    ring
  rw [hx, abs_mul, abs_of_pos hp]
  calc |M - (N : ℚ) / D / P| * P ≤ 1 / 2 * P := mul_le_mul_of_nonneg_right herr (le_of_lt hp)
    _ = P / 2 := by ring

/-- Rounding a positive fraction below `2^1023` gives a finite Number within half a unit
in the last place: the relative error is at most `2^-53`, the absolute error at most
`2^-1075` in the subnormal range. -/
theorem roundToDouble_error (neg : Bool) (N D : Nat) (hN : 0 < N) (hD : 0 < D)
    (hlt : (N : ℚ) / D < (2 : ℚ) ^ ((1023 : ℕ) : ℤ)) :
    ∃ m e, roundToDouble neg N D = .fin neg m e ∧
      |(m : ℚ) * (2 : ℚ) ^ e - (N : ℚ) / D| ≤
        (N : ℚ) / D * (2 : ℚ) ^ (-(53 : ℕ) : ℤ) + (2 : ℚ) ^ (-(1075 : ℕ) : ℤ) := by
  obtain ⟨hup, hE, hlo⟩ := ulpExponent_spec N D hN hD
  have hM := roundToDouble_significand_le N D hN hD
  have herr := roundToDouble_significand_error N D hD
  have hxpos : (0 : ℚ) < (N : ℚ) / D := by
    have : (0 : ℚ) < N := by exact_mod_cast hN
    have : (0 : ℚ) < D := by exact_mod_cast hD
    positivity
  set E := ulpExponent N D
  set M := roundHalfEven (scaleFrac N D E).1 (scaleFrac N D E).2
  have hMq : (M : ℚ) ≤ (2 : ℚ) ^ ((53 : ℕ) : ℤ) := by
    rw [zpow_natCast]; exact_mod_cast hM
  have hpow : ∀ x y : ℤ, (2 : ℚ) ^ x * 2 ^ y = 2 ^ (x + y) := fun x y =>
    (zpow_add₀ (by norm_num) x y).symm
  have hmono : ∀ x y : ℤ, x ≤ y → (2 : ℚ) ^ x ≤ 2 ^ y := fun x y h =>
    zpow_le_zpow_right₀ (by norm_num) h
  -- the error bound
  have hbound : (2 : ℚ) ^ E / 2 ≤
      (N : ℚ) / D * (2 : ℚ) ^ (-(53 : ℕ) : ℤ) + (2 : ℚ) ^ (-(1075 : ℕ) : ℤ) := by
    have hhalf : (2 : ℚ) ^ E / 2 = 2 ^ (E - 1) := by
      rw [zpow_sub₀ (by norm_num), zpow_one]
    rw [hhalf]
    rcases hlo with h | h
    · have : (2 : ℚ) ^ (E - 1) = 2 ^ (-(1075 : ℕ) : ℤ) := by rw [h]; norm_num
      rw [this]
      have : 0 ≤ (N : ℚ) / D * (2 : ℚ) ^ (-(53 : ℕ) : ℤ) :=
        mul_nonneg (le_of_lt hxpos) (le_of_lt (zpow_two_pos _))
      linarith
    · have h1 : (2 : ℚ) ^ (E - 1) = (2 : ℚ) ^ (52 : ℤ) * 2 ^ E * 2 ^ (-(53 : ℕ) : ℤ) := by
        rw [hpow, hpow]; congr 1; push_cast; ring
      rw [h1]
      have := mul_le_mul_of_nonneg_right h (le_of_lt (zpow_two_pos (-(53 : ℕ) : ℤ)))
      have h0 := zpow_two_pos (-(1075 : ℕ) : ℤ)
      linarith
  -- no overflow
  have hno : (M : ℚ) * (2 : ℚ) ^ E < (2 : ℚ) ^ ((1024 : ℕ) : ℤ) := by
    have hE970 : E ≤ 970 := by
      rcases hlo with h | h
      · omega
      · by_contra hc
        have hge : (971 : ℤ) ≤ E := by omega
        have h2 : (2 : ℚ) ^ (52 : ℤ) * 2 ^ (971 : ℤ) ≤ (2 : ℚ) ^ (52 : ℤ) * 2 ^ E :=
          mul_le_mul_of_nonneg_left (hmono _ _ hge) (le_of_lt (zpow_two_pos _))
        rw [hpow] at h2
        have h3 : (2 : ℚ) ^ ((52 : ℤ) + 971) = 2 ^ ((1023 : ℕ) : ℤ) := by congr 1
        rw [h3] at h2
        exact absurd (lt_of_lt_of_le hlt (le_trans h2 h)) (lt_irrefl _)
    calc (M : ℚ) * (2 : ℚ) ^ E ≤ (2 : ℚ) ^ ((53 : ℕ) : ℤ) * 2 ^ E :=
          mul_le_mul_of_nonneg_right hMq (le_of_lt (zpow_two_pos _))
      _ = 2 ^ (((53 : ℕ) : ℤ) + E) := hpow _ _
      _ ≤ 2 ^ (((53 : ℕ) : ℤ) + 970) := hmono _ _ (by omega)
      _ < 2 ^ ((1024 : ℕ) : ℤ) := zpow_lt_zpow_right₀ (by norm_num) (by norm_num)
  rcases roundToDouble_cases neg N D hN hD with ⟨hov, _⟩ | ⟨_, hres⟩
  · exact absurd hov (not_le.mpr hno)
  · obtain ⟨m, e, hme⟩ := mkFin_is_fin neg M E
    refine ⟨m, e, by rw [hres, hme], ?_⟩
    have hval := mkFin_toRat neg M E
    rw [hme] at hval
    simp only [JSNumber.toRat] at hval
    have hval2 : (m : ℚ) * (2 : ℚ) ^ e = (M : ℚ) * (2 : ℚ) ^ E := by
      cases neg
      · simpa using hval
      · simp only [if_true] at hval
        have := congrArg (fun t => -t) hval
        simp only at this
        linarith
    rw [hval2]
    exact le_trans herr hbound

/-! ## The sum of the rows (C1) -/

theorem dropWhile_eq_self_of_head {p : Nat → Bool} (c : Nat) (r : List Nat) (h : p c = false) :
    (c :: r).dropWhile p = c :: r := by
  simp [List.dropWhile_cons, h]

theorem isDigit_not_whiteSpace (c : Nat) (h : isDigit c = true) : isWhiteSpace c = false := by
  simp only [isDigit, Bool.and_eq_true, decide_eq_true_eq] at h
  simp only [isWhiteSpace, Bool.or_eq_false_iff, beq_eq_false_iff_ne, ne_eq, Bool.and_eq_false_iff,
    decide_eq_false_iff_not, not_le]
  omega

/-- `parseFloat` on a plain decimal amount of `c` hundredths is the binary64 value nearest
to `c / 100`. -/
theorem parseFloat_amount (t : JSString) (c : Nat) (h : amountCents t = some c) :
    ∃ N D, 0 < D ∧ parseFloat t = roundToDouble false N D ∧ (N : ℚ) / D = (c : ℚ) / 100 := by
  unfold amountCents at h
  by_cases hi : t.takeWhile isDigit = []
  · simp [hi] at h
  · rw [if_neg hi] at h
    obtain ⟨c0, i', hc0⟩ := List.exists_cons_of_ne_nil hi
    -- the first character of `t` is a digit
    have ht : ∃ r, t = c0 :: r ∧ isDigit c0 = true := by
      cases t with
      | nil => simp at hi
      | cons x r =>
        by_cases hx : isDigit x = true
        · rw [List.takeWhile_cons, if_pos hx] at hc0
          exact ⟨r, by rw [(List.cons.inj hc0).1], by rw [← (List.cons.inj hc0).1]; exact hx⟩
        · rw [List.takeWhile_cons, if_neg hx] at hi
          exact absurd rfl hi
    obtain ⟨r, htr, hd0⟩ := ht
    have hd0' := hd0
    simp only [isDigit, Bool.and_eq_true, decide_eq_true_eq] at hd0'
    have hws : t.dropWhile isWhiteSpace = c0 :: r := by
      rw [htr]; exact dropWhile_eq_self_of_head c0 r (isDigit_not_whiteSpace c0 hd0)
    have hpf : parseFloat t = unsignedDecimalValue false t := by
      unfold parseFloat
      rw [hws]
      simp only
      rw [if_neg (by omega), if_neg (by omega), htr]
    have hinf : (js "Infinity").isPrefixOf t = false := by
      rw [htr]
      have : js "Infinity" = 73 :: js "nfinity" := by decide
      rw [this]
      simp only [List.isPrefixOf, Bool.and_eq_false_iff, beq_eq_false_iff_ne]
      left; omega
    have hud : ∀ d x rest, scanUnsignedDecimal t = some (d, x, rest) →
        parseFloat t = roundDecimal false d x := by
      intro d x rest hs
      rw [hpf]
      unfold unsignedDecimalValue
      rw [hinf]
      simp [hs]
    unfold scanUnsignedDecimal at hud
    simp only [hi, ne_eq, not_false_eq_true, if_true] at hud
    have hse : scanExponent [] = none := rfl
    split at h
    · next hr =>
      rw [hr] at hud
      simp only [hse] at hud
      have := hud _ _ _ rfl
      refine ⟨digitsValue (t.takeWhile isDigit) * 10 ^ (0 : Int).toNat, 1, by omega, ?_, ?_⟩
      · rw [this]; simp [roundDecimal]
      · simp only [Option.some.injEq] at h
        rw [← h]; push_cast; simp
    · next a hr =>
      by_cases ha : isDigit a = true
      · rw [if_pos ha] at h
        rw [hr] at hud
        have htw : List.takeWhile isDigit [a] = [a] := by simp [List.takeWhile_cons, ha]
        have hdw : List.dropWhile isDigit [a] = [] := by simp [List.dropWhile_cons, ha]
        simp only [htw, hdw, hse] at hud
        have := hud _ _ _ rfl
        refine ⟨digitsValue (t.takeWhile isDigit ++ [a]), 10 ^ 1, by norm_num, ?_, ?_⟩
        · rw [this]; simp [roundDecimal]
        · simp only [Option.some.injEq] at h
          rw [← h, digitsValue_append, digitsValue_cons]
          simp only [digitsValue, List.foldl_nil, List.length_singleton, List.length_nil]
          push_cast; ring
      · rw [if_neg ha] at h; cases h
    · next a b hr =>
      by_cases hab : (isDigit a && isDigit b) = true
      · rw [if_pos hab] at h
        simp only [Bool.and_eq_true] at hab
        rw [hr] at hud
        have htw : List.takeWhile isDigit [a, b] = [a, b] := by
          simp [List.takeWhile_cons, hab.1, hab.2]
        have hdw : List.dropWhile isDigit [a, b] = [] := by
          simp [List.dropWhile_cons, hab.1, hab.2]
        simp only [htw, hdw, hse] at hud
        have := hud _ _ _ rfl
        refine ⟨digitsValue (t.takeWhile isDigit ++ [a, b]), 10 ^ 2, by norm_num, ?_, ?_⟩
        · rw [this]; simp [roundDecimal]
        · simp only [Option.some.injEq] at h
          rw [← h, digitsValue_append, digitsValue_cons, digitsValue_cons]
          simp only [digitsValue, List.foldl_nil, List.length_singleton, List.length_nil,
            List.length_cons]
          push_cast; ring
      · rw [if_neg hab] at h; cases h
    · cases h

theorem HasValue.nonneg {x : JSNumber} {v : ℚ} (h : HasValue x v) : 0 ≤ v := by
  obtain ⟨m, e, _, hv⟩ := h
  rw [← hv]
  exact mul_nonneg (Nat.cast_nonneg m) (le_of_lt (zpow_two_pos e))

/-- Rounding a fraction that is not negative and below `2^1023`. -/
theorem roundToDouble_nonneg (N D : Nat) (hD : 0 < D)
    (hlt : (N : ℚ) / D < (2 : ℚ) ^ ((1023 : ℕ) : ℤ)) :
    ∃ v, HasValue (roundToDouble false N D) v ∧
      |v - (N : ℚ) / D| ≤
        (N : ℚ) / D * (2 : ℚ) ^ (-(53 : ℕ) : ℤ) + (2 : ℚ) ^ (-(1075 : ℕ) : ℤ) := by
  rcases Nat.eq_zero_or_pos N with h0 | hN
  · subst h0
    refine ⟨0, ⟨0, 0, by simp [roundToDouble], by simp⟩, ?_⟩
    simp only [Nat.cast_zero, zero_div, sub_self, abs_zero, zero_mul, zero_add]
    exact le_of_lt (zpow_two_pos _)
  · obtain ⟨m, e, h1, h2⟩ := roundToDouble_error false N D hN hD hlt
    exact ⟨_, ⟨m, e, h1, rfl⟩, h2⟩

theorem roundDyadic_eq (n : Nat) (e : Int) :
    ∃ N D, 0 < D ∧ roundDyadic false n e = roundToDouble false N D ∧
      (N : ℚ) / D = (n : ℚ) * (2 : ℚ) ^ e := by
  unfold roundDyadic
  split
  · next h =>
    refine ⟨n * 2 ^ e.toNat, 1, by omega, rfl, ?_⟩
    have he : e = (e.toNat : Int) := (Int.toNat_of_nonneg h).symm
    conv_rhs => rw [he, zpow_natCast]
    push_cast; ring
  · next h =>
    refine ⟨n, 2 ^ (-e).toNat, Nat.two_pow_pos _, rfl, ?_⟩
    have he : e = -((-e).toNat : Int) := by
      rw [Int.toNat_of_nonneg (by omega)]; omega
    conv_rhs => rw [he, zpow_neg, zpow_natCast]
    push_cast
    rw [div_eq_mul_inv]

/-- The sum of two finite Numbers that are not negative. -/
theorem add_nonneg_error (a b : JSNumber) (va vb : ℚ) (ha : HasValue a va) (hb : HasValue b vb)
    (hlt : va + vb < (2 : ℚ) ^ ((1023 : ℕ) : ℤ)) :
    ∃ v, HasValue (a.add b) v ∧
      |v - (va + vb)| ≤
        (va + vb) * (2 : ℚ) ^ (-(53 : ℕ) : ℤ) + (2 : ℚ) ^ (-(1075 : ℕ) : ℤ) := by
  obtain ⟨m1, e1, rfl, hva⟩ := ha
  obtain ⟨m2, e2, rfl, hvb⟩ := hb
  have hz1 : e1 - min e1 e2 = ((e1 - min e1 e2).toNat : ℤ) := by
    rw [Int.toNat_of_nonneg]; have := min_le_left e1 e2; omega
  have hz2 : e2 - min e1 e2 = ((e2 - min e1 e2).toNat : ℤ) := by
    rw [Int.toNat_of_nonneg]; have := min_le_right e1 e2; omega
  set e := min e1 e2 with he
  set k1 := (e1 - e).toNat
  set k2 := (e2 - e).toNat
  -- the exact sum as a multiple of `2^e`
  have hsum : ((m1 * 2 ^ k1 + m2 * 2 ^ k2 : ℕ) : ℚ) * (2 : ℚ) ^ e = va + vb := by
    rw [← hva, ← hvb]
    have h1 : (2 : ℚ) ^ e1 = 2 ^ k1 * 2 ^ e := by
      rw [← zpow_natCast, ← zpow_add₀ (by norm_num), ← hz1]; congr 1; ring
    have h2 : (2 : ℚ) ^ e2 = 2 ^ k2 * 2 ^ e := by
      rw [← zpow_natCast, ← zpow_add₀ (by norm_num), ← hz2]; congr 1; ring
    rw [h1, h2]; push_cast; ring
  have hs : signedInt false m1 * 2 ^ k1 + signedInt false m2 * 2 ^ k2 =
      ((m1 * 2 ^ k1 + m2 * 2 ^ k2 : ℕ) : ℤ) := by
    simp [signedInt]
  unfold JSNumber.add
  simp only
  rw [hs]
  by_cases h0 : ((m1 * 2 ^ k1 + m2 * 2 ^ k2 : ℕ) : ℤ) = 0
  · rw [if_pos h0]
    have h0' : m1 * 2 ^ k1 + m2 * 2 ^ k2 = 0 := by exact_mod_cast h0
    refine ⟨0, ⟨0, 0, by simp, by simp⟩, ?_⟩
    rw [← hsum, h0']
    simp only [Nat.cast_zero, zero_mul, sub_self, abs_zero, zero_add]
    exact le_of_lt (zpow_two_pos _)
  · rw [if_neg h0]
    have hneg : decide (((m1 * 2 ^ k1 + m2 * 2 ^ k2 : ℕ) : ℤ) < 0) = false := by
      simp only [decide_eq_false_iff_not, not_lt]
      exact Int.natCast_nonneg _
    rw [hneg, Int.natAbs_ofNat]
    obtain ⟨N, D, hD, hr, hND⟩ := roundDyadic_eq (m1 * 2 ^ k1 + m2 * 2 ^ k2) e
    rw [hr]
    rw [hsum] at hND
    have := roundToDouble_nonneg N D hD (by rw [hND]; exact hlt)
    rw [hND] at this
    exact this

theorem stepError_pos (T : ℚ) (hT : 0 ≤ T) : 0 < stepError T := by
  unfold stepError
  have h1 := zpow_two_pos (-(53 : ℕ) : ℤ)
  have h2 := zpow_two_pos (-(1075 : ℕ) : ℤ)
  positivity

theorem sumOfCents_cons (item : Item) (rest : List Item) :
    sumOfCents (item :: rest) = centsOf item + sumOfCents rest := by
  simp [sumOfCents]

theorem below_overflow (T : ℚ)
    (h : (3 * T + 2) * (2 : ℚ) ^ (-(53 : ℕ) : ℤ) ≤ 1) (x : ℚ) (hx : x ≤ 3 * T + 2) :
    x < (2 : ℚ) ^ ((1023 : ℕ) : ℤ) := by
  have hu53 : (2 : ℚ) ^ (-(53 : ℕ) : ℤ) * (2 : ℚ) ^ ((53 : ℕ) : ℤ) = 1 := by
    rw [← zpow_add₀ (by norm_num)]; norm_num
  have hbig : (2 : ℚ) ^ ((53 : ℕ) : ℤ) < (2 : ℚ) ^ ((1023 : ℕ) : ℤ) :=
    zpow_lt_zpow_right₀ (by norm_num) (by norm_num)
  have hp53 := zpow_two_pos ((53 : ℕ) : ℤ)
  have h2 := mul_le_mul_of_nonneg_right h (le_of_lt hp53)
  rw [mul_assoc, hu53, mul_one, one_mul] at h2
  exact lt_of_le_of_lt (le_trans hx h2) hbig

theorem foldl_sum_error (T : ℚ) (hT : 0 ≤ T) (parts : List Item) :
    ∀ (acc : JSNumber) (k : Nat) (S0 : Nat) (s : ℚ),
      HasValue acc s → |s - (S0 : ℚ) / 100| ≤ k * stepError T →
      (∀ item ∈ parts, ∃ c, amountCents item.total = some c) →
      ((S0 + sumOfCents parts : ℕ) : ℚ) ≤ 100 * T →
      ((k + parts.length : ℕ) : ℚ) * stepError T ≤ 1 →
      ∃ v, HasValue (parts.foldl (fun sum item => sum.add (parseFloat item.total)) acc) v ∧
        |v - ((S0 + sumOfCents parts : ℕ) : ℚ) / 100| ≤
          ((k + parts.length : ℕ) : ℚ) * stepError T := by
  induction parts with
  | nil =>
    intro acc k S0 s hacc herr _ _ _
    refine ⟨s, hacc, ?_⟩
    simpa [sumOfCents] using herr
  | cons item rest ih =>
    intro acc k S0 s hacc herr hall hsum hk
    have hδ := stepError_pos T hT
    set δ := stepError T with hδdef
    set u : ℚ := (2 : ℚ) ^ (-(53 : ℕ) : ℤ) with hu
    set η : ℚ := (2 : ℚ) ^ (-(1075 : ℕ) : ℤ) with hη
    have hupos : 0 < u := zpow_two_pos _
    have hηpos : 0 < η := zpow_two_pos _
    have hδeq : δ = (3 * T + 2) * u + 2 * η := rfl
    have hround : ∀ (N D : ℕ), 0 < D → (N : ℚ) / D < (2 : ℚ) ^ ((1023 : ℕ) : ℤ) →
        ∃ v, HasValue (roundToDouble false N D) v ∧ |v - (N : ℚ) / D| ≤ (N : ℚ) / D * u + η :=
      fun N D hD h => roundToDouble_nonneg N D hD h
    have hadd : ∀ (a b : JSNumber) (va vb : ℚ), HasValue a va → HasValue b vb →
        va + vb < (2 : ℚ) ^ ((1023 : ℕ) : ℤ) →
        ∃ v, HasValue (a.add b) v ∧ |v - (va + vb)| ≤ (va + vb) * u + η :=
      fun a b va vb ha hb h => add_nonneg_error a b va vb ha hb h
    have hlim0 : (3 * T + 2) * u ≤ 1 → ∀ x : ℚ, x ≤ 3 * T + 2 →
        x < (2 : ℚ) ^ ((1023 : ℕ) : ℤ) := below_overflow T
    clear_value u η δ
    obtain ⟨c, hc⟩ := hall item (List.mem_cons_self _ _)
    have hcents : centsOf item = c := by simp [centsOf, hc]
    rw [sumOfCents_cons, hcents] at hsum
    -- sizes
    have hlen : ((k + (item :: rest).length : ℕ) : ℚ) = (k : ℚ) + 1 + rest.length := by
      simp only [List.length_cons]; push_cast; ring
    rw [hlen] at hk
    have hrl : (0 : ℚ) ≤ (rest.length : ℚ) := Nat.cast_nonneg _
    have hk0 : (0 : ℚ) ≤ (k : ℚ) := Nat.cast_nonneg _
    have hδ1 : δ ≤ 1 := by nlinarith
    have hkδ : (k : ℚ) * δ ≤ 1 := by nlinarith
    have hcT : (c : ℚ) / 100 ≤ T := by
      have : ((S0 + (c + sumOfCents rest) : ℕ) : ℚ) = (S0 : ℚ) + c + sumOfCents rest := by
        push_cast; ring
      rw [this] at hsum
      have h1 : (0 : ℚ) ≤ (S0 : ℚ) := Nat.cast_nonneg _
      have h2 : (0 : ℚ) ≤ (sumOfCents rest : ℚ) := Nat.cast_nonneg _
      linarith
    have hS0T : (S0 : ℚ) / 100 ≤ T := by
      have : ((S0 + (c + sumOfCents rest) : ℕ) : ℚ) = (S0 : ℚ) + c + sumOfCents rest := by
        push_cast; ring
      rw [this] at hsum
      have h1 : (0 : ℚ) ≤ (c : ℚ) := Nat.cast_nonneg _
      have h2 : (0 : ℚ) ≤ (sumOfCents rest : ℚ) := Nat.cast_nonneg _
      linarith
    have hc0 : (0 : ℚ) ≤ (c : ℚ) / 100 := by positivity
    -- `3 T + 2` is far below the overflow threshold
    have hlim : ∀ x : ℚ, x ≤ 3 * T + 2 → x < (2 : ℚ) ^ ((1023 : ℕ) : ℤ) := by
      apply hlim0
      have : 0 ≤ 2 * η := by positivity
      linarith
    -- the new term
    obtain ⟨N, D, hD, hpf, hND⟩ := parseFloat_amount item.total c hc
    obtain ⟨vx, hvx, hex⟩ := hround N D hD (by rw [hND]; exact hlim _ (by linarith))
    rw [hND] at hex
    rw [← hpf] at hvx
    have hTu : T * u + η ≤ 1 := by
      have : 0 ≤ T * u := mul_nonneg hT (le_of_lt hupos)
      nlinarith
    have hex' : |vx - (c : ℚ) / 100| ≤ T * u + η := by
      have := mul_le_mul_of_nonneg_right hcT (le_of_lt hupos)
      linarith
    have hvx0 := hvx.nonneg
    have hs0 := hacc.nonneg
    have hvxle : vx ≤ T + 1 := by
      have := (abs_le.mp hex').2
      linarith
    have hsle : s ≤ T + 1 := by
      have := (abs_le.mp herr).2
      linarith
    -- the sum
    obtain ⟨v', hv', hev⟩ := hadd acc (parseFloat item.total) s vx hacc hvx
      (hlim _ (by linarith))
    have hev' : |v' - (s + vx)| ≤ (2 * T + 2) * u + η := by
      have : (s + vx) * u ≤ (2 * T + 2) * u :=
        mul_le_mul_of_nonneg_right (by linarith) (le_of_lt hupos)
      linarith
    have hnew : |v' - ((S0 + c : ℕ) : ℚ) / 100| ≤ ((k + 1 : ℕ) : ℚ) * δ := by
      have hsplit : v' - ((S0 + c : ℕ) : ℚ) / 100 =
          (v' - (s + vx)) + (s - (S0 : ℚ) / 100) + (vx - (c : ℚ) / 100) := by
        push_cast; ring
      rw [hsplit]
      have h1 := abs_add (v' - (s + vx) + (s - (S0 : ℚ) / 100)) (vx - (c : ℚ) / 100)
      have h2 := abs_add (v' - (s + vx)) (s - (S0 : ℚ) / 100)
      have : ((k + 1 : ℕ) : ℚ) * δ = k * δ + ((3 * T + 2) * u + 2 * η) := by
        rw [hδeq]; push_cast; ring
      rw [this]
      linarith
    have := ih ((acc.add (parseFloat item.total))) (k + 1) (S0 + c) v' hv' hnew
      (fun it hit => hall it (List.mem_cons_of_mem _ hit))
      (by rw [show S0 + c + sumOfCents rest = S0 + (c + sumOfCents rest) by ring]; exact hsum)
      (by rw [show ((k + 1 + rest.length : ℕ) : ℚ) = (k : ℚ) + 1 + rest.length by push_cast; ring]
          exact hk)
    obtain ⟨v, hv, hfin⟩ := this
    refine ⟨v, by simpa [List.foldl_cons] using hv, ?_⟩
    rw [sumOfCents_cons, hcents]
    have e1 : S0 + (c + sumOfCents rest) = S0 + c + sumOfCents rest := by ring
    have e2 : k + (item :: rest).length = k + 1 + rest.length := by
      simp only [List.length_cons]; ring
    rw [e1, e2]
    exact hfin

theorem decimalDigitsAux_fuel (n : Nat) : ∀ (f1 f2 : Nat) (acc : JSString), n < f1 → n < f2 →
    decimalDigitsAux f1 n acc = decimalDigitsAux f2 n [] ++ acc := by
  induction n using Nat.strong_induction_on with
  | _ n ih =>
    intro f1 f2 acc h1 h2
    obtain ⟨g1, rfl⟩ : ∃ g, f1 = g + 1 := ⟨f1 - 1, by omega⟩
    obtain ⟨g2, rfl⟩ : ∃ g, f2 = g + 1 := ⟨f2 - 1, by omega⟩
    unfold decimalDigitsAux
    by_cases hn : n < 10
    · simp [hn]
    · rw [if_neg hn, if_neg hn]
      rw [ih (n / 10) (by omega) g1 g2 _ (by omega) (by omega),
        ih (n / 10) (by omega) g2 g2 [48 + n % 10] (by omega) (by omega)]
      simp

theorem decimalDigits_lt_ten (n : Nat) (h : n < 10) : decimalDigits n = [48 + n] := by
  unfold decimalDigits decimalDigitsAux
  simp [h]

theorem decimalDigits_step (n : Nat) (h : 10 ≤ n) :
    decimalDigits n = decimalDigits (n / 10) ++ [48 + n % 10] := by
  unfold decimalDigits
  conv_lhs => unfold decimalDigitsAux
  rw [if_neg (by omega)]
  exact decimalDigitsAux_fuel (n / 10) n (n / 10 + 1) _ (by omega) (by omega)

/-- The digits of `n` hundredths, padded and split as `toFixed(2)` does, are the numeral
of `formatCents`. -/
theorem toFixed_digits_eq_formatCents (c : Nat) :
    (let padded := if (decimalDigits c).length ≤ 2
        then zeros (2 + 1 - (decimalDigits c).length) ++ decimalDigits c else decimalDigits c
     padded.take (padded.length - 2) ++ [46] ++ padded.drop (padded.length - 2)) =
      formatCents c := by
  simp only
  unfold formatCents
  by_cases h1 : c < 10
  · rw [decimalDigits_lt_ten c h1, decimalDigits_lt_ten (c / 100) (by omega)]
    have e1 : c / 100 = 0 := by omega
    have e2 : c % 100 / 10 = 0 := by omega
    have e3 : c % 10 = c := by omega
    simp [zeros, e1, e2, e3]
  · by_cases h2 : c < 100
    · rw [decimalDigits_step c (by omega), decimalDigits_lt_ten (c / 10) (by omega),
        decimalDigits_lt_ten (c / 100) (by omega)]
      have e1 : c / 100 = 0 := by omega
      have e2 : c % 100 / 10 = c / 10 := by omega
      simp [zeros, e1, e2]
    · rw [decimalDigits_step c (by omega), decimalDigits_step (c / 10) (by omega)]
      have e1 : c / 10 / 10 = c / 100 := by omega
      have e2 : c / 10 % 10 = c % 100 / 10 := by omega
      rw [e1, e2]
      have hlen : ¬ ((decimalDigits (c / 100) ++ [48 + c % 100 / 10] ++ [48 + c % 10]).length ≤ 2) := by
        have := decimalDigits_ne_nil (c / 100)
        have : 0 < (decimalDigits (c / 100)).length := List.length_pos.mpr this
        simp only [List.length_append, List.length_singleton]
        omega
      rw [if_neg hlen]
      have hl : (decimalDigits (c / 100) ++ [48 + c % 100 / 10] ++ [48 + c % 10]).length - 2 =
          (decimalDigits (c / 100)).length := by
        simp only [List.length_append, List.length_singleton]; omega
      rw [hl]
      have e3 : decimalDigits (c / 100) ++ [48 + c % 100 / 10] ++ [48 + c % 10] =
          decimalDigits (c / 100) ++ [48 + c % 100 / 10, 48 + c % 10] := by simp
      rw [e3, List.take_left, List.drop_left]
      simp

/-- `toFixed(2)` of a finite Number that is not negative and lies within less than half a
hundredth of `c / 100` is the numeral of `c / 100` with two fraction digits. -/
theorem toFixed_of_near (x : JSNumber) (v : ℚ) (c : Nat) (hx : HasValue x v)
    (hnear : |v - (c : ℚ) / 100| < 1 / 200) (hc : c < 10 ^ 22) :
    x.toFixed 2 = formatCents c := by
  obtain ⟨m, e, rfl, hv⟩ := hx
  -- the value as a fraction of naturals
  obtain ⟨A, B, hA, hB, hBpos, hAB⟩ : ∃ A B : Nat,
      A = (if 0 ≤ e then m * 2 ^ e.toNat else m) ∧ B = (if 0 ≤ e then 1 else 2 ^ (-e).toNat) ∧
      0 < B ∧ (A : ℚ) / B = v := by
    refine ⟨_, _, rfl, rfl, ?_, ?_⟩
    · split
      · omega
      · exact Nat.two_pow_pos _
    · rw [← hv]
      split
      · next h =>
        have he : e = (e.toNat : Int) := (Int.toNat_of_nonneg h).symm
        conv_rhs => rw [he, zpow_natCast]
        push_cast; ring
      · next h =>
        have he : e = -((-e).toNat : Int) := by
          rw [Int.toNat_of_nonneg (by omega)]; omega
        conv_rhs => rw [he, zpow_neg, zpow_natCast]
        push_cast
        rw [div_eq_mul_inv]
  have hBq : (0 : ℚ) < B := by exact_mod_cast hBpos
  have hAv : (A : ℚ) = v * B := by rw [← hAB]; field_simp
  obtain ⟨hlo, hhi⟩ := abs_lt.mp hnear
  have hcq : (c : ℚ) < 10 ^ 22 := by exact_mod_cast hc
  -- below 10^21
  have hsmall : ¬ (10 ^ 21 * B ≤ A) := by
    intro h
    have hq : (10 : ℚ) ^ 21 * B ≤ A := by exact_mod_cast h
    rw [hAv] at hq
    have : (10 : ℚ) ^ 21 ≤ v := le_of_mul_le_mul_right hq hBq
    linarith
  -- the rounded number of hundredths
  have hn : (2 * A * 10 ^ 2 + B) / (2 * B) = c := by
    apply Nat.div_eq_of_lt_le
    · have hq : (c : ℚ) * (2 * B) ≤ 2 * A * 10 ^ 2 + B := by
        rw [hAv]; nlinarith
      exact_mod_cast hq
    · have hq : (2 * (A : ℚ) * 10 ^ 2 + B) < (c + 1) * (2 * B) := by
        rw [hAv]; nlinarith
      exact_mod_cast hq
  unfold JSNumber.toFixed
  simp only [← hA, ← hB]
  rw [if_neg hsmall, hn]
  simp only [Bool.false_eq_true, false_and, if_false, List.nil_append,
    show (2 : Nat) ≠ 0 by omega]
  exact toFixed_digits_eq_formatCents c

theorem total_error_small (n C : Nat) (h : n * (C + 100) ≤ 10 ^ 15) :
    ((0 + n : ℕ) : ℚ) * stepError ((C : ℚ) / 100) < 1 / 200 := by
  unfold stepError
  have hu : (2 : ℚ) ^ (-(53 : ℕ) : ℤ) = 1 / 9007199254740992 := by
    rw [zpow_neg, zpow_natCast]; norm_num
  have hη : (2 : ℚ) ^ (-(1075 : ℕ) : ℤ) ≤ 1 / 2 ^ 128 := by
    have h1 : (2 : ℚ) ^ (-(1075 : ℕ) : ℤ) ≤ (2 : ℚ) ^ (-(128 : ℕ) : ℤ) :=
      zpow_le_zpow_right₀ (by norm_num) (by norm_num)
    have h2 : (2 : ℚ) ^ (-(128 : ℕ) : ℤ) = 1 / 2 ^ 128 := by
      rw [zpow_neg, zpow_natCast]; norm_num
    rw [h2] at h1
    exact h1
  have hηpos := zpow_two_pos (-(1075 : ℕ) : ℤ)
  rw [hu]
  generalize (2 : ℚ) ^ (-(1075 : ℕ) : ℤ) = η at hη hηpos
  have hq : (n : ℚ) * ((C : ℚ) + 100) ≤ 10 ^ 15 := by exact_mod_cast h
  have hn0 : (0 : ℚ) ≤ (n : ℚ) := Nat.cast_nonneg _
  have hC0 : (0 : ℚ) ≤ (C : ℚ) := Nat.cast_nonneg _
  have hn15 : (n : ℚ) ≤ 10 ^ 13 := by nlinarith
  have hnη : (n : ℚ) * η ≤ 10 ^ 13 * (1 / 2 ^ 128) := by
    calc (n : ℚ) * η ≤ 10 ^ 13 * η := mul_le_mul_of_nonneg_right hn15 (le_of_lt hηpos)
      _ ≤ 10 ^ 13 * (1 / 2 ^ 128) := mul_le_mul_of_nonneg_left hη (by norm_num)
  have hexp : ((0 + n : ℕ) : ℚ) * ((3 * ((C : ℚ) / 100) + 2) * (1 / 9007199254740992) + 2 * η) =
      (3 * ((n : ℚ) * ((C : ℚ) + 100)) - 100 * n) / 100 * (1 / 9007199254740992) +
        2 * ((n : ℚ) * η) := by
    push_cast; ring
  rw [hexp]
  have h3 : (3 * ((n : ℚ) * ((C : ℚ) + 100)) - 100 * n) / 100 * (1 / 9007199254740992) ≤
      3 * 10 ^ 15 / 100 * (1 / 9007199254740992) := by
    apply mul_le_mul_of_nonneg_right _ (by norm_num)
    apply div_le_div_of_nonneg_right _ (by norm_num)
    linarith
  have h4 : (3 : ℚ) * 10 ^ 15 / 100 * (1 / 9007199254740992) + 2 * (10 ^ 13 * (1 / 2 ^ 128)) <
      1 / 200 := by norm_num
  linarith

/-- C1, amended: when every row's total cell is a plain decimal amount that is not
negative and has at most two fraction digits, and the number of rows times the sum
in hundredths plus 100 is at most `10^15`, the value of the synthesized total row is the
numeral, with exactly two fraction digits, of the exact arithmetic sum of the rows' total
cells, and `parts` holds the rows; for the empty sequence `parts` is empty and the total
value is `0.00`. -/
theorem total_row_is_exact_sum (parts : List Item)
    (hamounts : ∀ item ∈ parts, ∃ c, amountCents item.total = some c)
    (hbound : parts.length * (sumOfCents parts + 100) ≤ 10 ^ 15) :
    (detailsOf parts).prop (js "parts") = .arr (parts.map Item.toJS) ∧
    (detailsOf parts).prop (js "total") =
      .arr [.obj [(js "label", .str (js "Total")),
        (js "value", .str (formatCents (sumOfCents parts))), (js "price", .bool true)]] ∧
    (detailsOf []).prop (js "parts") = .arr [] ∧
    (detailsOf []).prop (js "total") =
      .arr [.obj [(js "label", .str (js "Total")),
        (js "value", .str (js "0.00")), (js "price", .bool true)]] := by
  have hsmall := total_error_small parts.length (sumOfCents parts) hbound
  have hT : (0 : ℚ) ≤ (sumOfCents parts : ℚ) / 100 := by positivity
  obtain ⟨v, hv, herr⟩ := foldl_sum_error ((sumOfCents parts : ℚ) / 100) hT parts
    (.fin false 0 0) 0 0 0 ⟨0, 0, rfl, by simp⟩ (by simp) hamounts
    (by push_cast; linarith) (le_of_lt (lt_of_lt_of_le hsmall (by norm_num)))
  have hC : sumOfCents parts < 10 ^ 22 := by
    rcases Nat.eq_zero_or_pos parts.length with h0 | hpos
    · have : parts = [] := List.length_eq_zero.mp h0
      subst this
      simp [sumOfCents]
    · have : sumOfCents parts + 100 ≤ parts.length * (sumOfCents parts + 100) :=
        Nat.le_mul_of_pos_left _ hpos
      have h15 : (10 : Nat) ^ 15 < 10 ^ 22 := by norm_num
      omega
  have hnear : |v - (sumOfCents parts : ℚ) / 100| < 1 / 200 := by
    have e0 : ((0 + sumOfCents parts : ℕ) : ℚ) = (sumOfCents parts : ℚ) := by simp
    rw [e0] at herr
    exact lt_of_le_of_lt herr hsmall
  have htotal : (sumOfTotals parts).toFixed 2 = formatCents (sumOfCents parts) :=
    toFixed_of_near _ v _ hv hnear hC
  have h1 : (js "header" = js "parts") = False := by decide
  have h2 : (js "header" = js "total") = False := by decide
  have h3 : (js "parts" = js "total") = False := by decide
  refine ⟨?_, ?_, ?_, ?_⟩
  · simp [detailsOf, JSValue.prop, lookupProperty, h1]
  · simp [detailsOf, JSValue.prop, lookupProperty, h2, h3, htotal]
  · simp [detailsOf, JSValue.prop, lookupProperty, h1]
  · decide

/-- C1, witness: the rows `19.99` and `0.01` give the total `20.00`. -/
theorem total_row_is_exact_sum_witness :
    (detailsOf [widget, { description := js "Gadget", quantity := .nan, total := js "0.01" }]).prop
        (js "total") =
      .arr [.obj [(js "label", .str (js "Total")), (js "value", .str (js "20.00")),
        (js "price", .bool true)]] := by
  have h := (total_row_is_exact_sum
    [widget, { description := js "Gadget", quantity := .nan, total := js "0.01" }]
    (by
      intro item hitem
      simp only [List.mem_cons, List.mem_singleton, List.not_mem_nil, or_false] at hitem
      rcases hitem with rfl | rfl
      · exact ⟨1999, by decide!⟩
      · exact ⟨1, by decide!⟩)
    (by decide!)).2.1
  rw [show formatCents (sumOfCents
    [widget, { description := js "Gadget", quantity := .nan, total := js "0.01" }]) =
      js "20.00" by decide!] at h
  exact h

/-- C1, counterexample: a single row of `1000000000000000000000` (that is `10^21`) gives
the total `1e+21`, which has no fraction digits, and a single row of `9007199254740993`
(that is `2^53 + 1`) gives the total `9007199254740992.00`; the numerals with two fraction
digits of the arithmetic sums are `1000000000000000000000.00` and
`9007199254740993.00`. -/
theorem total_row_not_exact_for_large_amounts :
    amountCents (js "1000000000000000000000") = some (10 ^ 23) ∧
    formatCents (10 ^ 23) = js "1000000000000000000000.00" ∧
    (sumOfTotals [Item.mk (js "Server") (.fin false 1 0)
        (js "1000000000000000000000")]).toFixed 2 = js "1e+21" ∧
    amountCents (js "9007199254740993") = some 900719925474099300 ∧
    formatCents 900719925474099300 = js "9007199254740993.00" ∧
    (sumOfTotals [Item.mk (js "Server") (.fin false 1 0)
        (js "9007199254740993")]).toFixed 2 = js "9007199254740992.00" := by
  decide!

/-! ## JSON strings -/

theorem hexDigitValue_hexDigit (d : Nat) (h : d < 16) : hexDigitValue (hexDigit d) = some d := by
  interval_cases d <;> rfl

theorem parseJSONStringAux_unicodeEscape (c : Nat) (hc : c < 65536) (s : JSString) :
    parseJSONStringAux .normal (unicodeEscape c ++ s) =
      prepend c (parseJSONStringAux .normal s) := by
  unfold unicodeEscape
  simp only [List.cons_append, List.nil_append]
  rw [parseJSONStringAux]
  simp only [show (92 : Nat) ≠ 34 by omega, if_false, if_true]
  rw [parseJSONStringAux]
  simp only [if_true]
  rw [parseJSONStringAux, hexDigitValue_hexDigit _ (Nat.mod_lt _ (by omega))]
  simp only [show ¬ (4 ≤ 1) by omega, if_false]
  rw [parseJSONStringAux, hexDigitValue_hexDigit _ (Nat.mod_lt _ (by omega))]
  simp only [show ¬ (4 - 1 ≤ 1) by omega, if_false]
  rw [parseJSONStringAux, hexDigitValue_hexDigit _ (Nat.mod_lt _ (by omega))]
  simp only [show ¬ (4 - 1 - 1 ≤ 1) by omega, if_false]
  rw [parseJSONStringAux, hexDigitValue_hexDigit _ (Nat.mod_lt _ (by omega))]
  simp only [show (4 - 1 - 1 - 1 ≤ 1) by omega, if_true]
  congr 1
  omega

theorem parseJSONStringAux_plain (c : Nat) (s : JSString) (h1 : c ≠ 34) (h2 : c ≠ 92)
    (h3 : ¬ c < 32) :
    parseJSONStringAux .normal (c :: s) = prepend c (parseJSONStringAux .normal s) := by
  rw [parseJSONStringAux]
  simp only [h1, h2, h3, if_false]

theorem parseJSONStringAux_simpleEscape (x u : Nat) (s : JSString) (hx : x ≠ 117)
    (h : simpleEscape x = some u) :
    parseJSONStringAux .normal (92 :: x :: s) = prepend u (parseJSONStringAux .normal s) := by
  rw [parseJSONStringAux]
  simp only [show (92 : Nat) ≠ 34 by omega, if_false, if_true]
  rw [parseJSONStringAux]
  simp only [hx, if_false, h]

/-- Parsing the body of a quoted string gives the string back. -/
theorem parseJSONStringAux_quoteJSONBody (s : JSString) : ∀ (b : Bool) (rest : JSString),
    parseJSONStringAux .normal (quoteJSONBody b s ++ 34 :: rest) = some (s, rest) := by
  induction s with
  | nil =>
    intro b rest
    simp [quoteJSONBody, parseJSONStringAux]
  | cons c s ih =>
    intro b rest
    unfold quoteJSONBody
    by_cases h8 : c = 8
    · simp only [h8, if_true, List.cons_append, List.nil_append]
      rw [parseJSONStringAux_simpleEscape 98 8 _ (by omega) (by decide), ih]; rfl
    by_cases h9 : c = 9
    · simp only [h9, show (9 : Nat) ≠ 8 by omega, if_true, if_false, List.cons_append,
        List.nil_append]
      rw [parseJSONStringAux_simpleEscape 116 9 _ (by omega) (by decide), ih]; rfl
    by_cases h10 : c = 10
    · simp only [h10, show (10 : Nat) ≠ 8 by omega, show (10 : Nat) ≠ 9 by omega, if_true,
        if_false, List.cons_append, List.nil_append]
      rw [parseJSONStringAux_simpleEscape 110 10 _ (by omega) (by decide), ih]; rfl
    by_cases h12 : c = 12
    · simp only [h12, show (12 : Nat) ≠ 8 by omega, show (12 : Nat) ≠ 9 by omega,
        show (12 : Nat) ≠ 10 by omega, if_true, if_false, List.cons_append, List.nil_append]
      rw [parseJSONStringAux_simpleEscape 102 12 _ (by omega) (by decide), ih]; rfl
    by_cases h13 : c = 13
    · simp only [h13, show (13 : Nat) ≠ 8 by omega, show (13 : Nat) ≠ 9 by omega,
        show (13 : Nat) ≠ 10 by omega, show (13 : Nat) ≠ 12 by omega, if_true, if_false,
        List.cons_append, List.nil_append]
      rw [parseJSONStringAux_simpleEscape 114 13 _ (by omega) (by decide), ih]; rfl
    by_cases h34 : c = 34
    · simp only [h34, show (34 : Nat) ≠ 8 by omega, show (34 : Nat) ≠ 9 by omega,
        show (34 : Nat) ≠ 10 by omega, show (34 : Nat) ≠ 12 by omega,
        show (34 : Nat) ≠ 13 by omega, if_true, if_false, List.cons_append, List.nil_append]
      rw [parseJSONStringAux_simpleEscape 34 34 _ (by omega) (by decide), ih]; rfl
    by_cases h92 : c = 92
    · simp only [h92, show (92 : Nat) ≠ 8 by omega, show (92 : Nat) ≠ 9 by omega,
        show (92 : Nat) ≠ 10 by omega, show (92 : Nat) ≠ 12 by omega,
        show (92 : Nat) ≠ 13 by omega, show (92 : Nat) ≠ 34 by omega, if_true, if_false,
        List.cons_append, List.nil_append]
      rw [parseJSONStringAux_simpleEscape 92 92 _ (by omega) (by decide), ih]; rfl
    simp only [h8, h9, h10, h12, h13, h34, h92, if_false]
    by_cases h32 : c < 32
    · simp only [h32, if_true, List.append_assoc]
      rw [parseJSONStringAux_unicodeEscape c (by omega), ih]; rfl
    simp only [h32, if_false]
    by_cases hh : isHighSurrogate c = true
    · simp only [hh, if_true]
      have hc : c < 65536 := by
        simp only [isHighSurrogate, Bool.and_eq_true, decide_eq_true_eq] at hh; omega
      cases s with
      | nil =>
        simp only []
        rw [parseJSONStringAux_unicodeEscape c hc]
        simp [parseJSONStringAux, prepend]
      | cons d s' =>
        simp only []
        split
        · rw [List.cons_append, parseJSONStringAux_plain c _ h34 h92 h32, ih]; rfl
        · rw [List.append_assoc, parseJSONStringAux_unicodeEscape c hc, ih]; rfl
    simp only [hh, Bool.false_eq_true, if_false]
    by_cases hl : isLowSurrogate c = true
    · simp only [hl, if_true]
      have hc : c < 65536 := by
        simp only [isLowSurrogate, Bool.and_eq_true, decide_eq_true_eq] at hl; omega
      split
      · rw [List.cons_append, parseJSONStringAux_plain c _ h34 h92 h32, ih]; rfl
      · rw [List.append_assoc, parseJSONStringAux_unicodeEscape c hc, ih]; rfl
    · simp only [hl, Bool.false_eq_true, if_false]
      rw [List.cons_append, parseJSONStringAux_plain c _ h34 h92 h32, ih]; rfl

theorem parseJSONString_quoteJSONString (s rest : JSString) :
    ∃ body, quoteJSONString s ++ rest = 34 :: body ∧ parseJSONString body = some (s, rest) := by
  refine ⟨quoteJSONBody false s ++ 34 :: rest, ?_, parseJSONStringAux_quoteJSONBody s false rest⟩
  simp [quoteJSONString]

/-! ## Integer-valued Numbers -/

theorem zpow_two_lt_iff (a b : ℤ) : (2 : ℚ) ^ a < 2 ^ b ↔ a < b :=
  zpow_lt_zpow_iff_right₀ (by norm_num)

/-- The exponent of the unit in the last place is determined by the binade. -/
theorem ulpExponent_unique (N D : Nat) (hN : 0 < N) (hD : 0 < D) (E : ℤ) (hE : -1074 < E)
    (hlo : (2 : ℚ) ^ (52 : ℤ) * 2 ^ E ≤ (N : ℚ) / D)
    (hhi : (N : ℚ) / D < (2 : ℚ) ^ (53 : ℤ) * 2 ^ E) : ulpExponent N D = E := by
  obtain ⟨h1, h2, h3⟩ := ulpExponent_spec N D hN hD
  have hpow : ∀ x y : ℤ, (2 : ℚ) ^ x * 2 ^ y = 2 ^ (x + y) := fun x y =>
    (zpow_add₀ (by norm_num) x y).symm
  rw [hpow] at hlo hhi h1
  have ha : (52 : ℤ) + E < 53 + ulpExponent N D :=
    (zpow_two_lt_iff _ _).mp (lt_of_le_of_lt hlo h1)
  rcases h3 with h3 | h3
  · omega
  · rw [hpow] at h3
    have hb : (52 : ℤ) + ulpExponent N D < 53 + E :=
      (zpow_two_lt_iff _ _).mp (lt_of_le_of_lt h3 hhi)
    omega

theorem stripTwos_odd_mul (fuel : Nat) : ∀ (j m : Nat) (e : Int), m % 2 = 1 → j ≤ fuel →
    stripTwos fuel (m * 2 ^ j) e = (m, e + j) := by
  induction fuel with
  | zero =>
    intro j m e _ hj
    have : j = 0 := by omega
    subst this
    simp [stripTwos]
  | succ fuel ih =>
    intro j m e hm hj
    unfold stripTwos
    cases j with
    | zero =>
      have : ¬ (m * 2 ^ 0 % 2 = 0 ∧ m * 2 ^ 0 ≠ 0) := by simp; omega
      rw [if_neg this]
      simp
    | succ j =>
      have h1 : m * 2 ^ (j + 1) % 2 = 0 := by rw [pow_succ, ← mul_assoc]; omega
      have h2 : m * 2 ^ (j + 1) ≠ 0 := by
        have : 0 < m := by omega
        positivity
      rw [if_pos ⟨h1, h2⟩]
      have h3 : m * 2 ^ (j + 1) / 2 = m * 2 ^ j := by
        rw [pow_succ, ← mul_assoc]; omega
      rw [h3, ih j m (e + 1) hm (by omega)]
      congr 1
      push_cast; ring

theorem mkFin_odd_mul (neg : Bool) (m j : Nat) (e : Int) (hm : m % 2 = 1) :
    mkFin neg (m * 2 ^ j) e = .fin neg m (e + j) := by
  unfold mkFin
  have h0 : m * 2 ^ j ≠ 0 := by
    have : 0 < m := by omega
    positivity
  rw [if_neg h0]
  have hj : j ≤ m * 2 ^ j := by
    have h1 : j < 2 ^ j := Nat.lt_two_pow j
    have h2 : 2 ^ j ≤ m * 2 ^ j := Nat.le_mul_of_pos_left _ (by omega)
    omega
  rw [stripTwos_odd_mul (m * 2 ^ j) j m e hm hj]

/-- Rounding the value of an integer-valued Number gives the Number back. -/
theorem roundToDouble_of_integerDouble (neg : Bool) (m : Nat) (e : Int)
    (h : IsIntegerDouble m e) : roundToDouble neg (m * 2 ^ e.toNat) 1 = .fin neg m e := by
  obtain ⟨hodd, he, hm, hV⟩ := h
  have hmpos : 0 < m := by omega
  obtain ⟨hL1, hL2⟩ := floorLog2_spec m hmpos
  set L := floorLog2 m with hLdef
  have hL52 : L ≤ 52 := by
    by_contra hc
    have : 2 ^ 53 ≤ 2 ^ L := Nat.pow_le_pow_right (by omega) (by omega)
    omega
  have hVpos : 0 < m * 2 ^ e.toNat := by positivity
  have hen : e = (e.toNat : ℤ) := (Int.toNat_of_nonneg he).symm
  have hpow : ∀ x y : ℤ, (2 : ℚ) ^ x * 2 ^ y = 2 ^ (x + y) := fun x y =>
    (zpow_add₀ (by norm_num) x y).symm
  have hVq : ((m * 2 ^ e.toNat : ℕ) : ℚ) / ((1 : ℕ) : ℚ) = (m : ℚ) * 2 ^ e := by
    conv_rhs => rw [hen, zpow_natCast]
    push_cast; simp
  have hL1q : (2 : ℚ) ^ (L : ℤ) ≤ m := by rw [zpow_natCast]; exact_mod_cast hL1
  have hL2q : (m : ℚ) < 2 ^ ((L : ℤ) + 1) := by
    have : (m : ℚ) < 2 ^ (L + 1) := by exact_mod_cast hL2
    rw [show ((L : ℤ) + 1) = ((L + 1 : ℕ) : ℤ) by push_cast; ring, zpow_natCast]; exact this
  -- the exponent of the unit in the last place
  have hE : ulpExponent (m * 2 ^ e.toNat) 1 = e + L - 52 := by
    apply ulpExponent_unique _ _ hVpos (by omega) _ (by omega)
    · rw [hVq, hpow, show (52 : ℤ) + (e + L - 52) = (L : ℤ) + e by ring, ← hpow]
      exact mul_le_mul_of_nonneg_right hL1q (le_of_lt (zpow_two_pos _))
    · rw [hVq, hpow, show (53 : ℤ) + (e + L - 52) = ((L : ℤ) + 1) + e by ring, ← hpow]
      exact mul_lt_mul_of_pos_right hL2q (zpow_two_pos _)
  -- the significand before normalisation
  have hM : roundHalfEven (scaleFrac (m * 2 ^ e.toNat) 1 (e + L - 52)).1
      (scaleFrac (m * 2 ^ e.toNat) 1 (e + L - 52)).2 = m * 2 ^ (52 - L) := by
    unfold scaleFrac
    split
    · next hnn =>
      simp only [one_mul]
      have hsplit : e.toNat = (52 - L) + (e + L - 52).toNat := by omega
      have : m * 2 ^ e.toNat = (m * 2 ^ (52 - L)) * 2 ^ (e + L - 52).toNat := by
        conv_lhs => rw [hsplit, pow_add]
        ring
      rw [this]
      exact roundHalfEven_exact _ _ (Nat.two_pow_pos _)
    · next hneg =>
      simp only
      have hsplit : e.toNat + (-(e + L - 52)).toNat = 52 - L := by omega
      have : m * 2 ^ e.toNat * 2 ^ (-(e + L - 52)).toNat = (m * 2 ^ (52 - L)) * 1 := by
        rw [mul_assoc, ← pow_add, hsplit, mul_one]
      rw [this]
      exact roundHalfEven_exact _ _ (by omega)
  have hval : ((m * 2 ^ (52 - L) : ℕ) : ℚ) * (2 : ℚ) ^ (e + L - 52) =
      ((m * 2 ^ e.toNat : ℕ) : ℚ) := by
    have h1 : ((m * 2 ^ (52 - L) : ℕ) : ℚ) = (m : ℚ) * 2 ^ (((52 - L : ℕ) : ℤ)) := by
      rw [zpow_natCast]; push_cast; ring
    rw [h1, mul_assoc, hpow]
    have h2 : ((52 - L : ℕ) : ℤ) + (e + L - 52) = e := by omega
    rw [h2]
    conv_lhs => rw [hen, zpow_natCast]
    push_cast; ring
  rcases roundToDouble_cases neg (m * 2 ^ e.toNat) 1 hVpos (by omega) with ⟨hov, _⟩ | ⟨_, hres⟩
  · rw [hE, hM, hval] at hov
    exact absurd hov (not_le.mpr hV)
  · rw [hres, hE, hM, mkFin_odd_mul neg m (52 - L) _ hodd]
    congr 1
    omega

theorem mkFin_sign (neg neg' neg'' : Bool) (M : Nat) (E : Int) (m : Nat) (e : Int)
    (h : mkFin neg M E = .fin neg' m e) : neg' = neg ∧ mkFin neg'' M E = .fin neg'' m e := by
  simp only [mkFin] at h ⊢
  split_ifs at h ⊢ with hM
  · cases h; exact ⟨rfl, rfl⟩
  · cases h; exact ⟨rfl, rfl⟩

theorem roundToDouble_neg_of_fin (neg neg' neg'' : Bool) (N D : Nat) (hD : 0 < D) (m : Nat)
    (e : Int) (h : roundToDouble neg N D = .fin neg' m e) :
    neg' = neg ∧ roundToDouble neg'' N D = .fin neg'' m e := by
  rcases Nat.eq_zero_or_pos N with hN | hN
  · subst hN
    simp only [roundToDouble, if_true] at h ⊢
    cases h
    exact ⟨rfl, rfl⟩
  · rcases roundToDouble_cases neg N D hN hD with ⟨_, hinf⟩ | ⟨hno, hres⟩
    · rw [hinf] at h; cases h
    · rcases roundToDouble_cases neg'' N D hN hD with ⟨hov, _⟩ | ⟨_, hres2⟩
      · exact absurd hov (not_le.mpr hno)
      · rw [hres] at h
        rw [hres2]
        exact mkFin_sign neg neg' neg'' _ _ m e h

/-- The Number of a positive integer, when finite, has an integer value. -/
theorem roundToDouble_integer (N : Nat) (hN : 0 < N) (m : Nat) (e : Int)
    (h : roundToDouble false N 1 = .fin false m e) : IsIntegerDouble m e := by
  obtain ⟨hup, hE, hlo⟩ := ulpExponent_spec N 1 hN (by omega)
  have hMle := roundToDouble_significand_le N 1 hN (by omega)
  set E := ulpExponent N 1 with hEdef
  have hpow : ∀ x y : ℤ, (2 : ℚ) ^ x * 2 ^ y = 2 ^ (x + y) := fun x y =>
    (zpow_add₀ (by norm_num) x y).symm
  have hN1 : (1 : ℚ) ≤ (N : ℚ) / ((1 : ℕ) : ℚ) := by
    have : (1 : ℚ) ≤ N := by exact_mod_cast hN
    simpa using this
  -- the binade is normal
  have hEgt : -1074 < E := by
    by_contra hc
    have hE' : E = -1074 := by omega
    rw [hE', hpow] at hup
    have : (2 : ℚ) ^ ((53 : ℤ) + -1074) < 2 ^ (0 : ℤ) :=
      (zpow_two_lt_iff _ _).mpr (by norm_num)
    rw [zpow_zero] at this
    linarith
  have hlo' : (2 : ℚ) ^ (52 : ℤ) * 2 ^ E ≤ (N : ℚ) / ((1 : ℕ) : ℚ) := by
    rcases hlo with h0 | h0
    · omega
    · exact h0
  have hsp := scaleFrac_pos N 1 E (by omega)
  have hsv := scaleFrac_value N 1 E (by omega)
  have hMge : 2 ^ 52 ≤ roundHalfEven (scaleFrac N 1 E).1 (scaleFrac N 1 E).2 := by
    apply roundHalfEven_ge _ _ _ hsp
    have hspq : (0 : ℚ) < ((scaleFrac N 1 E).2 : ℚ) := by exact_mod_cast hsp
    have h1 : (2 : ℚ) ^ 52 ≤ ((scaleFrac N 1 E).1 : ℚ) / ((scaleFrac N 1 E).2 : ℚ) := by
      rw [hsv, le_div_iff₀ (zpow_two_pos _)]
      exact_mod_cast hlo'
    rw [le_div_iff₀ hspq] at h1
    exact_mod_cast h1
  set M := roundHalfEven (scaleFrac N 1 E).1 (scaleFrac N 1 E).2 with hMdef
  have hMpos : 0 < M := lt_of_lt_of_le (Nat.two_pow_pos 52) hMge
  rcases roundToDouble_cases false N 1 hN (by omega) with ⟨_, hinf⟩ | ⟨hno, hres⟩
  · rw [hinf] at h; cases h
  · rw [hres] at h
    unfold mkFin at h
    rw [if_neg (by omega : ¬ M = 0)] at h
    obtain ⟨hs1, hs2, hs3, hs4⟩ := stripTwos_spec M M E
    have hodd := hs4 hMpos (Nat.lt_two_pow M)
    simp only [JSNumber.fin.injEq, true_and] at h
    obtain ⟨hm, he⟩ := h
    simp only [hm, he] at hs1 hs2 hs3 hodd
    have hmM : m ≤ M := by
      have h1 : 1 ≤ 2 ^ (e - E).toNat := Nat.one_le_two_pow
      calc m = m * 1 := (mul_one m).symm
        _ ≤ m * 2 ^ (e - E).toNat := Nat.mul_le_mul_left m h1
        _ = M := hs3.symm
    have he0 : 0 ≤ e := by
      by_contra hc
      have hEneg : ¬ (0 ≤ E) := by omega
      have hMval : M = N * 2 ^ (-E).toNat := by
        rw [hMdef]
        unfold scaleFrac
        rw [if_neg hEneg]
        simp only
        have := roundHalfEven_exact (N * 2 ^ (-E).toNat) 1 (by omega)
        rw [mul_one] at this
        exact this
      have hsplit : (-E).toNat = ((-E).toNat - (e - E).toNat - 1) + 1 + (e - E).toNat := by omega
      have h2 : m * 2 ^ (e - E).toNat =
          (N * 2 ^ ((-E).toNat - (e - E).toNat - 1) * 2) * 2 ^ (e - E).toNat := by
        rw [← hs3, hMval]
        conv_lhs => rw [hsplit, pow_add, pow_add]
        ring
      have h3 := Nat.eq_of_mul_eq_mul_right (Nat.two_pow_pos _) h2
      omega
    refine ⟨hodd, he0, ?_, ?_⟩
    · have : m ≠ 2 ^ 53 := by
        intro heq
        rw [heq] at hodd
        norm_num at hodd
      omega
    · have hen : e = (e.toNat : ℤ) := (Int.toNat_of_nonneg he0).symm
      have : ((m * 2 ^ e.toNat : ℕ) : ℚ) = (m : ℚ) * (2 : ℚ) ^ e := by
        conv_rhs => rw [hen, zpow_natCast]
        push_cast; ring
      rw [this, hs1]
      exact hno

/-! ## Number::toString of integer-valued Numbers -/

/-! ## The digits of a positive integer -/

theorem decimalDigits_bounds (s : Nat) : 0 < s →
    10 ^ ((decimalDigits s).length - 1) ≤ s ∧ s < 10 ^ (decimalDigits s).length := by
  induction s using Nat.strong_induction_on with
  | _ s ih =>
    intro hs
    by_cases h10 : s < 10
    · rw [decimalDigits_lt_ten s h10]
      simp
      omega
    · rw [decimalDigits_step s (by omega)]
      obtain ⟨h1, h2⟩ := ih (s / 10) (by omega) (by omega)
      have hne := decimalDigits_ne_nil (s / 10)
      have hlen : 0 < (decimalDigits (s / 10)).length := List.length_pos.mpr hne
      simp only [List.length_append, List.length_singleton, Nat.add_sub_cancel]
      constructor
      · have : 10 ^ (decimalDigits (s / 10)).length =
            10 ^ ((decimalDigits (s / 10)).length - 1) * 10 := by
          rw [← pow_succ]; congr 1; omega
        rw [this]
        omega
      · rw [pow_succ]
        omega

theorem decimalDigits_length (s k : Nat) (hk : 1 ≤ k) (h1 : 10 ^ (k - 1) ≤ s) (h2 : s < 10 ^ k) :
    (decimalDigits s).length = k := by
  have hs : 0 < s := lt_of_lt_of_le (by positivity) h1
  obtain ⟨b1, b2⟩ := decimalDigits_bounds s hs
  have hlen : 0 < (decimalDigits s).length := List.length_pos.mpr (decimalDigits_ne_nil s)
  have ha : k - 1 < (decimalDigits s).length :=
    (Nat.pow_lt_pow_iff_right (by omega)).mp (lt_of_le_of_lt h1 b2)
  have hb : (decimalDigits s).length - 1 < k :=
    (Nat.pow_lt_pow_iff_right (by omega)).mp (lt_of_le_of_lt b1 h2)
  omega

theorem decimalDigits_head (s : Nat) : 0 < s →
    ∃ d tl, decimalDigits s = d :: tl ∧ 49 ≤ d ∧ d ≤ 57 := by
  induction s using Nat.strong_induction_on with
  | _ s ih =>
    intro hs
    by_cases h10 : s < 10
    · rw [decimalDigits_lt_ten s h10]
      exact ⟨48 + s, [], rfl, by omega, by omega⟩
    · rw [decimalDigits_step s (by omega)]
      obtain ⟨d, tl, h, h1, h2⟩ := ih (s / 10) (by omega) (by omega)
      exact ⟨d, tl ++ [48 + s % 10], by rw [h]; rfl, h1, h2⟩

/-! ## The shortest digits of an integer-valued Number -/

theorem shortestDigits_spec (m : Nat) (e : Int) (V K : Nat) (fuel : Nat) :
    ∀ k : Nat, 1 ≤ k → k + fuel = K + 1 → ∀ (s k' : Nat),
      shortestDigits m e V 1 (K : ℤ) fuel k = some (s, k') →
      1 ≤ k' ∧ k' ≤ K ∧ (s = V / 10 ^ (K - k') ∨ s = V / 10 ^ (K - k') + 1) ∧
        roundDecimal false s ((K : ℤ) - (k' : ℤ)) = .fin false m e := by
  induction fuel with
  | zero => intro k _ _ s k' h; simp [shortestDigits] at h
  | succ fuel ih =>
    intro k hk1 hkf s k' h
    have hkK : k ≤ K := by omega
    unfold shortestDigits at h
    simp only at h
    have hlo : (if (K : ℤ) ≤ (k : ℤ) then (V * 10 ^ ((k : ℤ) - (K : ℤ)).toNat, 1)
        else (V, 1 * 10 ^ ((K : ℤ) - (k : ℤ)).toNat) : Nat × Nat).1 /
        (if (K : ℤ) ≤ (k : ℤ) then (V * 10 ^ ((k : ℤ) - (K : ℤ)).toNat, 1)
        else (V, 1 * 10 ^ ((K : ℤ) - (k : ℤ)).toNat) : Nat × Nat).2 = V / 10 ^ (K - k) := by
      split
      · next hle =>
        have : k = K := by omega
        subst this
        simp
      · next hlt =>
        have : ((K : ℤ) - (k : ℤ)).toNat = K - k := by omega
        simp [this]
    rw [hlo] at h
    generalize hr : (if (K : ℤ) ≤ (k : ℤ) then (V * 10 ^ ((k : ℤ) - (K : ℤ)).toNat, 1)
        else (V, 1 * 10 ^ ((K : ℤ) - (k : ℤ)).toNat) : Nat × Nat).1 %
        (if (K : ℤ) ≤ (k : ℤ) then (V * 10 ^ ((k : ℤ) - (K : ℤ)).toNat, 1)
        else (V, 1 * 10 ^ ((K : ℤ) - (k : ℤ)).toNat) : Nat × Nat).2 = r at h
    generalize hd : (if (K : ℤ) ≤ (k : ℤ) then (V * 10 ^ ((k : ℤ) - (K : ℤ)).toNat, 1)
        else (V, 1 * 10 ^ ((K : ℤ) - (k : ℤ)).toNat) : Nat × Nat).2 = den at h
    by_cases hokLo : roundDecimal false (V / 10 ^ (K - k)) ((K : ℤ) - (k : ℤ)) = .fin false m e
    · by_cases hokHi : roundDecimal false (V / 10 ^ (K - k) + 1) ((K : ℤ) - (k : ℤ)) =
          .fin false m e
      · by_cases hr0 : r ≠ 0
        · simp only [hokLo, hokHi, hr0, decide_True, Bool.and_self, if_true, ne_eq,
            not_false_eq_true] at h
          split_ifs at h <;>
          · simp only [Option.some.injEq, Prod.mk.injEq] at h
            obtain ⟨rfl, rfl⟩ := h
            first
              | exact ⟨hk1, hkK, Or.inl rfl, hokLo⟩
              | exact ⟨hk1, hkK, Or.inr rfl, hokHi⟩
        · simp only [hokLo, hr0, decide_True, decide_False, Bool.false_and, Bool.and_false,
            if_true, if_false, Bool.false_eq_true] at h
          simp only [Option.some.injEq, Prod.mk.injEq] at h
          obtain ⟨rfl, rfl⟩ := h
          exact ⟨hk1, hkK, Or.inl rfl, hokLo⟩
      · simp only [hokLo, hokHi, decide_True, decide_False, Bool.and_false, Bool.true_and,
          if_true, if_false, Bool.false_eq_true] at h
        simp only [Option.some.injEq, Prod.mk.injEq] at h
        obtain ⟨rfl, rfl⟩ := h
        exact ⟨hk1, hkK, Or.inl rfl, hokLo⟩
    · by_cases hokHi : roundDecimal false (V / 10 ^ (K - k) + 1) ((K : ℤ) - (k : ℤ)) =
          .fin false m e
      · by_cases hr0 : r ≠ 0
        · simp only [hokLo, hokHi, hr0, decide_True, decide_False, Bool.false_and,
            Bool.and_self, if_true, if_false, Bool.false_eq_true, ne_eq, not_false_eq_true] at h
          simp only [Option.some.injEq, Prod.mk.injEq] at h
          obtain ⟨rfl, rfl⟩ := h
          exact ⟨hk1, hkK, Or.inr rfl, hokHi⟩
        · simp only [hokLo, hr0, decide_False, Bool.false_and, Bool.and_false, if_false,
            Bool.false_eq_true] at h
          obtain ⟨h1, h2, h3, h4⟩ := ih (k + 1) (by omega) (by omega) s k' h
          exact ⟨h1, h2, h3, h4⟩
      · simp only [hokLo, hokHi, decide_False, Bool.false_and, Bool.and_false, if_false,
          Bool.false_eq_true] at h
        obtain ⟨h1, h2, h3, h4⟩ := ih (k + 1) (by omega) (by omega) s k' h
        exact ⟨h1, h2, h3, h4⟩

theorem roundDecimal_nonneg_exp (neg : Bool) (d : Nat) (x : Nat) :
    roundDecimal neg d (x : ℤ) = roundToDouble neg (d * 10 ^ x) 1 := by
  unfold roundDecimal
  rw [if_pos (Int.natCast_nonneg x)]
  simp

/-- The text of an integer-valued Number: the digits of some `s` and an exponent `n`, at
least the number of digits, with `s * 10^(n - digits)` rounding to the Number. -/
theorem positiveToString_integer (m : Nat) (e : Int) (h : IsIntegerDouble m e) :
    ∃ s n' : Nat, 0 < s ∧ (decimalDigits s).length ≤ n' ∧
      positiveToString m e = formatDigits (decimalDigits s) (n' : ℤ) ∧
      roundToDouble false (s * 10 ^ (n' - (decimalDigits s).length)) 1 = .fin false m e := by
  have hidem := roundToDouble_of_integerDouble false m e h
  obtain ⟨hodd, he, hm, hV⟩ := h
  have hmpos : 0 < m := by omega
  have hVpos : 0 < m * 2 ^ e.toNat := by positivity
  obtain ⟨hb1, hb2⟩ := decimalDigits_bounds (m * 2 ^ e.toNat) hVpos
  have hKpos : 0 < (decimalDigits (m * 2 ^ e.toNat)).length :=
    List.length_pos.mpr (decimalDigits_ne_nil _)
  unfold positiveToString
  simp only [he, if_true]
  have hde : decimalExponent (m * 2 ^ e.toNat) 1 =
      ((decimalDigits (m * 2 ^ e.toNat)).length : ℤ) := by
    unfold decimalExponent
    rw [if_pos (by omega), Nat.div_one]
  rw [hde]
  set V := m * 2 ^ e.toNat with hVdef
  set K := (decimalDigits V).length with hKdef
  cases hsd : shortestDigits m e V 1 (K : ℤ) K 1 with
  | none =>
    simp only
    refine ⟨V, K, hVpos, le_refl _, rfl, ?_⟩
    simp only [Nat.sub_self, pow_zero, mul_one]
    exact hidem
  | some p =>
    obtain ⟨s, k⟩ := p
    simp only
    obtain ⟨hk1, hkK, hs, hround⟩ := shortestDigits_spec m e V K K 1 (le_refl _) (by omega) s k hsd
    have hcast : (K : ℤ) - (k : ℤ) = ((K - k : ℕ) : ℤ) := by omega
    rw [hcast, roundDecimal_nonneg_exp] at hround
    -- the bounds on the quotient
    have hsplit1 : 10 ^ K = 10 ^ k * 10 ^ (K - k) := by rw [← pow_add]; congr 1; omega
    have hsplit2 : 10 ^ (K - 1) = 10 ^ (k - 1) * 10 ^ (K - k) := by
      rw [← pow_add]; congr 1; omega
    have hlo1 : 10 ^ (k - 1) ≤ V / 10 ^ (K - k) := by
      rw [Nat.le_div_iff_mul_le (by positivity), ← hsplit2]; exact hb1
    have hlo2 : V / 10 ^ (K - k) < 10 ^ k := by
      rw [Nat.div_lt_iff_lt_mul (by positivity), ← hsplit1]; exact hb2
    by_cases h10 : s = 10 ^ k
    · rw [if_pos h10]
      have hlen : (decimalDigits (10 ^ (k - 1))).length = k :=
        decimalDigits_length _ k hk1 (le_refl _) (Nat.pow_lt_pow_right (by omega) (by omega))
      refine ⟨10 ^ (k - 1), K + 1, by positivity, by rw [hlen]; omega, ?_, ?_⟩
      · push_cast; rfl
      · rw [hlen, ← hround, h10, ← pow_add, ← pow_add]
        congr 2
        omega
    · rw [if_neg h10]
      have hlen : (decimalDigits s).length = k := by
        apply decimalDigits_length _ k hk1
        · rcases hs with rfl | rfl <;> omega
        · rcases hs with rfl | rfl <;> omega
      refine ⟨s, K, ?_, by rw [hlen]; exact hkK, rfl, by rw [hlen]; exact hround⟩
      have : 0 < 10 ^ (k - 1) := by positivity
      rcases hs with rfl | rfl <;> omega

/-! ## The scanner of JSON numbers -/

theorem delimited_cases (rest : JSString) (h : delimited rest = true) :
    rest = [] ∨ ∃ c r, rest = c :: r ∧ (c = 10 ∨ c = 44) := by
  cases rest with
  | nil => exact Or.inl rfl
  | cons c r =>
    right
    simp only [delimited, Bool.or_eq_true, beq_iff_eq] at h
    exact ⟨c, r, rfl, h⟩

theorem span_digits (ds r1 : JSString) (hds : ∀ c ∈ ds, isDigit c = true)
    (hr : ∀ x r, r1 = x :: r → isDigit x = false) :
    (ds ++ r1).takeWhile isDigit = ds ∧ (ds ++ r1).dropWhile isDigit = r1 := by
  cases r1 with
  | nil =>
    simp only [List.append_nil]
    exact ⟨List.takeWhile_eq_self_iff.mpr hds, List.dropWhile_eq_nil_iff.mpr hds⟩
  | cons x r => exact takeWhile_append_stop ds r x hds (hr x r rfl)

theorem delimited_not_digit (rest : JSString) (h : delimited rest = true) :
    ∀ x r, rest = x :: r → isDigit x = false := by
  intro x r hx
  subst hx
  simp only [delimited, Bool.or_eq_true, beq_iff_eq] at h
  rcases h with rfl | rfl <;> decide

theorem digitsValue_zeros (j : Nat) : digitsValue (zeros j) = 0 := by
  induction j with
  | zero => rfl
  | succ j ih =>
    have : zeros (j + 1) = 48 :: zeros j := by simp [zeros, List.replicate_succ]
    rw [this, digitsValue_cons, ih]
    simp

theorem zeros_isDigit (j : Nat) : ∀ c ∈ zeros j, isDigit c = true := by
  intro c hc
  simp only [zeros, List.mem_replicate] at hc
  rw [hc.2]; decide

theorem scanExponent_plus (X rest : JSString) (hX : X ≠ []) (hXd : ∀ c ∈ X, isDigit c = true)
    (hrest : delimited rest = true) :
    scanExponent (101 :: 43 :: (X ++ rest)) = some ((digitsValue X : ℤ), rest) := by
  obtain ⟨h1, h2⟩ := span_digits X rest hXd (delimited_not_digit rest hrest)
  unfold scanExponent
  simp only [true_or, if_true, h1, h2, hX, if_false]

/-- The scanner of JSON numbers on digits followed by zeros. -/
theorem scanJSONNumber_plain (neg : Bool) (d0 : Nat) (tl rest : JSString) (h0 : 49 ≤ d0)
    (h9 : d0 ≤ 57) (htl : ∀ c ∈ tl, isDigit c = true) (hrest : delimited rest = true) :
    scanJSONNumber neg (d0 :: tl ++ rest) =
      some (roundDecimal neg (digitsValue (d0 :: tl)) 0, rest) := by
  have hd0 : isDigit d0 = true := by simp [isDigit]; omega
  have hall : ∀ c ∈ d0 :: tl, isDigit c = true := by
    intro c hc
    rcases List.mem_cons.mp hc with rfl | hc
    · exact hd0
    · exact htl c hc
  obtain ⟨h1, h2⟩ := span_digits (d0 :: tl) rest hall (delimited_not_digit rest hrest)
  have hhead : ¬ ((d0 :: tl ++ rest).head? = some 48) := by
    simp only [List.cons_append, List.head?_cons, Option.some.injEq]; omega
  unfold scanJSONNumber
  simp only [hhead, if_false, h1, h2]
  rw [if_neg (by simp)]
  rcases delimited_cases rest hrest with rfl | ⟨c, r, rfl, hc⟩
  · rfl
  · rcases hc with rfl | rfl <;> rfl

/-- The scanner of JSON numbers on the exponent form `d.ddde+x` and `de+x`. -/
theorem scanJSONNumber_exponent (neg : Bool) (d0 : Nat) (tl X rest : JSString) (h0 : 49 ≤ d0)
    (h9 : d0 ≤ 57) (htl : ∀ c ∈ tl, isDigit c = true) (hX : X ≠ [])
    (hXd : ∀ c ∈ X, isDigit c = true) (hrest : delimited rest = true) :
    scanJSONNumber neg
        ((if tl = [] then [d0] else [d0] ++ [46] ++ tl) ++ [101, 43] ++ X ++ rest) =
      some (roundDecimal neg (digitsValue (d0 :: tl)) ((digitsValue X : ℤ) - tl.length), rest) := by
  have hd0 : isDigit d0 = true := by simp [isDigit]; omega
  have hse := scanExponent_plus X rest hX hXd hrest
  by_cases htl0 : tl = []
  · subst htl0
    simp only [if_true, List.cons_append, List.nil_append, List.append_assoc]
    have h1 : (d0 :: 101 :: 43 :: (X ++ rest)).takeWhile isDigit = [d0] := by
      simp [List.takeWhile_cons, hd0, show isDigit 101 = false by decide]
    have h2 : (d0 :: 101 :: 43 :: (X ++ rest)).dropWhile isDigit = 101 :: 43 :: (X ++ rest) := by
      simp [List.dropWhile_cons, hd0, show isDigit 101 = false by decide]
    have hhead : ¬ ((d0 :: 101 :: 43 :: (X ++ rest)).head? = some 48) := by
      simp only [List.head?_cons, Option.some.injEq]; omega
    unfold scanJSONNumber
    simp only [hhead, if_false, h1, h2]
    rw [if_neg (by simp)]
    simp only [hse, List.length_nil, Nat.cast_zero, sub_zero]
  · simp only [htl0, if_false, List.cons_append, List.nil_append, List.append_assoc]
    have h1 : (d0 :: 46 :: (tl ++ 101 :: 43 :: (X ++ rest))).takeWhile isDigit = [d0] := by
      simp [List.takeWhile_cons, hd0, show isDigit 46 = false by decide]
    have h2 : (d0 :: 46 :: (tl ++ 101 :: 43 :: (X ++ rest))).dropWhile isDigit =
        46 :: (tl ++ 101 :: 43 :: (X ++ rest)) := by
      simp [List.dropWhile_cons, hd0, show isDigit 46 = false by decide]
    have hhead : ¬ ((d0 :: 46 :: (tl ++ 101 :: 43 :: (X ++ rest))).head? = some 48) := by
      simp only [List.head?_cons, Option.some.injEq]; omega
    obtain ⟨h3, h4⟩ := takeWhile_append_stop (p := isDigit) tl (43 :: (X ++ rest)) 101 htl
      (by decide)
    unfold scanJSONNumber
    simp only [hhead, if_false, h1, h2]
    rw [if_neg (by simp)]
    simp only [h3, h4, htl0, if_false, hse]
    rfl

theorem parseJSONValue_digit (fuel c : Nat) (r : JSString) (n : JSNumber) (rest : JSString)
    (hc : isDigit c = true) (h : scanJSONNumber false (c :: r) = some (n, rest)) :
    parseJSONValue (fuel + 1) (c :: r) = some (.num n, rest) := by
  have hc' := hc
  simp only [isDigit, Bool.and_eq_true, decide_eq_true_eq] at hc'
  have hws : skipWhiteSpace (c :: r) = c :: r := by
    unfold skipWhiteSpace
    rw [List.dropWhile_cons, if_neg]
    simp only [isJSONWhiteSpace, Bool.or_eq_true, beq_iff_eq]
    omega
  unfold parseJSONValue
  simp only [hws]
  rw [if_neg (by omega), if_neg (by omega), if_neg (by omega), if_neg (by omega), if_pos hc, h]

theorem parseJSONValue_minus (fuel : Nat) (r : JSString) (n : JSNumber) (rest : JSString)
    (h : scanJSONNumber true r = some (n, rest)) :
    parseJSONValue (fuel + 1) (45 :: r) = some (.num n, rest) := by
  have hws : skipWhiteSpace (45 :: r) = 45 :: r := by
    unfold skipWhiteSpace
    rw [List.dropWhile_cons, if_neg]
    decide
  unfold parseJSONValue
  simp only [hws]
  simp [h]

/-- The scanner of JSON numbers reads the text of Number::toString for the digits of `s` and
the exponent `n`. -/
theorem scanJSONNumber_formatDigits (neg : Bool) (s n' : Nat) (hs : 0 < s)
    (hlen : (decimalDigits s).length ≤ n') (rest : JSString) (hrest : delimited rest = true) :
    ∃ d0 tl, formatDigits (decimalDigits s) (n' : ℤ) ++ rest = d0 :: tl ∧ isDigit d0 = true ∧
      scanJSONNumber neg (formatDigits (decimalDigits s) (n' : ℤ) ++ rest) =
        some (roundToDouble neg (s * 10 ^ (n' - (decimalDigits s).length)) 1, rest) := by
  obtain ⟨d0, tl, hds, h0, h9⟩ := decimalDigits_head s hs
  have hd0 : isDigit d0 = true := by simp [isDigit]; omega
  have hall := decimalDigits_isDigit s
  rw [hds] at hall
  have htl : ∀ c ∈ tl, isDigit c = true := fun c hc => hall c (List.mem_cons_of_mem _ hc)
  have hval := digitsValue_decimalDigits s
  rw [hds] at hval hlen ⊢
  have hk : ((d0 :: tl).length : ℤ) = (tl.length : ℤ) + 1 := by simp
  unfold formatDigits
  simp only
  by_cases hsmall : n' ≤ 21
  · have hcond : ((d0 :: tl).length : ℤ) ≤ (n' : ℤ) ∧ (n' : ℤ) ≤ 21 := by
      constructor
      · exact_mod_cast hlen
      · exact_mod_cast hsmall
    rw [if_pos hcond]
    have hj : ((n' : ℤ) - ((d0 :: tl).length : ℤ)).toNat = n' - (d0 :: tl).length := by omega
    rw [hj]
    have htl' : ∀ c ∈ tl ++ zeros (n' - (d0 :: tl).length), isDigit c = true := by
      intro c hc
      rcases List.mem_append.mp hc with hc | hc
      · exact htl c hc
      · exact zeros_isDigit _ c hc
    have key := scanJSONNumber_plain neg d0 (tl ++ zeros (n' - (d0 :: tl).length)) rest h0 h9
      htl' hrest
    refine ⟨d0, tl ++ zeros (n' - (d0 :: tl).length) ++ rest, by simp, hd0, ?_⟩
    have e1 : (d0 :: tl ++ zeros (n' - (d0 :: tl).length)) ++ rest =
        d0 :: (tl ++ zeros (n' - (d0 :: tl).length)) ++ rest := by simp
    rw [e1, key]
    have e2 : digitsValue (d0 :: (tl ++ zeros (n' - (d0 :: tl).length))) =
        s * 10 ^ (n' - (d0 :: tl).length) := by
      rw [← List.cons_append, digitsValue_append, hval, digitsValue_zeros]
      simp [zeros]
    rw [e2]
    have := roundDecimal_nonneg_exp neg (s * 10 ^ (n' - (d0 :: tl).length)) 0
    simp only [Nat.cast_zero, pow_zero, mul_one] at this
    rw [this]
  · have hc1 : ¬ (((d0 :: tl).length : ℤ) ≤ (n' : ℤ) ∧ (n' : ℤ) ≤ 21) := by omega
    have hc2 : ¬ ((0 : ℤ) < (n' : ℤ) ∧ (n' : ℤ) ≤ 21) := by omega
    have hc3 : ¬ ((-6 : ℤ) < (n' : ℤ) ∧ (n' : ℤ) ≤ 0) := by omega
    rw [if_neg hc1, if_neg hc2, if_neg hc3]
    have hsign : (if (n' : ℤ) - 1 < 0 then (45 : Nat) else 43) = 43 := by
      rw [if_neg (by omega)]
    rw [hsign]
    have hX : ((n' : ℤ) - 1).natAbs = n' - 1 := by omega
    rw [hX]
    have key := scanJSONNumber_exponent neg d0 tl (decimalDigits (n' - 1)) rest h0 h9 htl
      (decimalDigits_ne_nil _) (decimalDigits_isDigit _) hrest
    rw [digitsValue_decimalDigits, hval] at key
    have hexp : (((n' - 1 : ℕ)) : ℤ) - (tl.length : ℤ) = ((n' - (d0 :: tl).length : ℕ) : ℤ) := by
      simp only [List.length_cons] at hlen ⊢
      omega
    rw [hexp, roundDecimal_nonneg_exp] at key
    by_cases htl0 : tl = []
    · subst htl0
      simp only [List.length_singleton, if_true] at key ⊢
      refine ⟨d0, [101, 43] ++ decimalDigits (n' - 1) ++ rest, by simp, hd0, ?_⟩
      simpa using key
    · have hlen1 : ¬ ((d0 :: tl).length = 1) := by
        simp only [List.length_cons]
        have : 0 < tl.length := List.length_pos.mpr htl0
        omega
      rw [if_neg hlen1]
      rw [if_neg htl0] at key
      refine ⟨d0, [46] ++ tl ++ [101, 43] ++ decimalDigits (n' - 1) ++ rest, by simp, hd0, ?_⟩
      simpa using key

theorem zero_restores : NumberRestores (.fin false 0 0) := by
  refine ⟨⟨false, 0, 0, rfl⟩, ⟨48, [], by decide, Or.inr (by decide)⟩, ?_⟩
  intro fuel rest hrest
  have h0 : (JSNumber.fin false 0 0).toString = [48] := by decide
  rw [h0]
  apply parseJSONValue_digit fuel 48 rest _ rest (by decide)
  unfold scanJSONNumber
  simp only [List.head?_cons, if_true, List.drop_succ_cons, List.drop_zero]
  rw [if_neg (by simp)]
  have hround : roundDecimal false (digitsValue [48]) 0 = .fin false 0 0 := by decide
  rcases delimited_cases rest hrest with rfl | ⟨c, r, rfl, hc⟩
  · simp only [hround]
  · rcases hc with rfl | rfl <;> simp only [hround]

/-- An integer-valued Number is restored. -/
theorem integer_restores (neg : Bool) (m : Nat) (e : Int) (h : IsIntegerDouble m e) :
    NumberRestores (.fin neg m e) := by
  obtain ⟨s, n', hs, hlen, htext, hround⟩ := positiveToString_integer m e h
  have hm0 : m ≠ 0 := by have := h.1; omega
  refine ⟨⟨neg, m, e, rfl⟩, ?_, ?_⟩
  · obtain ⟨d0, tl, hshape, hd0, _⟩ :=
      scanJSONNumber_formatDigits false s n' hs hlen [] rfl
    rw [List.append_nil] at hshape
    cases neg with
    | false =>
      exact ⟨d0, tl, by simp only [JSNumber.toString, hm0, if_false, htext,
        Bool.false_eq_true, hshape], Or.inr hd0⟩
    | true =>
      exact ⟨45, positiveToString m e, by simp only [JSNumber.toString, hm0, if_false,
        if_true], Or.inl rfl⟩
  intro fuel rest hrest
  have hround' : roundToDouble neg (s * 10 ^ (n' - (decimalDigits s).length)) 1 =
      .fin neg m e :=
    (roundToDouble_neg_of_fin false false neg _ 1 (by omega) m e hround).2
  obtain ⟨d0, tl, hshape, hd0, hscan⟩ := scanJSONNumber_formatDigits neg s n' hs hlen rest hrest
  rw [hround'] at hscan
  cases neg with
  | false =>
    simp only [JSNumber.toString, hm0, if_false, htext, Bool.false_eq_true]
    rw [hshape] at hscan ⊢
    exact parseJSONValue_digit fuel d0 tl _ rest hd0 hscan
  | true =>
    simp only [JSNumber.toString, hm0, if_false, htext, if_true, List.cons_append]
    exact parseJSONValue_minus fuel _ _ rest hscan

/-- A quantity that `parseInt` reads as a finite Number other than the negative zero is
restored. -/
theorem parseInt_restores (t : JSString) (neg : Bool) (m : Nat) (e : Int)
    (h : parseInt t = .fin neg m e) (hz : ¬ (neg = true ∧ m = 0)) :
    NumberRestores (parseInt t) := by
  have hform : ∃ neg0 n, parseInt t = roundToDouble neg0 n 1 := by
    unfold parseInt at h ⊢
    split at h
    · cases h
    · next c r hcr =>
      simp only at h ⊢
      split at h
      · cases h
      · next n hn => exact ⟨_, _, rfl⟩
  obtain ⟨neg0, n, hn⟩ := hform
  rw [h]
  rw [hn] at h
  obtain ⟨hneg, hfalse⟩ := roundToDouble_neg_of_fin neg0 neg false n 1 (by omega) m e h
  rcases Nat.eq_zero_or_pos n with h0 | hpos
  · subst h0
    have : roundToDouble false 0 1 = .fin false 0 0 := by decide
    rw [this] at hfalse
    simp only [JSNumber.fin.injEq, true_and] at hfalse
    obtain ⟨rfl, rfl⟩ := hfalse
    have hnf : neg = false := by
      cases neg with
      | false => rfl
      | true => exact absurd ⟨rfl, rfl⟩ hz
    rw [hnf]
    exact zero_restores
  · exact integer_restores neg m e (roundToDouble_integer n hpos m e hfalse)

/-! ## The JSON round trip (C4) -/

theorem skipWhiteSpace_append (ws s : JSString) (h : ∀ c ∈ ws, isJSONWhiteSpace c = true) :
    skipWhiteSpace (ws ++ s) = skipWhiteSpace s := by
  induction ws with
  | nil => rfl
  | cons c ws ih =>
    have hc := h c (List.mem_cons_self _ _)
    have := ih (fun d hd => h d (List.mem_cons_of_mem _ hd))
    unfold skipWhiteSpace at this ⊢
    rw [List.cons_append, List.dropWhile_cons, if_pos hc]
    exact this

theorem skipWhiteSpace_cons (c : Nat) (s : JSString) (h : isJSONWhiteSpace c = false) :
    skipWhiteSpace (c :: s) = c :: s := by
  unfold skipWhiteSpace
  rw [List.dropWhile_cons, if_neg (by simp [h])]

theorem spaces_whiteSpace (l : JSString) (h : ∀ c ∈ l, c = 32) :
    ∀ c ∈ l, isJSONWhiteSpace c = true := by
  intro c hc
  rw [h c hc]
  decide

theorem parseJSONValue_skip (fuel : Nat) (ws s : JSString)
    (h : ∀ c ∈ ws, isJSONWhiteSpace c = true) :
    parseJSONValue fuel (ws ++ s) = parseJSONValue fuel s := by
  cases fuel with
  | zero => simp [parseJSONValue]
  | succ f =>
    rw [parseJSONValue, parseJSONValue, skipWhiteSpace_append ws s h]

theorem parseJSONElements_skip (fuel : Nat) (ws s : JSString)
    (h : ∀ c ∈ ws, isJSONWhiteSpace c = true) :
    parseJSONElements fuel (ws ++ s) = parseJSONElements fuel s := by
  cases fuel with
  | zero => simp [parseJSONElements]
  | succ f =>
    rw [parseJSONElements, parseJSONElements, parseJSONValue_skip f ws s h]

theorem parseJSONMembers_skip (fuel : Nat) (acc : List (JSString × JSValue)) (ws s : JSString)
    (h : ∀ c ∈ ws, isJSONWhiteSpace c = true) :
    parseJSONMembers fuel acc (ws ++ s) = parseJSONMembers fuel acc s := by
  cases fuel with
  | zero => simp [parseJSONMembers]
  | succ f =>
    rw [parseJSONMembers, parseJSONMembers, skipWhiteSpace_append ws s h]

theorem insertProperty_append (k : JSString) (v : JSValue) (h : arrayIndex k = none) :
    ∀ acc : List (JSString × JSValue), insertProperty k v acc = acc ++ [(k, v)] := by
  intro acc
  induction acc with
  | nil => rfl
  | cons p acc ih =>
    obtain ⟨k2, v2⟩ := p
    simp only [insertProperty, h, ih, List.cons_append]

theorem setProperty_append (acc : List (JSString × JSValue)) (k : JSString) (v : JSValue)
    (h : arrayIndex k = none) (hk : ∀ p ∈ acc, p.1 ≠ k) :
    setProperty acc k v = acc ++ [(k, v)] := by
  unfold setProperty
  rw [if_neg, insertProperty_append k v h]
  simp only [List.any_eq_true, decide_eq_true_eq, not_exists, not_and]
  exact fun p hp => hk p hp

/-- The text of a restorable value exists. -/
theorem serializeJSONProperty_some (gap indent : JSString) (v : JSValue) (hv : Restorable v) :
    ∃ t, serializeJSONProperty gap indent v = some t := by
  cases v with
  | undefined => simp [Restorable] at hv
  | null => simp [serializeJSONProperty]
  | bool b => simp [serializeJSONProperty]
  | num n =>
    simp only [Restorable] at hv
    obtain ⟨⟨neg, m, e, rfl⟩, _⟩ := hv
    simp [serializeJSONProperty]
  | str s => simp [serializeJSONProperty]
  | arr xs => simp [serializeJSONProperty]
  | obj ps => simp [serializeJSONProperty]

/-- The text of a restorable value starts with a character that is neither white space
nor a closing bracket. -/
theorem serializeJSONProperty_head (indent : JSString) (v : JSValue) (t : JSString)
    (hv : Restorable v) (h : serializeJSONProperty [32, 32] indent v = some t) :
    ∃ c r, t = c :: r ∧ isJSONWhiteSpace c = false ∧ c ≠ 93 ∧ c ≠ 125 := by
  cases v with
  | undefined => simp [Restorable] at hv
  | null =>
    simp only [serializeJSONProperty, Option.some.injEq] at h
    subst h
    exact ⟨110, [117, 108, 108], by decide, by decide, by decide, by decide⟩
  | bool b =>
    simp only [serializeJSONProperty, Option.some.injEq] at h
    subst h
    cases b
    · exact ⟨102, [97, 108, 115, 101], by decide, by decide, by decide, by decide⟩
    · exact ⟨116, [114, 117, 101], by decide, by decide, by decide, by decide⟩
  | num n =>
    simp only [Restorable] at hv
    obtain ⟨⟨neg, m, e, rfl⟩, ⟨c, r, hcr, hc⟩, _⟩ := hv
    simp only [serializeJSONProperty, Option.some.injEq] at h
    subst h
    refine ⟨c, r, hcr, ?_⟩
    rcases hc with hc | hc
    · subst hc
      exact ⟨by decide, by decide, by decide⟩
    · simp only [isDigit, Bool.and_eq_true, decide_eq_true_eq] at hc
      refine ⟨?_, by omega, by omega⟩
      simp only [isJSONWhiteSpace, Bool.or_eq_false_iff, beq_eq_false_iff_ne, ne_eq]
      omega
  | str s =>
    simp only [serializeJSONProperty, Option.some.injEq] at h
    subst h
    exact ⟨34, quoteJSONBody false s ++ [34], by simp [quoteJSONString], by decide, by decide,
      by decide⟩
  | arr xs =>
    simp only [serializeJSONProperty, Option.some.injEq] at h
    subst h
    cases hx : serializeJSONElements [32, 32] (indent ++ [32, 32]) xs with
    | nil => exact ⟨91, [93], by simp [wrapParts], by decide, by decide, by decide⟩
    | cons a l => exact ⟨91, _, by simp [wrapParts]; rfl, by decide, by decide, by decide⟩
  | obj ps =>
    simp only [serializeJSONProperty, Option.some.injEq] at h
    subst h
    cases hx : serializeJSONMembers [32, 32] (indent ++ [32, 32]) ps with
    | nil => exact ⟨123, [125], by simp [wrapParts], by decide, by decide, by decide⟩
    | cons a l => exact ⟨123, _, by simp [wrapParts]; rfl, by decide, by decide, by decide⟩

theorem wrapParts_append (stepback : JSString) (left right : Nat) (parts : List JSString)
    (rest : JSString) (h : parts ≠ []) :
    wrapParts [32, 32] stepback left right parts ++ rest =
      left :: ((10 :: (stepback ++ [32, 32])) ++
        (joinWith ([44, 10] ++ (stepback ++ [32, 32])) parts ++
          10 :: (stepback ++ right :: rest))) := by
  cases parts with
  | nil => exact absurd rfl h
  | cons a l => simp [wrapParts]

theorem joinWith_cons (sep a : JSString) (l : List JSString) :
    joinWith sep (a :: l) = a ++ (if l = [] then [] else sep ++ joinWith sep l) := by
  cases l with
  | nil => simp [joinWith]
  | cons b l => simp [joinWith]

theorem readsValues_zero : ReadsValues 0 := by
  intro v indent t rest hv hind ht hlen hrest
  obtain ⟨c, r, hcr, _⟩ := serializeJSONProperty_head indent v t hv ht
  rw [hcr] at hlen
  simp at hlen

theorem readsValues_succ (f : Nat) (hE : ReadsElements f) (hM : ReadsMembers f) :
    ReadsValues (f + 1) := by
  intro v indent t rest hv hind ht hlen hrest
  have hgap : ∀ c ∈ indent ++ [32, 32], c = 32 := by
    intro c hc
    rcases List.mem_append.mp hc with hc | hc
    · exact hind c hc
    · simpa using hc
  have hws : ∀ c ∈ 10 :: (indent ++ [32, 32]), isJSONWhiteSpace c = true := by
    intro c hc
    rcases List.mem_cons.mp hc with hc | hc
    · rw [hc]; decide
    · exact spaces_whiteSpace _ hgap c hc
  cases v with
  | undefined => simp [Restorable] at hv
  | null =>
    simp only [serializeJSONProperty, Option.some.injEq] at ht
    subst ht
    have e : js "null" = [110, 117, 108, 108] := by decide
    rw [e, parseJSONValue]
    simp [skipWhiteSpace, isJSONWhiteSpace, isDigit, e]
  | bool b =>
    simp only [serializeJSONProperty, Option.some.injEq] at ht
    subst ht
    have e0 : js "null" = [110, 117, 108, 108] := by decide
    have e1 : js "true" = [116, 114, 117, 101] := by decide
    have e2 : js "false" = [102, 97, 108, 115, 101] := by decide
    cases b
    · rw [parseJSONValue]
      simp [skipWhiteSpace, isJSONWhiteSpace, isDigit, e0, e1, e2]
    · rw [parseJSONValue]
      simp [skipWhiteSpace, isJSONWhiteSpace, isDigit, e0, e1, e2]
  | num n =>
    simp only [Restorable] at hv
    obtain ⟨⟨neg, m, e, rfl⟩, _, hp⟩ := hv
    simp only [serializeJSONProperty, Option.some.injEq] at ht
    subst ht
    exact hp f rest hrest
  | str s =>
    simp only [serializeJSONProperty, Option.some.injEq] at ht
    subst ht
    obtain ⟨body, hb, hp⟩ := parseJSONString_quoteJSONString s rest
    rw [hb, parseJSONValue, skipWhiteSpace_cons 34 body (by decide)]
    simp [hp]
  | arr xs =>
    simp only [serializeJSONProperty, Option.some.injEq] at ht
    subst ht
    cases xs with
    | nil =>
      rw [parseJSONValue]
      simp [serializeJSONElements, wrapParts, skipWhiteSpace, isJSONWhiteSpace]
    | cons x xs =>
      simp only [Restorable] at hv
      have hx : Restorable x := by
        simp only [RestorableElements] at hv
        exact hv.1
      obtain ⟨tx, htx⟩ := serializeJSONProperty_some [32, 32] (indent ++ [32, 32]) x hx
      obtain ⟨c, r, hcr, hcw, hc93, _⟩ :=
        serializeJSONProperty_head (indent ++ [32, 32]) x tx hx htx
      have hparts : serializeJSONElements [32, 32] (indent ++ [32, 32]) (x :: xs) ≠ [] := by
        simp [serializeJSONElements]
      have hJ : ∃ u, joinWith ([44, 10] ++ (indent ++ [32, 32]))
          (serializeJSONElements [32, 32] (indent ++ [32, 32]) (x :: xs)) = c :: u := by
        simp only [serializeJSONElements, htx, joinWith_cons, hcr]
        exact ⟨_, rfl⟩
      obtain ⟨u, hu⟩ := hJ
      have hl := congrArg List.length (wrapParts_append indent 91 93 _ [] hparts)
      rw [List.append_nil] at hl
      rw [hl] at hlen
      rw [wrapParts_append indent 91 93 _ rest hparts]
      have hfuel : (joinWith ([44, 10] ++ (indent ++ [32, 32]))
          (serializeJSONElements [32, 32] (indent ++ [32, 32]) (x :: xs))).length + 1 ≤ f := by
        simp only [List.length_cons, List.length_append] at hlen
        omega
      have key := hE (x :: xs) (indent ++ [32, 32]) indent rest (by simp) hv hgap hind hfuel
      rw [parseJSONValue, skipWhiteSpace_cons 91 _ (by decide)]
      simp only [show ¬ ((91 : Nat) = 34) by decide, if_false, if_true]
      rw [skipWhiteSpace_append _ _ hws, parseJSONElements_skip _ _ _ hws, key]
      rw [hu, List.cons_append, skipWhiteSpace_cons c _ hcw]
      split
      · next heq =>
        simp only [List.cons.injEq] at heq
        exact absurd heq.1 hc93
      · rfl
  | obj ps =>
    simp only [serializeJSONProperty, Option.some.injEq] at ht
    subst ht
    cases ps with
    | nil =>
      rw [parseJSONValue]
      simp [serializeJSONMembers, wrapParts, skipWhiteSpace, isJSONWhiteSpace]
    | cons p ps =>
      obtain ⟨k, x⟩ := p
      simp only [Restorable] at hv
      have hx : Restorable x := by
        simp only [RestorableMembers] at hv
        exact hv.2.2.1
      obtain ⟨tx, htx⟩ := serializeJSONProperty_some [32, 32] (indent ++ [32, 32]) x hx
      have hparts : serializeJSONMembers [32, 32] (indent ++ [32, 32]) ((k, x) :: ps) ≠ [] := by
        simp [serializeJSONMembers, htx]
      have hJ : ∃ u, joinWith ([44, 10] ++ (indent ++ [32, 32]))
          (serializeJSONMembers [32, 32] (indent ++ [32, 32]) ((k, x) :: ps)) = 34 :: u := by
        simp only [serializeJSONMembers, htx, joinWith_cons, quoteJSONString]
        exact ⟨_, rfl⟩
      obtain ⟨u, hu⟩ := hJ
      have hl := congrArg List.length (wrapParts_append indent 123 125 _ [] hparts)
      rw [List.append_nil] at hl
      rw [hl] at hlen
      rw [wrapParts_append indent 123 125 _ rest hparts]
      have hfuel : (joinWith ([44, 10] ++ (indent ++ [32, 32]))
          (serializeJSONMembers [32, 32] (indent ++ [32, 32]) ((k, x) :: ps))).length + 1
            ≤ f := by
        simp only [List.length_cons, List.length_append] at hlen
        omega
      have key := hM ((k, x) :: ps) (indent ++ [32, 32]) indent rest [] (by simp) hv hgap hind
        (by simp) hfuel
      rw [parseJSONValue, skipWhiteSpace_cons 123 _ (by decide)]
      simp only [show ¬ ((123 : Nat) = 34) by decide, show ¬ ((123 : Nat) = 91) by decide,
        if_false, if_true]
      rw [skipWhiteSpace_append _ _ hws, parseJSONMembers_skip _ _ _ _ hws, key]
      rw [hu, List.cons_append, skipWhiteSpace_cons 34 _ (by decide)]
      rfl


theorem readsElements_zero : ReadsElements 0 := by
  intro xs indent stepback rest hne hxs hind hstep hlen
  omega

theorem readsMembers_zero : ReadsMembers 0 := by
  intro ps indent stepback rest acc hne hps hind hstep hacc hlen
  omega

theorem readsElements_succ (f : Nat) (hV : ReadsValues f) (hE : ReadsElements f) :
    ReadsElements (f + 1) := by
  intro xs indent stepback rest hne hxs hind hstep hlen
  have hws : ∀ c ∈ 10 :: indent, isJSONWhiteSpace c = true := by
    intro c hc
    rcases List.mem_cons.mp hc with hc | hc
    · rw [hc]; decide
    · exact spaces_whiteSpace _ hind c hc
  have hws2 : ∀ c ∈ 10 :: stepback, isJSONWhiteSpace c = true := by
    intro c hc
    rcases List.mem_cons.mp hc with hc | hc
    · rw [hc]; decide
    · exact spaces_whiteSpace _ hstep c hc
  cases xs with
  | nil => exact absurd rfl hne
  | cons x xs =>
    simp only [RestorableElements] at hxs
    obtain ⟨hx, hxs⟩ := hxs
    obtain ⟨tx, htx⟩ := serializeJSONProperty_some [32, 32] indent x hx
    simp only [serializeJSONElements, htx, joinWith_cons] at hlen ⊢
    by_cases hnil : xs = []
    · subst hnil
      simp only [serializeJSONElements, if_true, List.append_nil] at hlen ⊢
      rw [parseJSONElements, hV x indent tx _ hx hind htx (by omega) (by rfl)]
      simp only
      rw [← List.cons_append, skipWhiteSpace_append _ _ hws2,
        skipWhiteSpace_cons 93 _ (by decide)]
    · have hparts : serializeJSONElements [32, 32] indent xs ≠ [] := by
        cases xs with
        | nil => exact absurd rfl hnil
        | cons y ys => simp [serializeJSONElements]
      rw [if_neg hparts] at hlen ⊢
      simp only [List.length_append, List.length_cons] at hlen
      have e : tx ++ ([44, 10] ++ indent ++
            joinWith ([44, 10] ++ indent) (serializeJSONElements [32, 32] indent xs)) ++
          10 :: (stepback ++ 93 :: rest) =
          tx ++ (44 :: ((10 :: indent) ++
            (joinWith ([44, 10] ++ indent) (serializeJSONElements [32, 32] indent xs) ++
              10 :: (stepback ++ 93 :: rest)))) := by
        simp
      rw [e, parseJSONElements, hV x indent tx _ hx hind htx (by omega) (by rfl)]
      simp only
      rw [skipWhiteSpace_cons 44 _ (by decide)]
      simp only
      rw [parseJSONElements_skip _ _ _ hws,
        hE xs indent stepback rest hnil hxs hind hstep (by omega)]

theorem readsMembers_succ (f : Nat) (hV : ReadsValues f) (hM : ReadsMembers f) :
    ReadsMembers (f + 1) := by
  intro ps indent stepback rest acc hne hps hind hstep hacc hlen
  have hws : ∀ c ∈ 10 :: indent, isJSONWhiteSpace c = true := by
    intro c hc
    rcases List.mem_cons.mp hc with hc | hc
    · rw [hc]; decide
    · exact spaces_whiteSpace _ hind c hc
  have hws2 : ∀ c ∈ 10 :: stepback, isJSONWhiteSpace c = true := by
    intro c hc
    rcases List.mem_cons.mp hc with hc | hc
    · rw [hc]; decide
    · exact spaces_whiteSpace _ hstep c hc
  have hws3 : ∀ c ∈ [32], isJSONWhiteSpace c = true := by
    intro c hc
    rw [List.mem_singleton.mp hc]
    decide
  cases ps with
  | nil => exact absurd rfl hne
  | cons p ps =>
    obtain ⟨k, x⟩ := p
    simp only [RestorableMembers] at hps
    obtain ⟨hk, hdist, hx, hps⟩ := hps
    obtain ⟨tx, htx⟩ := serializeJSONProperty_some [32, 32] indent x hx
    have hset : setProperty acc k x = acc ++ [(k, x)] :=
      setProperty_append acc k x hk (fun p hp => hacc p hp (k, x) (List.mem_cons_self _ _))
    simp only [serializeJSONMembers, htx, joinWith_cons] at hlen ⊢
    simp only [show ¬ (([32, 32] : JSString) = []) by decide, if_false] at hlen ⊢
    by_cases hnil : ps = []
    · subst hnil
      simp only [serializeJSONMembers, if_true, List.append_nil] at hlen ⊢
      simp only [List.length_append, List.length_cons] at hlen
      have e : quoteJSONString k ++ [58] ++ [32] ++ tx ++ 10 :: (stepback ++ 125 :: rest) =
          quoteJSONString k ++ (58 :: ([32] ++ (tx ++ 10 :: (stepback ++ 125 :: rest)))) := by
        simp
      obtain ⟨body, hb, hp⟩ := parseJSONString_quoteJSONString k
        (58 :: ([32] ++ (tx ++ 10 :: (stepback ++ 125 :: rest))))
      rw [e, hb, parseJSONMembers, skipWhiteSpace_cons 34 _ (by decide)]
      simp only [hp]
      rw [skipWhiteSpace_cons 58 _ (by decide)]
      simp only
      rw [parseJSONValue_skip _ _ _ hws3, hV x indent tx _ hx hind htx (by omega) (by rfl)]
      simp only
      rw [← List.cons_append, skipWhiteSpace_append _ _ hws2,
        skipWhiteSpace_cons 125 _ (by decide)]
      simp only [hset]
    · have hparts : serializeJSONMembers [32, 32] indent ps ≠ [] := by
        cases ps with
        | nil => exact absurd rfl hnil
        | cons q qs =>
          obtain ⟨k2, y⟩ := q
          simp only [RestorableMembers] at hps
          obtain ⟨ty, hty⟩ := serializeJSONProperty_some [32, 32] indent y hps.2.2.1
          simp [serializeJSONMembers, hty]
      rw [if_neg hparts] at hlen ⊢
      simp only [List.length_append, List.length_cons] at hlen
      have e : quoteJSONString k ++ [58] ++ [32] ++ tx ++ ([44, 10] ++ indent ++
            joinWith ([44, 10] ++ indent) (serializeJSONMembers [32, 32] indent ps)) ++
          10 :: (stepback ++ 125 :: rest) =
          quoteJSONString k ++ (58 :: ([32] ++ (tx ++ (44 :: ((10 :: indent) ++
            (joinWith ([44, 10] ++ indent) (serializeJSONMembers [32, 32] indent ps) ++
              10 :: (stepback ++ 125 :: rest))))))) := by
        simp
      obtain ⟨body, hb, hp⟩ := parseJSONString_quoteJSONString k
        (58 :: ([32] ++ (tx ++ (44 :: ((10 :: indent) ++
            (joinWith ([44, 10] ++ indent) (serializeJSONMembers [32, 32] indent ps) ++
              10 :: (stepback ++ 125 :: rest)))))))
      rw [e, hb, parseJSONMembers, skipWhiteSpace_cons 34 _ (by decide)]
      simp only [hp]
      rw [skipWhiteSpace_cons 58 _ (by decide)]
      simp only
      rw [parseJSONValue_skip _ _ _ hws3, hV x indent tx _ hx hind htx (by omega) (by rfl)]
      simp only
      rw [skipWhiteSpace_cons 44 _ (by decide)]
      simp only
      have hacc2 : ∀ p ∈ acc ++ [(k, x)], ∀ q ∈ ps, p.1 ≠ q.1 := by
        intro p hp q hq
        rcases List.mem_append.mp hp with hp | hp
        · exact hacc p hp q (List.mem_cons_of_mem _ hq)
        · rw [List.mem_singleton.mp hp]
          exact fun h => hdist q hq h.symm
      rw [hset, parseJSONMembers_skip _ _ _ _ hws,
        hM ps indent stepback rest (acc ++ [(k, x)]) hnil hps hind hstep hacc2 (by omega)]
      simp

/-- With any fuel, the parser reads restorable values, elements and members back from
their texts. -/
theorem reads_all (fuel : Nat) : ReadsValues fuel ∧ ReadsElements fuel ∧ ReadsMembers fuel := by
  induction fuel with
  | zero => exact ⟨readsValues_zero, readsElements_zero, readsMembers_zero⟩
  | succ f ih =>
    exact ⟨readsValues_succ f ih.2.1 ih.2.2, readsElements_succ f ih.1 ih.2.1,
      readsMembers_succ f ih.1 ih.2.2⟩

/-- Parsing the text that `JSON.stringify(v, null, 2)` writes for a restorable value gives
the value back. -/
theorem JSON_parse_stringify (v : JSValue) (hv : Restorable v) :
    (JSON_stringify v).map JSON_parse = some (.ok v) := by
  obtain ⟨t, ht⟩ := serializeJSONProperty_some [32, 32] [] v hv
  have key := (reads_all (t.length + 1)).1 v [] t [] hv (by simp) ht (by omega) (by rfl)
  rw [List.append_nil] at key
  simp only [JSON_stringify, ht, Option.map_some', JSON_parse, key]
  rfl

theorem restorable_item (item : Item) (h : NumberRestores item.quantity) :
    Restorable item.toJS := by
  have k1 : arrayIndex (js "value") = none := by decide
  have k2 : arrayIndex (js "price") = none := by decide
  have k3 : ¬ (js "price" = js "value") := by decide
  simp [Item.toJS, Restorable, RestorableElements, RestorableMembers, k1, k2, k3, h]

theorem restorable_items (parts : List Item) (h : ∀ item ∈ parts, NumberRestores item.quantity) :
    RestorableElements (parts.map Item.toJS) := by
  induction parts with
  | nil => simp [RestorableElements]
  | cons item parts ih =>
    simp only [List.map_cons, RestorableElements]
    exact ⟨restorable_item item (h item (List.mem_cons_self _ _)),
      ih (fun i hi => h i (List.mem_cons_of_mem _ hi))⟩

theorem restorable_details (parts : List Item)
    (h : ∀ item ∈ parts, NumberRestores item.quantity) : Restorable (detailsOf parts) := by
  have k1 : arrayIndex (js "value") = none := by decide
  have k2 : arrayIndex (js "price") = none := by decide
  have k3 : arrayIndex (js "label") = none := by decide
  have k4 : arrayIndex (js "header") = none := by decide
  have k5 : arrayIndex (js "parts") = none := by decide
  have k6 : arrayIndex (js "total") = none := by decide
  have d1 : ¬ (js "price" = js "value") := by decide
  have d2 : ¬ (js "value" = js "label") := by decide
  have d3 : ¬ (js "price" = js "label") := by decide
  have d4 : ¬ (js "parts" = js "header") := by decide
  have d5 : ¬ (js "total" = js "header") := by decide
  have d6 : ¬ (js "total" = js "parts") := by decide
  simp [detailsOf, Restorable, RestorableElements, RestorableMembers, k1, k2, k3, k4, k5, k6,
    d1, d2, d3, d4, d5, d6, restorable_items parts h]

theorem restorable_record (fileName invoiceNumber invoiceDate name address customerId : JSString)
    (details : JSValue) (h : Restorable details) :
    Restorable (invoiceDataOf fileName invoiceNumber invoiceDate
      (customerDataOf name address customerId) details) := by
  have k1 : arrayIndex (js "value") = none := by decide
  have k3 : arrayIndex (js "label") = none := by decide
  have k4 : arrayIndex (js "header") = none := by decide
  have k5 : arrayIndex (js "fileName") = none := by decide
  have k6 : arrayIndex (js "data") = none := by decide
  have k7 : arrayIndex (js "invoice") = none := by decide
  have k8 : arrayIndex (js "name") = none := by decide
  have k9 : arrayIndex (js "currency") = none := by decide
  have k10 : arrayIndex (js "customer") = none := by decide
  have k11 : arrayIndex (js "seller") = none := by decide
  have k12 : arrayIndex (js "details") = none := by decide
  have d1 : ¬ (js "value" = js "label") := by decide
  have d2 : ¬ (js "data" = js "fileName") := by decide
  have d3 : ¬ (js "header" = js "name") := by decide
  have d4 : ¬ (js "currency" = js "name") := by decide
  have d5 : ¬ (js "customer" = js "name") := by decide
  have d6 : ¬ (js "seller" = js "name") := by decide
  have d7 : ¬ (js "details" = js "name") := by decide
  have d8 : ¬ (js "currency" = js "header") := by decide
  have d9 : ¬ (js "customer" = js "header") := by decide
  have d10 : ¬ (js "seller" = js "header") := by decide
  have d11 : ¬ (js "details" = js "header") := by decide
  have d12 : ¬ (js "customer" = js "currency") := by decide
  have d13 : ¬ (js "seller" = js "currency") := by decide
  have d14 : ¬ (js "details" = js "currency") := by decide
  have d15 : ¬ (js "seller" = js "customer") := by decide
  have d16 : ¬ (js "details" = js "customer") := by decide
  have d17 : ¬ (js "details" = js "seller") := by decide
  simp [invoiceDataOf, customerDataOf, SELLER_INFO, labelled, Restorable, RestorableElements,
    RestorableMembers, k1, k3, k4, k5, k6, k7, k8, k9, k10, k11, k12,
    d1, d2, d3, d4, d5, d6, d7, d8, d9, d10, d11, d12, d13, d14, d15, d16, d17, h]

/-- C4, amended: a record built by `createNewInvoice` in which `parseInt` gave every
quantity cell a finite Number other than `-0` is restored: parsing (`JSON.parse` in
`generateInvoicePDF`) the text that `JSON.stringify(invoiceData, null, 2)` writes for it
gives a record equal to the one saved. -/
theorem saved_record_is_restored
    (fileName invoiceNumber invoiceDate name address customerId : JSString)
    (entered : List (JSString × JSString × JSString))
    (hq : ∀ a ∈ entered, ∃ neg m e, parseInt a.2.1 = .fin neg m e ∧ ¬ (neg = true ∧ m = 0)) :
    (JSON_stringify (invoiceDataOf fileName invoiceNumber invoiceDate
        (customerDataOf name address customerId)
        (detailsOf (entered.map itemOfAnswers)))).map JSON_parse =
      some (.ok (invoiceDataOf fileName invoiceNumber invoiceDate
        (customerDataOf name address customerId)
        (detailsOf (entered.map itemOfAnswers)))) := by
  apply JSON_parse_stringify
  apply restorable_record
  apply restorable_details
  intro item hitem
  obtain ⟨a, ha, rfl⟩ := List.mem_map.mp hitem
  obtain ⟨neg, m, e, h, hz⟩ := hq a ha
  exact parseInt_restores a.2.1 neg m e h hz

/-- C4, witness: the record of `Acme` with the item (Widget, `2`, `19.99`) is restored. -/
theorem saved_record_is_restored_witness :
    parseInt (js "2") = .fin false 1 1 ∧
    (JSON_stringify (invoiceDataOf (js "acme-invoice.pdf") (js "INV-1") (js "2024-01-01")
        (customerDataOf (js "Bob") (js "1 Main St") (js "C-7"))
        (detailsOf ([(js "Widget", js "2", js "19.99")].map itemOfAnswers)))).map JSON_parse =
      some (.ok (invoiceDataOf (js "acme-invoice.pdf") (js "INV-1") (js "2024-01-01")
        (customerDataOf (js "Bob") (js "1 Main St") (js "C-7"))
        (detailsOf ([(js "Widget", js "2", js "19.99")].map itemOfAnswers)))) :=
  ⟨by decide!,
    saved_record_is_restored (js "acme-invoice.pdf") (js "INV-1") (js "2024-01-01")
      (js "Bob") (js "1 Main St") (js "C-7") [(js "Widget", js "2", js "19.99")]
      (by
        intro a ha
        rw [List.mem_singleton.mp ha]
        exact ⟨false, 1, 1, by decide!, by decide⟩)⟩

end Invoicer
